import Mathlib

/-!
Crafted items: codec and stat derivation (`js/craft.js`).

A shallow embedding of `js/craft.js` and theorems about it.

Modelling conventions.

* JavaScript numbers are rationals; `none` in `Option ℚ` / `Option Int`
  stands for `NaN`.  The products, sums and quotients of the stat derivation are
  rounded to IEEE 754 binary64 by `fl64`, and its decimal literals are read
  through `fl64`; sums of integer entries are exact.  Overflow to `Infinity`,
  subnormal numbers and the sign of zero are outside the model.  The ratios of
  `getAttackSpeedRatio` are kept as exact fractions as well; the derivation uses
  the binary64 numbers `attackSpeedRatio64`.
* Hash strings are lists of characters (`Str`); keys, type tags and names
  that are only compared are `String`.
* A thrown JavaScript exception is `Except.error`; the value `undefined`
  returned by a function is `none`.
* `craft.ingreds` has six entries and `craft.mat_tiers` two, as the
  constructor's documentation says; the types `Six` and `Int × Int` fix this.
* The reference tables, the classification predicates and the base64
  alphabet are declared outside `js/craft.js`; they are the fields of `Env`.
-/

namespace Crafter

/-! ## Basic types -/

/-- A hash string, as a list of characters. -/
abbrev Str := List Char

/-- The exceptions the code can raise. -/
inductive Err where
  | assertion
  | bufferUnderrun
  | badSlice
  | invalidChar
  | typeError
  deriving DecidableEq, Repr

/-- An array with exactly six entries (`craft.ingreds`). -/
structure Six (α : Type) where
  s0 : α
  s1 : α
  s2 : α
  s3 : α
  s4 : α
  s5 : α
  deriving DecidableEq, Repr

/-- The six entries in slot order. -/
def Six.toList {α : Type} (x : Six α) : List α := [x.s0, x.s1, x.s2, x.s3, x.s4, x.s5]

/-- Apply a function to each of the six entries. -/
def Six.map {α β : Type} (f : α → β) (x : Six α) : Six β :=
  ⟨f x.s0, f x.s1, f x.s2, f x.s3, f x.s4, f x.s5⟩

/-- Keys of an ingredient's `itemIDs` map. -/
inductive ItemKey where
  | dura
  | strReq
  | dexReq
  | intReq
  | defReq
  | agiReq
  deriving DecidableEq, Repr

/-- Keys of an ingredient's `consumableIDs` map. -/
inductive ConsKey where
  | dura
  | charges
  deriving DecidableEq, Repr

/-- Position of a requirement key in `skp_order`; `none` for `dura`. -/
def ItemKey.reqIdx : ItemKey → Option Nat
  | .dura => none
  | .strReq => some 0
  | .dexReq => some 1
  | .intReq => some 2
  | .defReq => some 3
  | .agiReq => some 4

/-- Modelled from the spec: the expanded recipe record (built by `expandRecipe`, which is
declared outside `js/craft.js`): identifier, type tag, level range, health-or-damage range,
durability range, duration range, base duration and the declared amounts of the two
materials. -/
structure Recipe where
  id : Nat
  type : String
  lvl : Int × Int
  healthOrDamage : Int × Int
  durability : Int × Int
  duration : Int × Int
  basicDuration : Int × Int
  amounts : Nat × Nat
  deriving DecidableEq, Repr

/-- Modelled from the spec: the expanded ingredient record (built by `expandIngredient`,
which is declared outside `js/craft.js`): identifier, name, powder flag and powder id,
positional modifiers, item-attribute deltas, consumable deltas and, for each rollable
attribute id, the pair (minRoll, maxRoll), each map in iteration order. -/
structure Ingredient where
  id : Nat
  name : String
  isPowder : Bool
  pid : Nat
  posMods : List (String × Int)
  itemIDs : List (ItemKey × Int)
  consumableIDs : List (ConsKey × Int)
  rolls : List (String × Int × Int)
  deriving DecidableEq, Repr

/-- Modelled from the spec: an entry of `powderStats` (declared outside `js/craft.js`):
the defense bonus and the defense penalty of a powder. -/
structure Powder where
  defPlus : Int
  defMinus : Int
  deriving DecidableEq, Repr

/-- Modelled from the spec: everything `js/craft.js` reads that is declared elsewhere:
the base64 alphabet of the `Base64` helper, the id lookups
(`expandIngredient(ingMap.get(ingIDMap.get(id)))`, `expandRecipe(recipeMap.get(recipeIDMap.get(id)))`),
the classification of types, the rollable attribute ids and the powder tables. -/
structure Env where
  digits : List Char
  ingLookup : Nat → Option Ingredient
  recipeLookup : Nat → Option Recipe
  getCategory : String → Option String
  isArmor : String → Bool
  isWeapon : String → Bool
  isConsumable : String → Bool
  weaponTypes : List String
  consumableTypes : List String
  rolledIDs : List String
  powderStats : Nat → Option Powder
  powderNames : Nat → Option String

/-- Modelled from the spec: `skp_order`, the five skill attributes in canonical order
(declared outside `js/craft.js`). -/
def skp_order : List String := ["str", "dex", "int", "def", "agi"]

/-- Modelled from the spec: `skp_elements`, the prefixes of the five-element cycle
earth, thunder, water, fire, air (declared outside `js/craft.js`). -/
def skp_elements : List String := ["e", "t", "w", "f", "a"]

/-- The method `toLowerCase` on the ASCII type tags. -/
def toLowerCase (s : String) : String := String.mk (s.data.map Char.toLower)

/-! ## Constants of `CRAFTER_ENC` -/

/-- The table `CRAFTER_ENC.CRAFTED_ATK_SPD`, `BITLEN` included as in the source;
`none` is `undefined`. -/
def CRAFTED_ATK_SPD : Option String → Option Int
  | some "SLOW" => some 0
  | some "NORMAL" => some 1
  | some "FAST" => some 2
  | some "BITLEN" => some 4
  | _ => none

/-- Bit length `CRAFTER_ENC.CRAFTED_ATK_SPD.BITLEN`. -/
def ATK_SPD_BITLEN : Nat := 4
/-- Constant `CRAFTER_ENC.MAT_TIER_BITLEN`. -/
def MAT_TIER_BITLEN : Nat := 3
/-- Constant `CRAFTER_ENC.NUM_MATS`. -/
def NUM_MATS : Nat := 2
/-- Constant `CRAFTER_ENC.NUM_INGS`. -/
def NUM_INGS : Nat := 6
/-- Constant `CRAFTER_ENC.ING_ID_BITLEN`. -/
def ING_ID_BITLEN : Nat := 12
/-- Constant `CRAFTER_ENC.RECIPE_ID_BITLEN`. -/
def RECIPE_ID_BITLEN : Nat := 12
/-- Constant `CRAFTER_ENC.CRAFTED_VERSION_BITLEN`. -/
def CRAFTED_VERSION_BITLEN : Nat := 7
/-- Constant `CRAFTER_ENC.CRAFTED_ENCODING_VERSION`. -/
def CRAFTED_ENCODING_VERSION : Int := 2

/-- The array `CRAFTER_ENC.CRAFTED_ATK_SPD_ID`: the keys of `CRAFTED_ATK_SPD` without the
last one. -/
def CRAFTED_ATK_SPD_ID : List String := ["SLOW", "NORMAL", "FAST"]

/-! ## Bit buffer, cursor and base64 -/

/-- Modelled from the spec: the low `n` bits of `v`, least significant first (the fixed bit
order of `BitVector.append`, which is declared outside `js/craft.js`). -/
def toBits (v : Int) : Nat → List Bool
  | 0 => []
  | n + 1 => decide (v % 2 = 1) :: toBits (v / 2) n

/-- Modelled from the spec: the unsigned integer held by a run of bits, least significant
first (what `BitVectorCursor.advanceBy` returns). -/
def fromBits : List Bool → Nat
  | [] => 0
  | b :: bs => (if b then 1 else 0) + 2 * fromBits bs

/-- Modelled from the spec: `BitVector.append(value, bitlen)` writes the low `bitlen` bits
of `value` at the end of the buffer. -/
def append (vec : List Bool) (value : Int) (bitlen : Nat) : List Bool :=
  vec ++ toBits value bitlen

/-- Modelled from the spec: a `BitVectorCursor`, a read position inside a bit buffer. -/
structure Cursor where
  bitVec : List Bool
  currIdx : Nat
  deriving DecidableEq, Repr

/-- Modelled from the spec: `advanceBy(n)` reads and consumes `n` bits; it fails with a
buffer underrun if fewer than `n` bits remain. -/
def Cursor.advanceBy (c : Cursor) (n : Nat) : Except Err (Nat × Cursor) :=
  if c.currIdx + n ≤ c.bitVec.length then
    .ok (fromBits ((c.bitVec.drop c.currIdx).take n), { c with currIdx := c.currIdx + n })
  else .error .bufferUnderrun

/-- Modelled from the spec: `advance()` is `advanceBy(1)`. -/
def Cursor.advance (c : Cursor) : Except Err (Nat × Cursor) := c.advanceBy 1

/-- Modelled from the spec: `skip(n)` consumes `n` bits without reading them; it fails with
a buffer underrun if fewer than `n` bits remain. -/
def Cursor.skip (c : Cursor) (n : Nat) : Except Err Cursor :=
  if c.currIdx + n ≤ c.bitVec.length then .ok { c with currIdx := c.currIdx + n }
  else .error .bufferUnderrun

/-- Modelled from the spec: the character of a base64 digit value. -/
def digitChar (E : Env) (d : Nat) : Char := E.digits.getD d '?'

/-- Modelled from the spec: the digit value of a base64 character; `none` when the
character is not in the alphabet. -/
def digitOf (E : Env) (c : Char) : Option Nat :=
  if E.digits.indexOf c < E.digits.length then some (E.digits.indexOf c) else none

/-- Modelled from the spec: the base64 text of a bit sequence, one character for each
successive group of 6 bits. -/
def b64OfBits (E : Env) : List Bool → Str
  | b0 :: b1 :: b2 :: b3 :: b4 :: b5 :: rest =>
      digitChar E (fromBits [b0, b1, b2, b3, b4, b5]) :: b64OfBits E rest
  | _ => []

/-- Modelled from the spec: `sliceB64(start, end)` returns the base64 string of the bits
`[start, end)`; it requires `(end - start) % 6 == 0`. -/
def sliceB64 (E : Env) (vec : List Bool) (start stop : Nat) : Except Err Str :=
  if (stop - start) % 6 = 0 ∧ start ≤ stop ∧ stop ≤ vec.length then
    .ok (b64OfBits E ((vec.drop start).take (stop - start)))
  else .error .badSlice

/-- Modelled from the spec: the bits of a base64 string (`new BitVector(hash, hash.length * 6)`),
6 bits for each character; a character outside the alphabet is an error. -/
def bitsOfB64 (E : Env) : Str → Except Err (List Bool)
  | [] => .ok []
  | c :: cs =>
    match digitOf E c with
    | none => .error .invalidChar
    | some d =>
      match bitsOfB64 E cs with
      | .ok bs => .ok (toBits (d : Int) 6 ++ bs)
      | .error e => .error e

/-- Modelled from the spec: `Base64.fromIntN(int, n)`, the `n`-character base64 text of the
low `6 n` bits of `int`, most significant digit first. -/
def fromIntN (E : Env) (v : Int) : Nat → Str
  | 0 => []
  | n + 1 => fromIntN E (v / 64) n ++ [digitChar E (v % 64).toNat]

/-- Accumulator loop of `Base64.toInt`; `none` is `NaN`. -/
def toIntAux (E : Env) : Option Nat → Str → Option Nat
  | acc, [] => acc
  | acc, c :: cs =>
    toIntAux E (match acc, digitOf E c with
      | some a, some d => some (a * 64 + d)
      | _, _ => none) cs

/-- Modelled from the spec: `Base64.toInt(str)`, the integer a base64 text denotes, most
significant digit first; `none` (`NaN`) when a character is outside the alphabet. -/
def toInt (E : Env) (s : Str) : Option Nat := toIntAux E (some 0) s

/-- The string method `substring(a, b)` for `a ≤ b`. -/
def substring (s : Str) (a b : Nat) : Str := (s.drop a).take (b - a)

/-! ## The attribute map -/

/-- A number held in the attribute map: an integer, or `none` for `NaN`. -/
abbrev JSInt := Option Int

/-- Lookup in a map kept as a list of entries in insertion order (`Map.get`). -/
def mapGet {α : Type} : List (String × α) → String → Option α
  | [], _ => none
  | (k', v) :: rest, k => if k' = k then some v else mapGet rest k

/-- Insertion in a map kept as a list of entries in insertion order (`Map.set`). -/
def mapSet {α : Type} : List (String × α) → String → α → List (String × α)
  | [], k, v => [(k, v)]
  | (k', v') :: rest, k, v => if k' = k then (k', v) :: rest else (k', v') :: mapSet rest k v

/-- Membership in a map (`Map.has`). -/
def mapHas {α : Type} (m : List (String × α)) (k : String) : Bool := (mapGet m k).isSome

/-- A displayed value: the number it was initialised with, or the string `lo + "-" + hi`
kept as its two numbers. -/
inductive Disp where
  | num (v : Int)
  | range (lo hi : JSInt)
  deriving DecidableEq, Repr

/-- The entries of the attribute map for one damage key stem `p`: `p + "DamBaseLow"` and
`p + "DamBaseHigh"` (absent until set), the string `p + "DamLow"` (absent until set) and
`p + "Dam"`. -/
structure DamEntry where
  damBase : Option (JSInt × JSInt)
  damLow : Option (JSInt × JSInt)
  dam : Disp
  deriving DecidableEq, Repr

/-- The attribute map `statMap`, one field for each key the code sets.  The families
`x + "Dam..."` and `x + "Def"` are maps from the stem `x`; the entries `skp_order[e] + "Req"`
and `skp_order[e]` are arrays indexed by `e`. -/
structure StatMap where
  crafted : Bool
  minRolls : List (String × Int)
  maxRolls : List (String × Int)
  name : Str
  displayName : Str
  tier : String
  type : String
  duration : JSInt × JSInt
  durability : JSInt × JSInt
  lvl : Int
  lvlLow : Int
  hp : Disp
  hpLow : JSInt
  powders : List Nat
  reqs : List Int
  skillpoints : List Int
  dams : List (String × DamEntry)
  defs : List (String × Int)
  skillReqs : List Int
  skills : List Int
  category : Option String
  slots : Int
  charges : Int
  atkSpd : Option String
  ingredPowders : Option (List Nat)
  ingredEffectiveness : Option (List Int)
  hash : Option Str
  deriving DecidableEq, Repr

/-- A crafted item: the fields the constructor stores. -/
structure Craft where
  recipe : Recipe
  mat_tiers : Int × Int
  ingreds : Six Ingredient
  atkSpd : Option String
  hash : Str
  statMap : StatMap
  deriving DecidableEq, Repr

/-! ## Numbers -/

/-- The function `Math.floor`. -/
def jsFloor (x : Option ℚ) : JSInt := x.map Int.floor

/-- The function `Math.round`: the nearest integer, halves rounded up. -/
def jsRound (x : Option ℚ) : JSInt := x.map (fun q => Int.floor (q + 1 / 2))

/-- The integer nearest to `y`; of two nearest integers the even one. -/
def roundEven (y : ℚ) : Int :=
  if y - ⌊y⌋ < 1 / 2 then ⌊y⌋
  else if 1 / 2 < y - ⌊y⌋ then ⌊y⌋ + 1
  else if ⌊y⌋ % 2 = 0 then ⌊y⌋
  else ⌊y⌋ + 1

/-- The JavaScript number (IEEE 754 binary64) nearest to `x`: `x` rounded to 53 significant
bits, a tie going to the even significand.  The exponent is unbounded. -/
def fl64 (x : ℚ) : ℚ :=
  if x = 0 then 0
  else (roundEven (x / 2 ^ (Int.log 2 |x| - 52)) : ℚ) * 2 ^ (Int.log 2 |x| - 52)

/-- The product `a * b` of two JavaScript numbers: the exact product rounded to binary64.
A factor 1 leaves the other factor as it is. -/
def mul64 (a b : ℚ) : ℚ := if a = 1 then b else if b = 1 then a else fl64 (a * b)

/-- The sum `a + b` of two JavaScript numbers. -/
def add64 (a b : ℚ) : ℚ := fl64 (a + b)

/-- The quotient `a / b` of two JavaScript numbers, `b` not zero. -/
def div64 (a b : ℚ) : ℚ := fl64 (a / b)

/-- The decimal number that the string `x.toFixed(2)` denotes: the multiple of 1/100 nearest
to `x`, a tie going away from zero; from `1e21` on the string denotes `x` itself. -/
def toFixed2 (x : ℚ) : ℚ :=
  if 10 ^ 21 ≤ |x| then x
  else if x < 0 then -((⌊-x * 100 + 1 / 2⌋ : Int) : ℚ) / 100
  else ((⌊x * 100 + 1 / 2⌋ : Int) : ℚ) / 100

/-- Product of an integer entry and a multiplier. -/
def jsMul (x : JSInt) (m : Option ℚ) : Option ℚ :=
  match x, m with
  | some a, some b => some (mul64 (a : ℚ) b)
  | _, _ => none

/-- Sum of an integer entry and an integer. -/
def jsAdd (x : JSInt) (v : Int) : JSInt := x.map (fun a => a + v)

/-! ## Effectiveness matrix -/

/-- The effectiveness matrix `eff`: an array of rows. -/
abbrev Eff := List (List Int)

/-- The statement `eff[k][l] += value`; it throws when row `k` does not exist.  The code
only uses columns `l` that exist. -/
def addAt (eff : Eff) (k l : Nat) (value : Int) : Except Err Eff :=
  match eff.get? k with
  | none => .error .typeError
  | some row =>
    match row.get? l with
    | none => .error .typeError
    | some x => .ok (eff.set k (row.set l (x + value)))

/-- The statement `eff[k][l] += value` run for each listed cell in turn. -/
def addAtAll (eff : Eff) (cells : List (Nat × Nat)) (value : Int) : Except Err Eff :=
  cells.foldlM (fun e c => addAt e c.1 c.2 value) eff

/-- The value `Math.abs(a - b)` on indices. -/
def absDiff (a b : Nat) : Nat := if a ≤ b then b - a else a - b

/-- The cells `(k, l)` of `eff` in the order of the loops `for (let k in eff) for (let l in eff[k])`. -/
def cellsOf (eff : Eff) : List (Nat × Nat) :=
  (eff.enum.map (fun kr => (List.range kr.2.length).map (fun l => (kr.1, l)))).flatten

/-- The method `applyEffectivenessModification(key, i, j, eff, value)`.  An unknown key
makes the source return `undefined`, on which its caller throws at the next use: both are
`error` here. -/
def applyEffectivenessModification (key : String) (i j : Nat) (eff : Eff) (value : Int) :
    Except Err Eff :=
  if key = "above" then
    addAtAll eff ((List.range i).reverse.map (fun k => (k, j))) value
  else if key = "under" then
    addAtAll eff ((List.range' (i + 1) (3 - (i + 1))).map (fun k => (k, j))) value
  else if key = "left" then
    if j = 1 then addAt eff i (j - 1) value else .ok eff
  else if key = "right" then
    if j = 0 then addAt eff i (j + 1) value else .ok eff
  else if key = "touching" then
    addAtAll eff ((cellsOf eff).filter (fun c =>
      (absDiff c.1 i = 1 ∧ absDiff c.2 j = 0) ∨ (absDiff c.1 i = 0 ∧ absDiff c.2 j = 1))) value
  else if key = "notTouching" then
    addAtAll eff ((cellsOf eff).filter (fun c =>
      absDiff c.1 i > 1 ∨ (absDiff c.1 i = 1 ∧ absDiff c.2 j = 1))) value
  else .error .typeError

/-- The inner loop of `getIngredientEffectiveness`: the positional modifiers of the
ingredient in slot `n`, zero values skipped. -/
def applyPosMods (n : Nat) : List (String × Int) → Eff → Except Err Eff
  | [], eff => .ok eff
  | (key, value) :: rest, eff =>
    if value = 0 then applyPosMods n rest eff
    else
      match applyEffectivenessModification key (n / 2) (n % 2) eff value with
      | .ok eff1 => applyPosMods n rest eff1
      | .error e => .error e

/-- The outer loop of `getIngredientEffectiveness` over (slot, ingredient) pairs. -/
def effLoop : List (Nat × Ingredient) → Eff → Except Err Eff
  | [], eff => .ok eff
  | (n, ingred) :: rest, eff =>
    match applyPosMods n ingred.posMods eff with
    | .ok eff1 => effLoop rest eff1
    | .error e => .error e

/-- The method `getIngredientEffectiveness`. -/
def getIngredientEffectiveness (ingreds : Six Ingredient) : Except Err Eff :=
  effLoop ingreds.toList.enum [[100, 100], [100, 100], [100, 100]]

/-! ## Stat derivation -/

/-- The method `initStatMap`; `thisHash` is `this.hash`. -/
def initStatMap (recipe : Recipe) (thisHash : Str) : StatMap :=
  { crafted := true
    minRolls := []
    maxRolls := []
    name := thisHash
    displayName := thisHash
    tier := "Crafted"
    type := toLowerCase recipe.type
    duration := (some recipe.duration.1, some recipe.duration.2)
    durability := (some recipe.durability.1, some recipe.durability.2)
    lvl := recipe.lvl.2
    lvlLow := recipe.lvl.1
    hp := .num 0
    hpLow := some 0
    powders := []
    reqs := [0, 0, 0, 0, 0]
    skillpoints := [0, 0, 0, 0, 0]
    dams := ("n", ⟨none, none, .num 0⟩) ::
      skp_elements.map (fun e => (e, ⟨none, none, .range (some 0) (some 0)⟩))
    defs := skp_elements.map (fun e => (e, 0))
    skillReqs := skp_order.map (fun _ => 0)
    skills := skp_order.map (fun _ => 0)
    category := none
    slots := 0
    charges := 0
    atkSpd := none
    ingredPowders := none
    ingredEffectiveness := none
    hash := none }

/-- The shared body of `getPowderSlotCount` and `getConsumableCharges` after the type test. -/
def countByLevel (recipe : Recipe) : Int :=
  if recipe.lvl.1 < 30 then 1 else if recipe.lvl.1 < 70 then 2 else 3

/-- The method `getPowderSlotCount`. -/
def getPowderSlotCount (E : Env) (recipe : Recipe) (statMap : StatMap) : Int :=
  if !E.isArmor statMap.type && !E.isWeapon statMap.type then 0 else countByLevel recipe

/-- The method `getConsumableCharges`. -/
def getConsumableCharges (E : Env) (recipe : Recipe) (statMap : StatMap) : Int :=
  if !E.isConsumable statMap.type then 0 else countByLevel recipe

/-- The array `tierToMult = [0, 1, 1.25, 1.4]`; an index outside it gives `undefined`. -/
def tierToMult (t : Int) : Option ℚ :=
  if t = 0 then some 0
  else if t = 1 then some 1
  else if t = 2 then some (fl64 1.25)
  else if t = 3 then some (fl64 1.4)
  else none

/-- The method `getMaterialMultiplier`; `none` is `NaN` (an undefined tier multiplier, or
`0 / 0` when both amounts are 0). -/
def getMaterialMultiplier (recipe : Recipe) (mat_tiers : Int × Int) : Option ℚ :=
  match tierToMult mat_tiers.1, tierToMult mat_tiers.2 with
  | some m0, some m1 =>
    if recipe.amounts.1 + recipe.amounts.2 = 0 then none
    else some (div64 (add64 (mul64 m0 recipe.amounts.1) (mul64 m1 recipe.amounts.2))
      (add64 recipe.amounts.1 recipe.amounts.2))
  | _, _ => none

/-- The method `getAttackSpeedRatio` with exact fractions. -/
def getAttackSpeedRatio (atkSpd : Option String) : ℚ :=
  if atkSpd = some "SLOW" then 2.05 / 1.5
  else if atkSpd = some "NORMAL" then 1
  else if atkSpd = some "FAST" then 2.05 / 2.5
  else 2.05

/-- The JavaScript number that the method `getAttackSpeedRatio` returns: the literals and the
quotient `ratio /= 1.5` or `ratio /= 2.5` are binary64 numbers. -/
def attackSpeedRatio64 (atkSpd : Option String) : ℚ :=
  if atkSpd = some "SLOW" then div64 (fl64 2.05) (fl64 1.5)
  else if atkSpd = some "NORMAL" then 1
  else if atkSpd = some "FAST" then div64 (fl64 2.05) (fl64 2.5)
  else fl64 2.05

/-- The method `isAllNone`. -/
def isAllNone (ingreds : Six Ingredient) : Bool :=
  ingreds.toList.all (fun ingred => ingred.name = "No Ingredient")

/-- The method `computeElementDamage`; `stem` is its parameter `elementPrefix`. -/
def computeElementDamage (stem : String) (damageBaseLow damageBaseHigh : JSInt)
    (statMap : StatMap) : StatMap :=
  let upperMult : ℚ := fl64 1.1
  let lowerMult : ℚ := fl64 0.9
  let low1 := jsFloor (jsMul damageBaseLow (some lowerMult))
  let low2 := jsFloor (jsMul damageBaseLow (some upperMult))
  let high1 := jsFloor (jsMul damageBaseHigh (some lowerMult))
  let high2 := jsFloor (jsMul damageBaseHigh (some upperMult))
  { statMap with
    dams := mapSet statMap.dams stem
      ⟨some (damageBaseLow, damageBaseHigh), some (low1, low2), .range high1 high2⟩ }

/-- The method `applyWeaponDamages`. -/
def applyWeaponDamages (ingreds : Six Ingredient) (atkSpd : Option String)
    (damageLow damageHigh : JSInt) (statMap : StatMap) : StatMap :=
  let ratio := attackSpeedRatio64 atkSpd
  let nDamBaseLow := jsFloor (jsMul damageLow (some ratio))
  let nDamBaseHigh := jsFloor (jsMul damageHigh (some ratio))
  let powders := (ingreds.toList.filter (fun ingred => ingred.isPowder)).map (fun ingred => ingred.pid)
  let statMap := { statMap with ingredPowders := some powders }
  let statMap := computeElementDamage "n" nDamBaseLow nDamBaseHigh statMap
  skp_elements.foldl (fun m e => computeElementDamage e (some 0) (some 0) m) statMap

/-- The value `list.indexOf(x)`, which is `-1` when `x` is absent. -/
def jsIndexOf (l : List String) (x : String) : Int :=
  if l.indexOf x < l.length then (l.indexOf x : Int) else -1

/-- The value `str.charAt(0)`: the first character as a string, empty for the empty string. -/
def charAt0 (s : String) : String := String.mk (s.data.take 1)

/-- The method `applyPowderIngredient`.  The entry `x + "Def"` is `defs` at `x`. -/
def applyPowderIngredient (E : Env) (ingred : Ingredient) (statMap : StatMap) :
    Except Err StatMap :=
  match E.powderNames ingred.pid, E.powderStats ingred.pid with
  | some name, some powder =>
    let c := charAt0 name
    let defs1 := mapSet statMap.defs c ((mapGet statMap.defs c).getD 0 + powder.defPlus)
    let other := skp_elements.getD ((jsIndexOf skp_elements c + 4) % 5).toNat ""
    let defs2 := mapSet defs1 other ((mapGet defs1 other).getD 0 - powder.defMinus)
    .ok { statMap with defs := defs2 }
  | _, _ => .error .typeError

/-- The method `applyPowderIngredients`. -/
def applyPowderIngredients (E : Env) (ingreds : Six Ingredient) (statMap : StatMap) :
    Except Err StatMap :=
  ingreds.toList.foldlM
    (fun m ingred => if !ingred.isPowder then .ok m else applyPowderIngredient E ingred m) statMap

/-- One roll of `applyMaxMinRolls`: the new total `old ? old + r : r`. -/
def addRoll (m : List (String × Int)) (key : String) (r : Int) : List (String × Int) :=
  mapSet m key (match mapGet m key with
    | some old => if old ≠ 0 then old + r else r
    | none => r)

/-- The method `applyMaxMinRolls`; `eff_mult` is the number its argument denotes, read as a
JavaScript number by the product `x * eff_mult`. -/
def applyMaxMinRolls (ingred : Ingredient) (eff_mult : ℚ) (statMap : StatMap) : StatMap :=
  ingred.rolls.foldl (fun m kv =>
    if kv.2.2 = 0 then m
    else
      let a := Int.floor (mul64 (kv.2.1 : ℚ) (fl64 eff_mult))
      let b := Int.floor (mul64 (kv.2.2 : ℚ) (fl64 eff_mult))
      { m with
        minRolls := addRoll m.minRolls kv.1 (min a b)
        maxRolls := addRoll m.maxRolls kv.1 (max a b) }) statMap

/-- The method `applyIngredientConsumableIDs`. -/
def applyIngredientConsumableIDs (ingred : Ingredient) (statMap : StatMap) : StatMap :=
  ingred.consumableIDs.foldl (fun m kv =>
    match kv.1 with
    | .dura => { m with duration := (jsAdd m.duration.1 kv.2, jsAdd m.duration.2 kv.2) }
    | .charges => { m with charges := m.charges + kv.2 }) statMap

/-- The method `applyIngredientItemIDs`. -/
def applyIngredientItemIDs (E : Env) (ingred : Ingredient) (craftType : String) (eff_mult : ℚ)
    (statMap : StatMap) : StatMap :=
  ingred.itemIDs.foldl (fun m kv =>
    match kv.1.reqIdx with
    | some idx =>
      if !E.isConsumable craftType then
        let effMult : ℚ := if !ingred.isPowder then fl64 eff_mult else 1
        let updated : Int :=
          Int.floor
            (add64 ((m.skillReqs.getD idx 0 : Int) : ℚ) (mul64 (kv.2 : ℚ) effMult) + 1 / 2)
        { m with skillReqs := m.skillReqs.set idx updated }
      else { m with durability := (jsAdd m.durability.1 kv.2, jsAdd m.durability.2 kv.2) }
    | none => { m with durability := (jsAdd m.durability.1 kv.2, jsAdd m.durability.2 kv.2) }) statMap

/-- The method `applyIngredient`. -/
def applyIngredient (E : Env) (ingred : Ingredient) (eff_mult : ℚ) (craftType : String)
    (statMap : StatMap) : StatMap :=
  applyMaxMinRolls ingred eff_mult
    (applyIngredientConsumableIDs ingred (applyIngredientItemIDs E ingred craftType eff_mult statMap))

/-- The argument `(eff_flat[n] / 100).toFixed(2)` of `applyIngredient` in
`applyAllIngredients`: the number that the string denotes. -/
def effMultOf (eff_flat : List Int) (n : Nat) : ℚ :=
  toFixed2 (div64 ((eff_flat.getD n 0 : Int) : ℚ) 100)

/-- The method `applyAllIngredients`. -/
def applyAllIngredients (E : Env) (ingreds : Six Ingredient) (craftType : String)
    (statMap : StatMap) : Except Err StatMap :=
  match getIngredientEffectiveness ingreds with
  | .error e => .error e
  | .ok eff =>
    let eff_flat := eff.flatten
    .ok (ingreds.toList.enum.foldl
      (fun m ni => applyIngredient E ni.2 (effMultOf eff_flat ni.1) craftType m)
      { statMap with ingredEffectiveness := some eff_flat })

/-- One bound of the durability loop of `clampAttributes`. -/
def clampDurability (x : JSInt) : JSInt :=
  match x with
  | some v => if v < 1 then some 1 else some v
  | none => none

/-- One bound of the duration loop of `clampAttributes`. -/
def clampDuration (allNone : Bool) (x : JSInt) : JSInt :=
  match x with
  | some v => if !allNone ∧ v < 10 then some 10 else some v
  | none => none

/-- The method `clampAttributes`.  Its `Math.floor` acts on an integer or on `NaN`. -/
def clampAttributes (ingreds : Six Ingredient) (statMap : StatMap) : StatMap :=
  { statMap with
    durability := (clampDurability statMap.durability.1, clampDurability statMap.durability.2)
    duration := (clampDuration (isAllNone ingreds) statMap.duration.1,
      clampDuration (isAllNone ingreds) statMap.duration.2)
    charges := if statMap.charges < 1 then 1 else statMap.charges }

/-- The method `setSkillpointsAndRequirements`. -/
def setSkillpointsAndRequirements (E : Env) (statMap : StatMap) : StatMap :=
  (List.range skp_order.length).foldl (fun m e =>
    let key := skp_order.getD e ""
    let skillpointCount : Int := if mapHas m.maxRolls key then (mapGet m.maxRolls key).getD 0 else 0
    { m with
      skills := m.skills.set e skillpointCount
      skillpoints := m.skillpoints.set e skillpointCount
      reqs := m.reqs.set e (if !E.consumableTypes.contains m.type then m.skillReqs.getD e 0 else 0) })
    statMap

/-- The method `fillEmptyRolledIDs`. -/
def fillEmptyRolledIDs (E : Env) (statMap : StatMap) : StatMap :=
  E.rolledIDs.foldl (fun m id =>
    if mapHas m.minRolls id then m
    else { m with minRolls := mapSet m.minRolls id 0, maxRolls := mapSet m.maxRolls id 0 }) statMap

/-- The locals `lowHealthOrDamage` and `highHealthOrDamage` of `initCraftStats`:
`Math.floor(this.recipe.get("healthOrDamage")[k] * matmult)`. -/
def healthOrDamageBounds (recipe : Recipe) (mat_tiers : Int × Int) : JSInt × JSInt :=
  let matmult := getMaterialMultiplier recipe mat_tiers
  (jsFloor (jsMul (some recipe.healthOrDamage.1) matmult),
    jsFloor (jsMul (some recipe.healthOrDamage.2) matmult))

/-- The statements of `initCraftStats` before the ingredients are applied: defaults,
category, slots, charges, material multiplier and the branches on the category;
`thisHash` is `this.hash`. -/
def baseCraftStats (E : Env) (recipe : Recipe) (mat_tiers : Int × Int)
    (ingreds : Six Ingredient) (atkSpd : Option String) (thisHash : Str) : StatMap :=
  let statMap := initStatMap recipe thisHash
  let craftType := statMap.type
  let statMap := { statMap with category := E.getCategory craftType }
  let statMap := { statMap with slots := getPowderSlotCount E recipe statMap }
  let statMap := { statMap with charges := getConsumableCharges E recipe statMap }
  let matmult := getMaterialMultiplier recipe mat_tiers
  let lowHealthOrDamage := (healthOrDamageBounds recipe mat_tiers).1
  let highHealthOrDamage := (healthOrDamageBounds recipe mat_tiers).2
  let statMap :=
    if statMap.category = some "consumable" then
      let statMap :=
        if isAllNone ingreds then
          { statMap with
            charges := 3
            duration := (some recipe.basicDuration.1, some recipe.basicDuration.2)
            hp := .range lowHealthOrDamage highHealthOrDamage }
        else statMap
      { statMap with
        duration := (jsRound (jsMul statMap.duration.1 matmult),
          jsRound (jsMul statMap.duration.2 matmult)) }
    else
      { statMap with
        durability := (jsRound (jsMul statMap.durability.1 matmult),
          jsRound (jsMul statMap.durability.2 matmult)) }
  if statMap.category = some "weapon" then
    applyWeaponDamages ingreds atkSpd lowHealthOrDamage highHealthOrDamage
      { statMap with atkSpd := atkSpd }
  else if statMap.category = some "armor" then
    { statMap with hp := .range lowHealthOrDamage highHealthOrDamage, hpLow := lowHealthOrDamage }
  else statMap

/-- The method `initCraftStats`; `thisHash` is `this.hash`. -/
def initCraftStats (E : Env) (recipe : Recipe) (mat_tiers : Int × Int)
    (ingreds : Six Ingredient) (atkSpd : Option String) (thisHash : Str) : Except Err StatMap :=
  let statMap := baseCraftStats E recipe mat_tiers ingreds atkSpd thisHash
  let craftType := toLowerCase recipe.type
  match (if statMap.category = some "armor" ∨ statMap.category = some "accessory" then
      applyPowderIngredients E ingreds statMap else .ok statMap) with
  | .error e => .error e
  | .ok statMap =>
    match applyAllIngredients E ingreds craftType statMap with
    | .error e => .error e
    | .ok statMap =>
      let statMap := clampAttributes ingreds statMap
      let statMap := setSkillpointsAndRequirements E statMap
      .ok (fillEmptyRolledIDs E statMap)

/-- The constructor `new Craft(recipe, mat_tiers, ingreds, attackSpeed, hash)`. -/
def Craft.new (E : Env) (recipe : Recipe) (mat_tiers : Int × Int) (ingreds : Six Ingredient)
    (attackSpeed : Option String) (hash : Str) : Except Err Craft :=
  let thisHash := "CR-".toList ++ hash
  match initCraftStats E recipe mat_tiers ingreds attackSpeed thisHash with
  | .error e => .error e
  | .ok statMap =>
    .ok { recipe := recipe, mat_tiers := mat_tiers, ingreds := ingreds, atkSpd := attackSpeed,
          hash := thisHash, statMap := { statMap with hash := some thisHash } }

/-- The method `setHash`. -/
def Craft.setHash (craft : Craft) (hash : Str) : Craft :=
  let thisHash := "CR-".toList ++ hash
  { craft with
    hash := thisHash
    statMap := { craft.statMap with name := thisHash, displayName := thisHash, hash := some thisHash } }

/-! ## Codec -/

/-- The function `encodeCraft`; `none` is a missing craft.  Appending `undefined` (an attack
speed that is not a key of `CRAFTED_ATK_SPD`) is an error. -/
def encodeCraft (craft : Option Craft) : Except Err (List Bool) :=
  match craft with
  | none => .ok []
  | some craft =>
    let craftVec := append [] 0 1
    let craftVec := append craftVec CRAFTED_ENCODING_VERSION CRAFTED_VERSION_BITLEN
    let craftVec :=
      craft.ingreds.toList.foldl (fun v ing => append v (ing.id : Int) ING_ID_BITLEN) craftVec
    let craftVec := append craftVec (craft.recipe.id : Int) RECIPE_ID_BITLEN
    let craftVec :=
      [craft.mat_tiers.1, craft.mat_tiers.2].foldl
        (fun v mat_tier => append v (mat_tier - 1) MAT_TIER_BITLEN) craftVec
    match (if craft.statMap.category = some "weapon" then
        match CRAFTED_ATK_SPD craft.atkSpd with
        | some code => Except.ok (append craftVec code ATK_SPD_BITLEN)
        | none => Except.error Err.typeError
      else Except.ok craftVec) with
    | .error e => .error e
    | .ok craftVec => .ok (append craftVec 0 (6 - craftVec.length % 6))

/-- The index `atkSpds.indexOf(craft["atkSpd"])` of `encodeCraftLegacy`, which is `-1` for
a value that is not in the array. -/
def legacyAtkIndex (atkSpd : Option String) : Int :=
  match atkSpd with
  | some s => jsIndexOf ["SLOW", "NORMAL", "FAST"] s
  | none => -1

/-- The function `encodeCraftLegacy`; `none` is a missing craft. -/
def encodeCraftLegacy (E : Env) (craft : Option Craft) : Str :=
  match craft with
  | none => []
  | some craft =>
    "1".toList ++
    fromIntN E craft.ingreds.s0.id 2 ++
    fromIntN E craft.ingreds.s1.id 2 ++
    fromIntN E craft.ingreds.s2.id 2 ++
    fromIntN E craft.ingreds.s3.id 2 ++
    fromIntN E craft.ingreds.s4.id 2 ++
    fromIntN E craft.ingreds.s5.id 2 ++
    fromIntN E craft.recipe.id 2 ++
    fromIntN E (craft.mat_tiers.1 + (craft.mat_tiers.2 - 1) * 3) 1 ++
    fromIntN E (legacyAtkIndex craft.atkSpd) 1

/-- The lookup `expandIngredient(ingMap.get(ingIDMap.get(id)))`; an id that does not resolve
(or `NaN`) makes it throw. -/
def lookupIng (E : Env) (id : Option Nat) : Except Err Ingredient :=
  match id.bind E.ingLookup with
  | some ing => .ok ing
  | none => .error .typeError

/-- The lookup `expandRecipe(recipeMap.get(recipeIDMap.get(id)))`; an id that does not resolve
(or `NaN`) makes it throw. -/
def lookupRecipe (E : Env) (id : Option Nat) : Except Err Recipe :=
  match id.bind E.recipeLookup with
  | some r => .ok r
  | none => .error .typeError

/-- The first legacy tier, `tierNum % 3 == 0 ? 3 : tierNum % 3`. -/
def legacyTierA (tierNum : Nat) : Int :=
  if tierNum % 3 = 0 then 3 else ((tierNum % 3 : Nat) : Int)

/-- The second legacy tier, `Math.floor((tierNum - 0.5) / 3) + 1`. -/
def legacyTierB (tierNum : Nat) : Int :=
  Int.floor (((tierNum : ℚ) - 0.5) / 3) + 1

/-- The body of the `try` block of `getCraftFromHash` for version "1"; `name` is the text
after the version character.  Where `Base64.toInt` gives `NaN` for the tier character the
code goes on with the tiers `NaN`; tiers are integers here, and that case is an error. -/
def legacyBody (E : Env) (name : Str) : Except Err Craft := do
  let i0 ← lookupIng E (toInt E (substring name 0 2))
  let i1 ← lookupIng E (toInt E (substring name 2 4))
  let i2 ← lookupIng E (toInt E (substring name 4 6))
  let i3 ← lookupIng E (toInt E (substring name 6 8))
  let i4 ← lookupIng E (toInt E (substring name 8 10))
  let i5 ← lookupIng E (toInt E (substring name 10 12))
  let recipe ← lookupRecipe E (toInt E (substring name 12 14))
  match toInt E (substring name 14 15) with
  | none => .error .typeError
  | some tierNum =>
    let tierA := legacyTierA tierNum
    let tierB := legacyTierB tierNum
    let attackSpeed := (toInt E (name.drop 15)).bind (fun a => ["SLOW", "NORMAL", "FAST"].get? a)
    Craft.new E recipe (tierA, tierB) ⟨i0, i1, i2, i3, i4, i5⟩ attackSpeed ("1".toList ++ name)

/-- The function `getCraftFromHash`; `none` is `undefined`, returned when the tag or the
version does not match and when the `try` block throws.  The assignments to the undeclared
names `version` and `tierNum` are ordinary assignments (the file is not in strict mode). -/
def getCraftFromHash (E : Env) (hash : Str) : Option Craft :=
  let name := hash
  if name.take 3 = "CR-".toList then
    let name := name.drop 3
    let version := substring name 0 1
    let name := name.drop 1
    if version = "1".toList then
      match legacyBody E name with
      | .ok craft => some craft
      | .error _ => none
    else none
  else none

/-- One iteration of the ingredient loop of `decodeCraft`. -/
def readIng (E : Env) (cursor : Cursor) : Except Err (Ingredient × Cursor) := do
  let (id, cursor) ← cursor.advanceBy ING_ID_BITLEN
  let ing ← lookupIng E (some id)
  pure (ing, cursor)

/-- The function `decodeCraft({cursor, hash})`.  The result is the returned value (`none`
for `undefined`) together with the cursor as the call leaves it.  The loops over
`NUM_INGS = 6` ingredients and `NUM_MATS = 2` tiers are written out. -/
def decodeCraft (E : Env) (cursor : Option Cursor) (hash : Option Str) :
    Except Err (Option Craft × Cursor) := do
  let cursor ← (match cursor with
    | some c => pure c
    | none =>
      match hash with
      | none => throw Err.assertion
      | some h => do
        let bits ← bitsOfB64 E h
        pure ⟨bits, 0⟩ : Except Err Cursor)
  let hashStartIdx := cursor.currIdx
  let (legacy, cursor) ← cursor.advance
  if legacy ≠ 0 then
    pure (getCraftFromHash E ("CR-".toList ++ hash.getD "undefined".toList), cursor)
  else
    let (_, cursor) ← cursor.advanceBy CRAFTED_VERSION_BITLEN
    let (i0, cursor) ← readIng E cursor
    let (i1, cursor) ← readIng E cursor
    let (i2, cursor) ← readIng E cursor
    let (i3, cursor) ← readIng E cursor
    let (i4, cursor) ← readIng E cursor
    let (i5, cursor) ← readIng E cursor
    let (recipeId, cursor) ← cursor.advanceBy RECIPE_ID_BITLEN
    let recipe ← lookupRecipe E (some recipeId)
    let (t0, cursor) ← cursor.advanceBy MAT_TIER_BITLEN
    let (t1, cursor) ← cursor.advanceBy MAT_TIER_BITLEN
    let (atkSpd, cursor) ← (
      if E.weaponTypes.contains (toLowerCase recipe.type) then do
        let (a, c) ← cursor.advanceBy ATK_SPD_BITLEN
        pure (CRAFTED_ATK_SPD_ID.get? a, c)
      else pure (some "SLOW", cursor) : Except Err (Option String × Cursor))
    let cursor ← cursor.skip (6 - ((cursor.currIdx - hashStartIdx) % 6))
    let h ← sliceB64 E cursor.bitVec hashStartIdx cursor.currIdx
    let craft ← Craft.new E recipe ((t0 : Int) + 1, (t1 : Int) + 1) ⟨i0, i1, i2, i3, i4, i5⟩ atkSpd h
    pure (some craft, cursor)

/-! ## A concrete environment for examples -/

/-- The alphabet of 64 characters used in the examples. -/
def exDigits : List Char :=
  "0123456789ABCDEFGHIJKLMNOPQRSTUVWXYZabcdefghijklmnopqrstuvwxyz+-".toList

/-- An ingredient without any effect. -/
def exIng (id : Nat) (name : String) : Ingredient :=
  { id := id, name := name, isPowder := false, pid := 0, posMods := [], itemIDs := [],
    consumableIDs := [], rolls := [] }

/-- A recipe of the given id and type, level 10-13. -/
def exRecipe (id : Nat) (type : String) : Recipe :=
  { id := id, type := type, lvl := (10, 13), healthOrDamage := (100, 200),
    durability := (175, 182), duration := (300, 360), basicDuration := (300, 360),
    amounts := (1, 1) }

/-- A small environment: ingredient 0, the sentinel ingredient 4000, a helmet recipe 0, a
wand recipe 5 and a potion recipe 12. -/
def exEnv : Env :=
  { digits := exDigits
    ingLookup := fun id =>
      if id = 0 then some (exIng 0 "Ingredient Zero")
      else if id = 4000 then some (exIng 4000 "No Ingredient")
      else none
    recipeLookup := fun id =>
      if id = 0 then some (exRecipe 0 "HELMET")
      else if id = 5 then some (exRecipe 5 "WAND")
      else if id = 12 then some (exRecipe 12 "POTION")
      else none
    getCategory := fun t =>
      if ["helmet", "chestplate", "leggings", "boots"].contains t then some "armor"
      else if ["wand", "spear", "bow", "dagger", "relik"].contains t then some "weapon"
      else if ["ring", "bracelet", "necklace"].contains t then some "accessory"
      else if ["potion", "scroll", "food"].contains t then some "consumable"
      else none
    isArmor := fun t => ["helmet", "chestplate", "leggings", "boots"].contains t
    isWeapon := fun t => ["wand", "spear", "bow", "dagger", "relik"].contains t
    isConsumable := fun t => ["potion", "scroll", "food"].contains t
    weaponTypes := ["wand", "spear", "bow", "dagger", "relik"]
    consumableTypes := ["potion", "scroll", "food"]
    rolledIDs := ["str", "dex", "int", "def", "agi", "hpBonus"]
    powderStats := fun _ => none
    powderNames := fun _ => none }

/-- A wand craft of recipe 5 with attack speed FAST and material tiers 1 and 3. -/
def exWandCraft : Craft :=
  { recipe := exRecipe 5 "WAND"
    mat_tiers := (1, 3)
    ingreds := ⟨exIng 0 "Ingredient Zero", exIng 0 "Ingredient Zero", exIng 0 "Ingredient Zero",
      exIng 0 "Ingredient Zero", exIng 0 "Ingredient Zero", exIng 4000 "No Ingredient"⟩
    atkSpd := some "FAST"
    hash := []
    statMap := { initStatMap (exRecipe 5 "WAND") [] with category := some "weapon" } }

/-- A helmet craft of recipe 0 with material tiers 2 and 3. -/
def exHelmetCraft : Craft :=
  { recipe := exRecipe 0 "HELMET"
    mat_tiers := (2, 3)
    ingreds := ⟨exIng 0 "Ingredient Zero", exIng 4000 "No Ingredient", exIng 0 "Ingredient Zero",
      exIng 0 "Ingredient Zero", exIng 0 "Ingredient Zero", exIng 4000 "No Ingredient"⟩
    atkSpd := some "NORMAL"
    hash := []
    statMap := { initStatMap (exRecipe 0 "HELMET") [] with category := some "armor" } }

/-! ## Definitions used in the statements -/

/-- The fields of the current format before the padding, in the order `encodeCraft` appends
them, with `version` in the version field; `atk` is the attack-speed field (empty when the
craft is not a weapon). -/
def fieldBits (version : Int) (c : Craft) (atk : List Bool) : List Bool :=
  toBits 0 1 ++ (toBits version 7 ++ (toBits c.ingreds.s0.id 12 ++ (toBits c.ingreds.s1.id 12 ++
    (toBits c.ingreds.s2.id 12 ++ (toBits c.ingreds.s3.id 12 ++ (toBits c.ingreds.s4.id 12 ++
    (toBits c.ingreds.s5.id 12 ++ (toBits c.recipe.id 12 ++ (toBits (c.mat_tiers.1 - 1) 3 ++
    (toBits (c.mat_tiers.2 - 1) 3 ++ atk))))))))))

/-- The six relation keys of the positional modifiers. -/
def posModKeys : List String := ["above", "under", "left", "right", "touching", "notTouching"]

/-- From the spec (effectiveness matrix): two cells of the grid are orthogonally adjacent,
`(row ± 1, col)` or `(row, col ± 1)`. -/
def specAdjacent (o c : Nat × Nat) : Bool :=
  (c.2 = o.2 ∧ (c.1 + 1 = o.1 ∨ o.1 + 1 = c.1)) ∨ (c.1 = o.1 ∧ (c.2 + 1 = o.2 ∨ o.2 + 1 = c.2))

/-- From the spec (table of relations): whether cell `c = (row, col)` is a target of the
relation `rel` declared at the origin cell `o`. -/
def specTarget (rel : String) (o c : Nat × Nat) : Bool :=
  if rel = "above" then c.2 = o.2 ∧ c.1 < o.1
  else if rel = "under" then c.2 = o.2 ∧ o.1 < c.1
  else if rel = "left" then c.1 = o.1 ∧ c.2 = 0 ∧ o.2 = 1
  else if rel = "right" then c.1 = o.1 ∧ c.2 = 1 ∧ o.2 = 0
  else if rel = "touching" then specAdjacent o c
  else if rel = "notTouching" then ¬(c.1 = o.1 ∧ c.2 = o.2) ∧ !specAdjacent o c
  else false

/-- The cell `(row, col)` of a slot index. -/
def cellOf (s : Nat) : Nat × Nat := (s / 2, s % 2)

/-- From the spec: what one declared pair `(relation, value)` of the ingredient in slot `s`
adds to the cell of slot `c`. -/
def specModValue (s : Nat) (kv : String × Int) (c : Nat) : Int :=
  if specTarget kv.1 (cellOf s) (cellOf c) then kv.2 else 0

/-- From the spec: the effectiveness of the cell of slot `c`, 100 plus the sum over the
(slot, ingredient) pairs and over the pairs each ingredient declares. -/
def specEffectiveness (pairs : List (Nat × Ingredient)) (c : Nat) : Int :=
  100 + (pairs.map (fun p => (p.2.posMods.map (fun kv => specModValue p.1 kv c)).sum)).sum

/-- The 3 × 2 matrix whose cell of slot `c` is `g c`. -/
def effOfFn (g : Nat → Int) : Eff := [[g 0, g 1], [g 2, g 3], [g 4, g 5]]

/-- From the spec: the per-tier multipliers `{1: 1.0, 2: 1.25, 3: 1.4}`, as JavaScript
numbers. -/
def specTierMult (t : Int) : ℚ :=
  if t = 1 then 1 else if t = 2 then fl64 1.25 else if t = 3 then fl64 1.4 else 0

/-- Six ingredients with positional modifiers, for the examples. -/
def exPosIngs : Six Ingredient :=
  ⟨{ exIng 1 "A" with posMods := [("touching", 20), ("under", 0)] },
   exIng 2 "B",
   { exIng 3 "C" with posMods := [("notTouching", -5)] },
   { exIng 4 "D" with posMods := [("above", 10), ("left", 15)] },
   exIng 5 "E",
   { exIng 6 "F" with posMods := [("right", 30), ("above", -7)] }⟩

/-- The vector `vec` with its version field (bits 1 to 7) overwritten by the low 7 bits of
`version`. -/
def withVersion (version : Int) (vec : List Bool) : List Bool :=
  vec.take 1 ++ toBits version 7 ++ vec.drop 8

/-- The attribute map with its `name` and `displayName` entries replaced. -/
def setName (h : Str) (sm : StatMap) : StatMap := { sm with name := h, displayName := h }

/-- The example environment with one powder: powder 0 is the earth powder "e1" with defense
bonus 3 and defense penalty 1. -/
def exPowderEnv : Env :=
  { exEnv with
    powderStats := fun pid => if pid = 0 then some ⟨3, 1⟩ else none
    powderNames := fun pid => if pid = 0 then some "e1" else none }

/-- A powder-flagged ingredient holding powder 0. -/
def exPowderIng : Ingredient := { exIng 7 "Earth Powder I" with isPowder := true, pid := 0 }

/-- The total a roll map holds for `key`, 0 when the key is absent. -/
def rollTotal (m : List (String × Int)) (key : String) : Int := (mapGet m key).getD 0

/-- From the spec (step 8c): what the roll entry `(id, minRoll, maxRoll)` adds to the min total
of `key` under the multiplier `e`: the smaller of the two floored products, and nothing when
the declared max roll is 0.  A product is the product of JavaScript numbers, `e` read as one. -/
def specRollMin (e : ℚ) (key : String) (roll : String × Int × Int) : Int :=
  if roll.1 = key ∧ roll.2.2 ≠ 0 then
    min (Int.floor (mul64 (roll.2.1 : ℚ) (fl64 e))) (Int.floor (mul64 (roll.2.2 : ℚ) (fl64 e)))
  else 0

/-- From the spec (step 8c): what the roll entry adds to the max total of `key`: the larger of
the two floored products, and nothing when the declared max roll is 0. -/
def specRollMax (e : ℚ) (key : String) (roll : String × Int × Int) : Int :=
  if roll.1 = key ∧ roll.2.2 ≠ 0 then
    max (Int.floor (mul64 (roll.2.1 : ℚ) (fl64 e))) (Int.floor (mul64 (roll.2.2 : ℚ) (fl64 e)))
  else 0

/-- From the spec: the min total of `key` as the sum of the contributions of the
(slot, ingredient) pairs, each scaled by its slot's effectiveness over 100 (`effMultOf`). -/
def specMinTotal (eff_flat : List Int) (pairs : List (Nat × Ingredient)) (key : String) : Int :=
  (pairs.map (fun p =>
    (p.2.rolls.map (specRollMin (effMultOf eff_flat p.1) key)).sum)).sum

/-- From the spec: the max total of `key` as the sum of the contributions of the
(slot, ingredient) pairs, each scaled by its slot's effectiveness over 100 (`effMultOf`). -/
def specMaxTotal (eff_flat : List Int) (pairs : List (Nat × Ingredient)) (key : String) : Int :=
  (pairs.map (fun p =>
    (p.2.rolls.map (specRollMax (effMultOf eff_flat p.1) key)).sum)).sum

/-- The maps `minRolls` and `maxRolls` of an attribute map have the same keys. -/
def sameRollKeys (m : StatMap) : Prop := ∀ k, mapHas m.minRolls k = mapHas m.maxRolls k

/-- Six ingredients for the roll examples: slot 0 lowers the slot to its right by 150 percent,
and slot 1 (effectiveness -50) rolls 10 to 20 "hpBonus" and declares a "str" roll whose
maximum is 0. -/
def exRollIngs : Six Ingredient :=
  ⟨{ exIng 1 "A" with posMods := [("right", -150)] },
   { exIng 2 "B" with rolls := [("hpBonus", 10, 20), ("str", 3, 0)] },
   exIng 4000 "No Ingredient",
   exIng 4000 "No Ingredient",
   exIng 4000 "No Ingredient",
   exIng 4000 "No Ingredient"⟩

/-- The neutral base bound in the words of the specification:
floor(floor(recipeBound * materialMultiplier) * attackSpeedRatio), the products being products
of JavaScript numbers. -/
def specNeutralBase (recipe : Recipe) (mat_tiers : Int × Int) (atkSpd : Option String)
    (bound : Int) : JSInt :=
  jsFloor (jsMul (jsFloor (jsMul (some bound) (getMaterialMultiplier recipe mat_tiers)))
    (some (attackSpeedRatio64 atkSpd)))

/-- The displayed range of a base bound: floor(base * 0.9) and floor(base * 1.1), with the
binary64 numbers 0.9 and 1.1. -/
def specDamRange (base : JSInt) : JSInt × JSInt :=
  (jsFloor (jsMul base (some (fl64 0.9))), jsFloor (jsMul base (some (fl64 1.1))))

/-- The powder ids of the powder-flagged ingredients, in slot order. -/
def specPowderIds (ingreds : Six Ingredient) : List Nat :=
  (ingreds.toList.filter (fun ingred => ingred.isPowder)).map (fun ingred => ingred.pid)

/-- The damage entries of a weapon whose neutral base bounds are `lo` and `hi`. -/
def specWeaponDams (lo hi : JSInt) : List (String × DamEntry) :=
  ("n", ⟨some (lo, hi), some (specDamRange lo), .range (specDamRange hi).1 (specDamRange hi).2⟩)
    :: skp_elements.map (fun e =>
      (e, ⟨some (some 0, some 0), some (some 0, some 0), .range (some 0) (some 0)⟩))

/-- Six sentinel ingredients. -/
def exEmptyIngs : Six Ingredient :=
  ⟨exIng 4000 "No Ingredient", exIng 4000 "No Ingredient", exIng 4000 "No Ingredient",
    exIng 4000 "No Ingredient", exIng 4000 "No Ingredient", exIng 4000 "No Ingredient"⟩

/-- From the spec (minimal padding): the number of zero bits that bring a length `L` up to a
multiple of 6, `(6 - L mod 6) mod 6`. -/
def specPadding (L : Nat) : Nat := (6 - L % 6) % 6

/-- An ingredient whose only declaration is the item delta "strReq" +5. -/
def exReqIng : Ingredient := { exIng 1 "A" with itemIDs := [(.strReq, 5)] }

/-- The sum of the charge deltas an ingredient declares. -/
def chargeDelta (ing : Ingredient) : Int :=
  (ing.consumableIDs.map (fun kv => match kv.1 with
    | .charges => kv.2
    | .dura => 0)).sum

/-- The sum of the duration deltas an ingredient declares. -/
def durationDelta (ing : Ingredient) : Int :=
  (ing.consumableIDs.map (fun kv => match kv.1 with
    | .dura => kv.2
    | .charges => 0)).sum

/-- The sum of the item deltas of an ingredient that reach the durability bounds for the
craft type `craftType`: those with the key "dura", and every one when the type is a
consumable. -/
def durabilityDelta (E : Env) (craftType : String) (ing : Ingredient) : Int :=
  (ing.itemIDs.map (fun kv =>
    if kv.1.reqIdx.isSome && !E.isConsumable craftType then 0 else kv.2)).sum

/-- An ingredient without its positional modifiers. -/
def stripPosMods (ing : Ingredient) : Ingredient := { ing with posMods := [] }

/-- Six ingredients for the delta examples: slot 0 raises the effectiveness of the slot to
its right by 50, and slot 1 declares item deltas (durability -20, strength requirement +10)
and consumable deltas (duration +30, charges +1). -/
def exDeltaIngs : Six Ingredient :=
  ⟨{ exIng 1 "A" with posMods := [("right", 50)] },
   { exIng 2 "B" with
     itemIDs := [(.dura, -20), (.strReq, 10)]
     consumableIDs := [(.dura, 30), (.charges, 1)] },
   exIng 4000 "No Ingredient",
   exIng 4000 "No Ingredient",
   exIng 4000 "No Ingredient",
   exIng 4000 "No Ingredient"⟩

/-! # Theorems -/

/-! ## Numbers -/

theorem roundEven_ge (y : ℚ) : ⌊y⌋ ≤ roundEven y := by
  unfold roundEven
  split_ifs <;> omega

theorem fl64_zero : fl64 0 = 0 := by
  simp [fl64]

theorem fl64_one : fl64 1 = 1 := by
  decide!

/-- Rounding keeps a positive number positive. -/
theorem fl64_pos (x : ℚ) (h : 0 < x) : 0 < fl64 x := by
  have hx : x ≠ 0 := ne_of_gt h
  simp only [fl64, hx, if_false]
  have hp : (0 : ℚ) < 2 ^ (Int.log 2 |x| - 52) := zpow_pos (by norm_num) _
  apply mul_pos _ hp
  have habs : |x| = x := abs_of_pos h
  have hle : (2 : ℚ) ^ Int.log 2 |x| ≤ x := by
    have := Int.zpow_log_le_self (b := 2) (r := |x|) (by norm_num) (by rw [habs]; exact h)
    rw [habs] at this ⊢
    exact_mod_cast this
  have h52 : (2 : ℚ) ^ (52 : ℤ) ≤ x / 2 ^ (Int.log 2 |x| - 52) := by
    rw [le_div_iff₀ hp, ← zpow_add₀ (by norm_num : (2 : ℚ) ≠ 0)]
    simpa using hle
  have hfl : (1 : ℤ) ≤ ⌊x / 2 ^ (Int.log 2 |x| - 52)⌋ := by
    rw [Int.le_floor]
    refine le_trans ?_ h52
    norm_num
  have h1 : (1 : ℤ) ≤ roundEven (x / 2 ^ (Int.log 2 |x| - 52)) :=
    le_trans hfl (roundEven_ge _)
  exact_mod_cast lt_of_lt_of_le zero_lt_one h1

theorem mul64_one_left (b : ℚ) : mul64 1 b = b := by
  simp [mul64]

theorem mul64_one_right (a : ℚ) : mul64 a 1 = a := by
  unfold mul64
  by_cases h : a = 1
  · simp [h]
  · simp [h]

theorem mul64_zero_left (b : ℚ) : mul64 0 b = 0 := by
  unfold mul64
  split_ifs with h1 h2
  · exact absurd h1 (by norm_num)
  · rfl
  · simp [fl64]

theorem div64_self (x : ℚ) (h : x ≠ 0) : div64 x x = 1 := by
  rw [div64, div_self h, fl64_one]

/-! ## Bits and cursors -/

theorem toBits_length (v : Int) (n : Nat) : (toBits v n).length = n := by
  induction n generalizing v with
  | zero => rfl
  | succ n ih => simp [toBits, ih]

theorem fromBits_toBits_nat (v n : Nat) : fromBits (toBits (v : Int) n) = v % 2 ^ n := by
  induction n generalizing v with
  | zero => simp [toBits, fromBits, Nat.mod_one]
  | succ n ih =>
    have hdiv : ((v : Int) / 2) = ((v / 2 : Nat) : Int) := by norm_cast
    have hmod : ((v : Int) % 2 = 1) ↔ v % 2 = 1 := by omega
    simp only [toBits, fromBits, hdiv, ih]
    rw [pow_succ, Nat.mul_comm (2 ^ n) 2, Nat.mod_mul]
    by_cases h : v % 2 = 1
    · simp [hmod, h]
    · have h0 : v % 2 = 0 := by omega
      simp [hmod, h0]

theorem fromBits_toBits_lt (v n : Nat) (h : v < 2 ^ n) : fromBits (toBits (v : Int) n) = v := by
  rw [fromBits_toBits_nat, Nat.mod_eq_of_lt h]

/-- Reading `n` bits where the unread part of the buffer starts with the `n` bits of `v`. -/
theorem advanceBy_of_drop (c : Cursor) (v : Int) (n : Nat) (rest : List Bool)
    (hidx : c.currIdx ≤ c.bitVec.length)
    (h : c.bitVec.drop c.currIdx = toBits v n ++ rest) :
    c.advanceBy n = .ok (fromBits (toBits v n), ⟨c.bitVec, c.currIdx + n⟩) ∧
      c.bitVec.drop (c.currIdx + n) = rest ∧ c.currIdx + n ≤ c.bitVec.length := by
  have hlen : c.bitVec.length - c.currIdx = n + rest.length := by
    have := congrArg List.length h
    simpa [toBits_length] using this
  have hle : c.currIdx + n ≤ c.bitVec.length := by omega
  refine ⟨?_, ?_, hle⟩
  · simp [Cursor.advanceBy, hle, h, toBits_length]
  · rw [← List.drop_drop, h]
    simp [toBits_length]

/-! ## The current format -/

theorem fieldBits_length (version : Int) (c : Craft) (atk : List Bool) :
    (fieldBits version c atk).length = 98 + atk.length := by
  simp [fieldBits, toBits_length]; omega

theorem encodeCraft_weapon (c : Craft) (code : Int) (hw : c.statMap.category = some "weapon")
    (hcode : CRAFTED_ATK_SPD c.atkSpd = some code) :
    encodeCraft (some c) = .ok (fieldBits 2 c (toBits code 4) ++ toBits 0 6) := by
  have hl : (fieldBits 2 c (toBits code 4)).length = 102 := by simp [fieldBits_length, toBits_length]
  have : encodeCraft (some c) = .ok (append (fieldBits 2 c (toBits code 4)) 0
      (6 - (fieldBits 2 c (toBits code 4)).length % 6)) := by
    simp [encodeCraft, hw, hcode, append, Six.toList, fieldBits, CRAFTED_ENCODING_VERSION,
      CRAFTED_VERSION_BITLEN, ING_ID_BITLEN, RECIPE_ID_BITLEN, MAT_TIER_BITLEN, ATK_SPD_BITLEN]
  rw [this, hl]; rfl

theorem encodeCraft_other (c : Craft) (hw : c.statMap.category ≠ some "weapon") :
    encodeCraft (some c) = .ok (fieldBits 2 c [] ++ toBits 0 4) := by
  have hl : (fieldBits 2 c []).length = 98 := by simp [fieldBits_length]
  have : encodeCraft (some c) = .ok (append (fieldBits 2 c []) 0
      (6 - (fieldBits 2 c []).length % 6)) := by
    simp [encodeCraft, hw, append, Six.toList, fieldBits, CRAFTED_ENCODING_VERSION,
      CRAFTED_VERSION_BITLEN, ING_ID_BITLEN, RECIPE_ID_BITLEN, MAT_TIER_BITLEN]
  rw [this, hl]; rfl

theorem readIng_of_drop (E : Env) (c : Cursor) (ing : Ingredient) (rest : List Bool)
    (hlt : ing.id < 4096) (hlook : E.ingLookup ing.id = some ing)
    (hidx : c.currIdx ≤ c.bitVec.length)
    (h : c.bitVec.drop c.currIdx = toBits (ing.id : Int) 12 ++ rest) :
    readIng E c = .ok (ing, ⟨c.bitVec, c.currIdx + 12⟩) ∧
      c.bitVec.drop (c.currIdx + 12) = rest ∧ c.currIdx + 12 ≤ c.bitVec.length := by
  obtain ⟨h1, h2, h3⟩ := advanceBy_of_drop c _ 12 rest hidx h
  refine ⟨?_, h2, h3⟩
  have hv : fromBits (toBits (ing.id : Int) 12) = ing.id := fromBits_toBits_lt _ _ (by simpa using hlt)
  simp [readIng, ING_ID_BITLEN, h1, hv, lookupIng, hlook, bind, Except.bind, pure, Except.pure]

theorem tier_bits (t : Int) (ht : t = 1 ∨ t = 2 ∨ t = 3) :
    ((fromBits (toBits (t - 1) 3) : Nat) : Int) + 1 = t := by
  rcases ht with h | h | h <;> subst h <;> decide

theorem decodeCraft_fields (E : Env) (version : Int) (c : Craft) (P S : List Bool)
    (hash : Option Str) (atk : List Bool) (padn : Nat)
    (hings : ∀ ing ∈ c.ingreds.toList, ing.id < 4096 ∧ E.ingLookup ing.id = some ing)
    (hrec : c.recipe.id < 4096 ∧ E.recipeLookup c.recipe.id = some c.recipe)
    (ht1 : c.mat_tiers.1 = 1 ∨ c.mat_tiers.1 = 2 ∨ c.mat_tiers.1 = 3)
    (ht2 : c.mat_tiers.2 = 1 ∨ c.mat_tiers.2 = 2 ∨ c.mat_tiers.2 = 3)
    (hcase : (E.weaponTypes.contains (toLowerCase c.recipe.type) = true ∧
        (∃ code : Nat, code < 3 ∧ atk = toBits (code : Int) 4 ∧
          CRAFTED_ATK_SPD_ID.get? code = c.atkSpd) ∧ padn = 6) ∨
      (E.weaponTypes.contains (toLowerCase c.recipe.type) = false ∧ atk = [] ∧ padn = 4)) :
    decodeCraft E (some ⟨P ++ (fieldBits version c atk ++ toBits 0 padn) ++ S, P.length⟩) hash =
      (match Craft.new E c.recipe c.mat_tiers c.ingreds
          (if E.weaponTypes.contains (toLowerCase c.recipe.type) then c.atkSpd else some "SLOW")
          (b64OfBits E (fieldBits version c atk ++ toBits 0 padn)) with
        | .ok craft => .ok (some craft,
            ⟨P ++ (fieldBits version c atk ++ toBits 0 padn) ++ S,
              P.length + (fieldBits version c atk ++ toBits 0 padn).length⟩)
        | .error e => .error e) := by
  obtain ⟨r, ⟨t1, t2⟩, ings, a, h, sm⟩ := c
  obtain ⟨i0, i1, i2, i3, i4, i5⟩ := ings
  simp only [Six.toList, List.mem_cons, List.mem_singleton, forall_eq_or_imp, forall_eq,
    List.not_mem_nil, false_implies, implies_true, and_true] at hings
  obtain ⟨⟨l0, k0⟩, ⟨l1, k1⟩, ⟨l2, k2⟩, ⟨l3, k3⟩, ⟨l4, k4⟩, ⟨l5, k5⟩⟩ := hings
  obtain ⟨lr, kr⟩ := hrec
  simp only at ht1 ht2 l0 k0 l1 k1 l2 k2 l3 k3 l4 k4 l5 k5 lr kr
  set buf := P ++ (fieldBits version ⟨r, (t1, t2), ⟨i0, i1, i2, i3, i4, i5⟩, a, h, sm⟩ atk ++ toBits 0 padn) ++ S
    with hbuf
  have hd0 : buf.drop P.length = toBits 0 1 ++ (toBits version 7 ++ (toBits i0.id 12 ++ (toBits i1.id 12 ++
    (toBits i2.id 12 ++ (toBits i3.id 12 ++ (toBits i4.id 12 ++
    (toBits i5.id 12 ++ (toBits r.id 12 ++ (toBits (t1 - 1) 3 ++
    (toBits (t2 - 1) 3 ++ (atk ++ (toBits 0 padn ++ S)))))))))))) := by
    simp [hbuf, fieldBits, List.append_assoc]
  have hi0 : P.length ≤ buf.length := by simp [hbuf]
  obtain ⟨e1, hd1, hi1⟩ := advanceBy_of_drop ⟨buf, P.length⟩ _ _ _ hi0 hd0
  obtain ⟨e2, hd2, hi2⟩ := advanceBy_of_drop ⟨buf, P.length + 1⟩ _ _ _ hi1 hd1
  obtain ⟨e3, hd3, hi3⟩ := readIng_of_drop E ⟨buf, P.length + 1 + 7⟩ _ _ l0 k0 hi2 hd2
  obtain ⟨e4, hd4, hi4⟩ := readIng_of_drop E ⟨buf, P.length + 1 + 7 + 12⟩ _ _ l1 k1 hi3 hd3
  obtain ⟨e5, hd5, hi5⟩ := readIng_of_drop E ⟨buf, P.length + 1 + 7 + 12 + 12⟩ _ _ l2 k2 hi4 hd4
  obtain ⟨e6, hd6, hi6⟩ :=
    readIng_of_drop E ⟨buf, P.length + 1 + 7 + 12 + 12 + 12⟩ _ _ l3 k3 hi5 hd5
  obtain ⟨e7, hd7, hi7⟩ :=
    readIng_of_drop E ⟨buf, P.length + 1 + 7 + 12 + 12 + 12 + 12⟩ _ _ l4 k4 hi6 hd6
  obtain ⟨e8, hd8, hi8⟩ :=
    readIng_of_drop E ⟨buf, P.length + 1 + 7 + 12 + 12 + 12 + 12 + 12⟩ _ _ l5 k5 hi7 hd7
  obtain ⟨e9, hd9, hi9⟩ :=
    advanceBy_of_drop ⟨buf, P.length + 1 + 7 + 12 + 12 + 12 + 12 + 12 + 12⟩ _ _ _ hi8 hd8
  obtain ⟨e10, hd10, hi10⟩ :=
    advanceBy_of_drop ⟨buf, P.length + 1 + 7 + 12 + 12 + 12 + 12 + 12 + 12 + 12⟩ _ _ _ hi9 hd9
  obtain ⟨e11, hd11, hi11⟩ :=
    advanceBy_of_drop ⟨buf, P.length + 1 + 7 + 12 + 12 + 12 + 12 + 12 + 12 + 12 + 3⟩ _ _ _ hi10 hd10
  simp only at e1 e2 e3 e4 e5 e6 e7 e8 e9 e10 e11 hd11 hi11
  have hv : fromBits (toBits (r.id : Int) 12) = r.id := fromBits_toBits_lt _ _ (by simpa using lr)
  have hflag : fromBits (toBits 0 1) = 0 := by decide
  have hT1 := tier_bits t1 ht1
  have hT2 := tier_bits t2 ht2
  have hslice : ∀ n, n = (fieldBits version ⟨r, (t1, t2), ⟨i0, i1, i2, i3, i4, i5⟩, a, h, sm⟩ atk ++ toBits 0 padn).length →
      n % 6 = 0 →
      sliceB64 E buf P.length (P.length + n) =
        .ok (b64OfBits E (fieldBits version ⟨r, (t1, t2), ⟨i0, i1, i2, i3, i4, i5⟩, a, h, sm⟩ atk ++ toBits 0 padn)) := by
    intro n hn hn6
    have hle : P.length + n ≤ buf.length := by simp [hbuf, hn]
    have htake : List.take n (List.drop P.length buf) =
        fieldBits version ⟨r, (t1, t2), ⟨i0, i1, i2, i3, i4, i5⟩, a, h, sm⟩ atk ++ toBits 0 padn := by
      simp [hbuf, hn, List.append_assoc]
      rw [← List.append_assoc, List.take_left']
      simp
    simp [sliceB64, hn6, hle, htake]
  rcases hcase with ⟨hw, ⟨code, hcl, hatk, hid⟩, hp⟩ | ⟨hw, hatk, hp⟩
  · subst hatk hp
    obtain ⟨e12, hd12, hi12⟩ := advanceBy_of_drop
      ⟨buf, P.length + 1 + 7 + 12 + 12 + 12 + 12 + 12 + 12 + 12 + 3 + 3⟩ _ _ _ hi11 hd11
    obtain ⟨-, -, hi13⟩ := advanceBy_of_drop
      ⟨buf, P.length + 1 + 7 + 12 + 12 + 12 + 12 + 12 + 12 + 12 + 3 + 3 + 4⟩ _ _ _ hi12 hd12
    simp only at e12 hi13
    have hc : fromBits (toBits (code : Int) 4) = code := fromBits_toBits_lt _ _ (by omega)
    have hs := hslice 108 (by simp [fieldBits_length, toBits_length]) (by decide)
    have hidx : P.length + 1 + 7 + 12 + 12 + 12 + 12 + 12 + 12 + 12 + 3 + 3 + 4 + 6 = P.length + 108 := by omega
    have hsub : P.length + 1 + 7 + 12 + 12 + 12 + 12 + 12 + 12 + 12 + 3 + 3 + 4 - P.length = 102 := by omega
    simp only [decodeCraft, Cursor.advance, bind, Except.bind, pure, Except.pure, e1, e2, e3, e4,
      e5, e6, e7, e8, e9, e10, e11, e12, hflag, hv, hc, hT1, hT2, hw, hid, kr, lookupRecipe,
      Option.bind, CRAFTED_VERSION_BITLEN, RECIPE_ID_BITLEN, MAT_TIER_BITLEN, ATK_SPD_BITLEN,
      Cursor.skip, hsub, hidx, hs, ne_eq, not_true_eq_false, ite_false, if_true, if_false]
    have hi13b : P.length + 108 ≤ buf.length := by omega
    have hlen : (fieldBits version ⟨r, (t1, t2), ⟨i0, i1, i2, i3, i4, i5⟩, a, h, sm⟩ (toBits (code : Int) 4) ++
        toBits 0 6).length = 108 := by simp [fieldBits_length, toBits_length]
    simp only [hi13b, if_true, hs, hlen]
    generalize Craft.new E r (t1, t2) ⟨i0, i1, i2, i3, i4, i5⟩ a _ = res
    cases res <;> rfl
  · subst hatk hp
    obtain ⟨-, -, hi13⟩ := advanceBy_of_drop
      ⟨buf, P.length + 1 + 7 + 12 + 12 + 12 + 12 + 12 + 12 + 12 + 3 + 3⟩ _ _ _ hi11
        (by simpa using hd11)
    simp only at hi13
    have hs := hslice 102 (by simp [fieldBits_length, toBits_length]) (by decide)
    have hidx : P.length + 1 + 7 + 12 + 12 + 12 + 12 + 12 + 12 + 12 + 3 + 3 + 4 = P.length + 102 := by omega
    have hsub : P.length + 1 + 7 + 12 + 12 + 12 + 12 + 12 + 12 + 12 + 3 + 3 - P.length = 98 := by omega
    have hi13b : P.length + 102 ≤ buf.length := by omega
    have hlen : (fieldBits version ⟨r, (t1, t2), ⟨i0, i1, i2, i3, i4, i5⟩, a, h, sm⟩ [] ++
        toBits 0 4).length = 102 := by simp [fieldBits_length, toBits_length]
    simp only [decodeCraft, Cursor.advance, bind, Except.bind, pure, Except.pure, e1, e2, e3, e4,
      e5, e6, e7, e8, e9, e10, e11, hflag, hv, hT1, hT2, hw, kr, lookupRecipe,
      Option.bind, CRAFTED_VERSION_BITLEN, RECIPE_ID_BITLEN, MAT_TIER_BITLEN,
      Cursor.skip, hsub, hidx, hs, ne_eq, not_true_eq_false, ite_false, if_true, if_false,
      hi13b, hlen, Bool.false_eq_true]
    generalize Craft.new E r (t1, t2) ⟨i0, i1, i2, i3, i4, i5⟩ _ _ = res
    cases res <;> rfl

/-! ## When the derivation throws -/

theorem foldlM_isOk_congr {α β : Type} (f : β → α → Except Err β) (ok : α → Bool)
    (hf : ∀ m x, (f m x).isOk = ok x) (l : List α) (m m' : β) :
    (l.foldlM f m).isOk = (l.foldlM f m').isOk := by
  induction l generalizing m m' with
  | nil => rfl
  | cons x xs ih =>
    simp only [List.foldlM, bind, Except.bind]
    have h1 := hf m x
    have h2 := hf m' x
    cases h : f m x with
    | error e =>
      cases h' : f m' x with
      | error e' => rfl
      | ok b' => rw [h] at h1; rw [h'] at h2; rw [← h2] at h1; exact absurd h1 (by simp [Except.isOk, Except.toBool])
    | ok b =>
      cases h' : f m' x with
      | error e' => rw [h] at h1; rw [h'] at h2; rw [← h2] at h1; exact absurd h1 (by simp [Except.isOk, Except.toBool])
      | ok b' => exact ih b b'

theorem applyPowderIngredients_isOk (E : Env) (ings : Six Ingredient) (m m' : StatMap) :
    (applyPowderIngredients E ings m).isOk = (applyPowderIngredients E ings m').isOk := by
  unfold applyPowderIngredients
  apply foldlM_isOk_congr _
    (fun ing => !ing.isPowder || ((E.powderNames ing.pid).isSome && (E.powderStats ing.pid).isSome))
  intro m x
  cases hp : x.isPowder
  · simp [Except.isOk, Except.toBool]
  · simp only [Bool.not_true, Bool.false_eq_true, if_false, applyPowderIngredient, Bool.false_or]
    cases E.powderNames x.pid <;> cases E.powderStats x.pid <;> simp [Except.isOk, Except.toBool]

theorem applyAllIngredients_isOk (E : Env) (ings : Six Ingredient) (ct : String) (m : StatMap) :
    (applyAllIngredients E ings ct m).isOk = (getIngredientEffectiveness ings).isOk := by
  unfold applyAllIngredients
  cases getIngredientEffectiveness ings <;> rfl

theorem baseCraftStats_category (E : Env) (r : Recipe) (t : Int × Int) (ings : Six Ingredient)
    (a : Option String) (h : Str) :
    (baseCraftStats E r t ings a h).category = E.getCategory (toLowerCase r.type) := by
  simp only [baseCraftStats, initStatMap]
  split_ifs <;> simp [applyWeaponDamages, computeElementDamage, skp_elements]

theorem initCraftStats_isOk (E : Env) (r : Recipe) (t t' : Int × Int) (ings : Six Ingredient)
    (a a' : Option String) (h h' : Str) :
    (initCraftStats E r t ings a h).isOk = (initCraftStats E r t' ings a' h').isOk := by
  simp only [initCraftStats, baseCraftStats_category]
  have hp := applyPowderIngredients_isOk E ings (baseCraftStats E r t ings a h)
    (baseCraftStats E r t' ings a' h')
  split_ifs with hc
  · cases h1 : applyPowderIngredients E ings (baseCraftStats E r t ings a h) with
    | error e =>
      cases h2 : applyPowderIngredients E ings (baseCraftStats E r t' ings a' h') with
      | error e' => rfl
      | ok b' => rw [h1, h2] at hp; exact absurd hp (by simp [Except.isOk, Except.toBool])
    | ok b =>
      cases h2 : applyPowderIngredients E ings (baseCraftStats E r t' ings a' h') with
      | error e' => rw [h1, h2] at hp; exact absurd hp (by simp [Except.isOk, Except.toBool])
      | ok b' =>
        have := applyAllIngredients_isOk E ings (toLowerCase r.type) b
        have := applyAllIngredients_isOk E ings (toLowerCase r.type) b'
        cases h3 : applyAllIngredients E ings (toLowerCase r.type) b <;>
          cases h4 : applyAllIngredients E ings (toLowerCase r.type) b' <;>
          simp_all [Except.isOk, Except.toBool]
  · have := applyAllIngredients_isOk E ings (toLowerCase r.type) (baseCraftStats E r t ings a h)
    have := applyAllIngredients_isOk E ings (toLowerCase r.type) (baseCraftStats E r t' ings a' h')
    cases h3 : applyAllIngredients E ings (toLowerCase r.type) (baseCraftStats E r t ings a h) <;>
      cases h4 : applyAllIngredients E ings (toLowerCase r.type) (baseCraftStats E r t' ings a' h') <;>
      simp_all [Except.isOk, Except.toBool]

/-! ## The derivation does not read the hash -/

theorem foldlM_map_comm {α β : Type} (f : β → α → Except Err β) (g : β → β)
    (hf : ∀ m x, f (g m) x = (f m x).map g) (l : List α) (m : β) :
    l.foldlM f (g m) = (l.foldlM f m).map g := by
  induction l generalizing m with
  | nil => rfl
  | cons x xs ih =>
    simp only [List.foldlM, bind, Except.bind, hf]
    cases h : f m x with
    | error e => rfl
    | ok b => simp only [Except.map]; exact ih b

theorem baseCraftStats_setName (E : Env) (r : Recipe) (t : Int × Int) (ings : Six Ingredient)
    (a : Option String) (h h0 : Str) :
    baseCraftStats E r t ings a h = setName h (baseCraftStats E r t ings a h0) := by
  simp only [baseCraftStats, initStatMap]
  split_ifs <;>
    simp [setName, applyWeaponDamages, computeElementDamage, skp_elements, getPowderSlotCount,
      getConsumableCharges]

theorem applyPowderIngredients_setName (E : Env) (ings : Six Ingredient) (h : Str) (m : StatMap) :
    applyPowderIngredients E ings (setName h m) = (applyPowderIngredients E ings m).map (setName h) := by
  unfold applyPowderIngredients
  apply foldlM_map_comm
  intro m x
  cases x.isPowder
  · rfl
  · simp only [Bool.not_true, Bool.false_eq_true, if_false, applyPowderIngredient]
    cases E.powderNames x.pid <;> cases E.powderStats x.pid <;> rfl

theorem applyIngredient_setName (E : Env) (ing : Ingredient) (e : ℚ) (ct : String) (h : Str)
    (m : StatMap) :
    applyIngredient E ing e ct (setName h m) = setName h (applyIngredient E ing e ct m) := by
  unfold applyIngredient applyMaxMinRolls applyIngredientConsumableIDs applyIngredientItemIDs
  rw [List.foldl_hom (setName h), List.foldl_hom (setName h), List.foldl_hom (setName h)]
  · intro m kv
    split_ifs <;> rfl
  · intro m kv
    cases kv.1 <;> rfl
  · intro m kv
    cases kv.1.reqIdx <;> [skip; split_ifs] <;> rfl

theorem foldl_applyIngredient_setName (E : Env) (ct : String) (h : Str) (q : Nat → ℚ)
    (l : List (Nat × Ingredient)) (m : StatMap) :
    l.foldl (fun m ni => applyIngredient E ni.2 (q ni.1) ct m) (setName h m) =
      setName h (l.foldl (fun m ni => applyIngredient E ni.2 (q ni.1) ct m) m) := by
  induction l generalizing m with
  | nil => rfl
  | cons x xs ih => simp only [List.foldl, applyIngredient_setName, ih]

theorem applyAllIngredients_setName (E : Env) (ings : Six Ingredient) (ct : String) (h : Str)
    (m : StatMap) :
    applyAllIngredients E ings ct (setName h m) =
      (applyAllIngredients E ings ct m).map (setName h) := by
  unfold applyAllIngredients
  cases getIngredientEffectiveness ings with
  | error e => rfl
  | ok eff =>
    simp only [Except.map]
    congr 1
    exact foldl_applyIngredient_setName E ct h (fun n => effMultOf eff.flatten n)
      ings.toList.enum { m with ingredEffectiveness := some eff.flatten }

theorem finish_setName (E : Env) (ings : Six Ingredient) (h : Str) (m : StatMap) :
    fillEmptyRolledIDs E (setSkillpointsAndRequirements E (clampAttributes ings (setName h m))) =
      setName h (fillEmptyRolledIDs E (setSkillpointsAndRequirements E (clampAttributes ings m))) := by
  unfold fillEmptyRolledIDs setSkillpointsAndRequirements
  have h1 : clampAttributes ings (setName h m) = setName h (clampAttributes ings m) := rfl
  rw [h1, List.foldl_hom (setName h), List.foldl_hom (setName h)]
  · intro m id
    have hm : (setName h m).minRolls = m.minRolls := rfl
    rw [hm]
    by_cases hc : mapHas m.minRolls id = true
    · simp only [hc, if_true]
    · simp only [hc, if_false]; rfl
  · intro m e
    rfl

theorem initCraftStats_setName (E : Env) (r : Recipe) (t : Int × Int) (ings : Six Ingredient)
    (a : Option String) (h h0 : Str) :
    initCraftStats E r t ings a h = (initCraftStats E r t ings a h0).map (setName h) := by
  have hc : (setName h (baseCraftStats E r t ings a h0)).category =
      (baseCraftStats E r t ings a h0).category := rfl
  simp only [initCraftStats]
  rw [baseCraftStats_setName E r t ings a h h0, hc]
  split_ifs
  · rw [applyPowderIngredients_setName]
    cases applyPowderIngredients E ings (baseCraftStats E r t ings a h0) with
    | error e => rfl
    | ok m1 =>
      simp only [Except.map]
      rw [applyAllIngredients_setName]
      cases applyAllIngredients E ings (toLowerCase r.type) m1 with
      | error e => rfl
      | ok m2 => simp only [Except.map, finish_setName]
  · simp only
    rw [applyAllIngredients_setName]
    cases applyAllIngredients E ings (toLowerCase r.type) (baseCraftStats E r t ings a h0) with
    | error e => rfl
    | ok m2 => simp only [Except.map, finish_setName]

theorem baseCraftStats_atkSpd (E : Env) (r : Recipe) (t : Int × Int) (ings : Six Ingredient)
    (a a' : Option String) (h : Str) (hw : E.getCategory (toLowerCase r.type) ≠ some "weapon") :
    baseCraftStats E r t ings a h = baseCraftStats E r t ings a' h := by
  simp only [baseCraftStats, initStatMap]
  split_ifs <;> simp_all

theorem initCraftStats_atkSpd (E : Env) (r : Recipe) (t : Int × Int) (ings : Six Ingredient)
    (a a' : Option String) (h : Str) (hw : E.getCategory (toLowerCase r.type) ≠ some "weapon") :
    initCraftStats E r t ings a h = initCraftStats E r t ings a' h := by
  simp only [initCraftStats, baseCraftStats_atkSpd E r t ings a a' h hw]

/-! ## Base64 text of a bit sequence -/

theorem toBits_fromBits (bs : List Bool) : toBits (fromBits bs : Int) bs.length = bs := by
  induction bs with
  | nil => rfl
  | cons b bs ih =>
    simp only [fromBits, List.length_cons, toBits]
    have h1 : (((if b = true then 1 else 0) + 2 * fromBits bs : Nat) : Int) / 2 = (fromBits bs : Int) := by
      cases b <;> simp
      omega
    have h2 : ((((if b = true then 1 else 0) + 2 * fromBits bs : Nat) : Int) % 2 = 1) ↔ b = true := by
      cases b <;> simp
    rw [h1, ih]
    congr 1
    cases b <;> simp

theorem fromBits_lt (bs : List Bool) : fromBits bs < 2 ^ bs.length := by
  induction bs with
  | nil => simp [fromBits]
  | cons b bs ih =>
    simp only [fromBits, List.length_cons, pow_succ]
    cases b <;> simp <;> omega

theorem digitOf_digitChar (E : Env) (hlen : E.digits.length = 64) (hnd : E.digits.Nodup)
    (d : Nat) (hd : d < 64) : digitOf E (digitChar E d) = some d := by
  have hdl : d < E.digits.length := by omega
  have hx : digitChar E d = E.digits[d] := by
    simp [digitChar, List.getD, List.getElem?_eq_getElem hdl]
  have hmem : E.digits[d] ∈ E.digits := List.getElem_mem hdl
  have hlt : E.digits.indexOf E.digits[d] < E.digits.length := List.indexOf_lt_length.2 hmem
  have hget : E.digits[E.digits.indexOf E.digits[d]] = E.digits[d] := List.getElem_indexOf hlt
  have heq : E.digits.indexOf E.digits[d] = d := (hnd.getElem_inj_iff).1 hget
  simp only [digitOf, hx, heq, hdl, if_true]

theorem bitsOfB64_b64OfBits (E : Env) (hlen : E.digits.length = 64) (hnd : E.digits.Nodup)
    (k : Nat) (bs : List Bool) (hk : bs.length = 6 * k) :
    bitsOfB64 E (b64OfBits E bs) = .ok bs := by
  induction k generalizing bs with
  | zero =>
    have : bs = [] := List.length_eq_zero.1 (by simpa using hk)
    subst this; rfl
  | succ k ih =>
    match bs, hk with
    | b0 :: b1 :: b2 :: b3 :: b4 :: b5 :: rest, hk =>
      have hr : rest.length = 6 * k := by simp at hk; omega
      have hd := digitOf_digitChar E hlen hnd (fromBits [b0, b1, b2, b3, b4, b5])
        (by have := fromBits_lt [b0, b1, b2, b3, b4, b5]; simpa using this)
      have ht := toBits_fromBits [b0, b1, b2, b3, b4, b5]
      simp only [List.length_cons, List.length_nil] at ht
      simp only [b64OfBits, bitsOfB64, hd, ih rest hr, ht]
      rfl
    | [], hk => simp at hk
    | [_], hk => simp at hk; omega
    | [_, _], hk => simp at hk; omega
    | [_, _, _], hk => simp at hk; omega
    | [_, _, _, _], hk => simp at hk; omega
    | [_, _, _, _, _], hk => simp at hk; omega

theorem Craft_new_ok (E : Env) (r : Recipe) (t : Int × Int) (ings : Six Ingredient)
    (a : Option String) (h : Str) (hok : (initCraftStats E r t ings a ("CR-".toList ++ h)).isOk = true) :
    ∃ c, Craft.new E r t ings a h = .ok c ∧ c.recipe = r ∧ c.mat_tiers = t ∧ c.ingreds = ings ∧
      c.atkSpd = a ∧ c.hash = "CR-".toList ++ h := by
  cases hs : initCraftStats E r t ings a ("CR-".toList ++ h) with
  | error e => rw [hs] at hok; exact absurd hok (by simp [Except.isOk, Except.toBool])
  | ok sm =>
    refine ⟨⟨r, t, ings, a, "CR-".toList ++ h, { sm with hash := some ("CR-".toList ++ h) }⟩,
      ?_, rfl, rfl, rfl, rfl, rfl⟩
    simp only [Craft.new, hs]

/-! ## Decoding what `encodeCraft` wrote -/

theorem atk_code (a : Option String)
    (hatk : a = some "SLOW" ∨ a = some "NORMAL" ∨ a = some "FAST") :
    ∃ code : Nat, code < 3 ∧ CRAFTED_ATK_SPD a = some (code : Int) ∧
      CRAFTED_ATK_SPD_ID.get? code = a := by
  rcases hatk with h | h | h <;> subst h
  · exact ⟨0, by decide, by decide, by decide⟩
  · exact ⟨1, by decide, by decide, by decide⟩
  · exact ⟨2, by decide, by decide, by decide⟩

theorem withVersion_fieldBits (version : Int) (c : Craft) (atk pad : List Bool) :
    withVersion version (fieldBits 2 c atk ++ pad) = fieldBits version c atk ++ pad := by
  have h1 : toBits 0 1 = [false] := by decide
  have h2 : toBits 2 7 = [false, true, false, false, false, false, false] := by decide
  simp [withVersion, fieldBits, h1, h2]

theorem decodeCraft_encoded_version (E : Env) (version : Int) (c : Craft) (P S : List Bool)
    (hash : Option Str)
    (hings : ∀ ing ∈ c.ingreds.toList, ing.id < 2 ^ 12 ∧ E.ingLookup ing.id = some ing)
    (hrec : c.recipe.id < 2 ^ 12 ∧ E.recipeLookup c.recipe.id = some c.recipe)
    (ht1 : c.mat_tiers.1 = 1 ∨ c.mat_tiers.1 = 2 ∨ c.mat_tiers.1 = 3)
    (ht2 : c.mat_tiers.2 = 1 ∨ c.mat_tiers.2 = 2 ∨ c.mat_tiers.2 = 3)
    (hatk : c.atkSpd = some "SLOW" ∨ c.atkSpd = some "NORMAL" ∨ c.atkSpd = some "FAST")
    (hcat : c.statMap.category = some "weapon" ↔
      E.weaponTypes.contains (toLowerCase c.recipe.type) = true)
    (hctor : (initCraftStats E c.recipe c.mat_tiers c.ingreds c.atkSpd c.hash).isOk = true) :
    ∃ vec c', encodeCraft (some c) = .ok vec ∧ vec.length % 6 = 0 ∧ 8 ≤ vec.length ∧
      withVersion 2 vec = vec ∧
      decodeCraft E (some ⟨P ++ withVersion version vec ++ S, P.length⟩) hash =
        .ok (some c', ⟨P ++ withVersion version vec ++ S, P.length + vec.length⟩) ∧
      Craft.new E c.recipe c.mat_tiers c.ingreds
        (if c.statMap.category = some "weapon" then c.atkSpd else some "SLOW")
        (b64OfBits E (withVersion version vec)) = .ok c' ∧
      c'.recipe = c.recipe ∧ c'.mat_tiers = c.mat_tiers ∧ c'.ingreds = c.ingreds ∧
      c'.atkSpd = (if c.statMap.category = some "weapon" then c.atkSpd else some "SLOW") ∧
      c'.hash = "CR-".toList ++ b64OfBits E (withVersion version vec) := by
  have hings' : ∀ ing ∈ c.ingreds.toList, ing.id < 4096 ∧ E.ingLookup ing.id = some ing := hings
  have hrec' : c.recipe.id < 4096 ∧ E.recipeLookup c.recipe.id = some c.recipe := hrec
  by_cases hw : c.statMap.category = some "weapon"
  · have hwt := hcat.1 hw
    obtain ⟨code, hcl, hcode, hid⟩ := atk_code c.atkSpd hatk
    have henc := encodeCraft_weapon c code hw hcode
    have hdec := decodeCraft_fields E version c P S hash (toBits (code : Int) 4) 6 hings' hrec'
      ht1 ht2 (Or.inl ⟨hwt, ⟨code, hcl, rfl, hid⟩, rfl⟩)
    have hok : (initCraftStats E c.recipe c.mat_tiers c.ingreds c.atkSpd
        ("CR-".toList ++
          b64OfBits E (fieldBits version c (toBits (code : Int) 4) ++ toBits 0 6))).isOk = true := by
      rw [← hctor]; exact initCraftStats_isOk ..
    obtain ⟨c', hnew, h1, h2, h3, h4, h5⟩ := Craft_new_ok E _ _ _ _ _ hok
    refine ⟨_, c', henc, by simp [fieldBits_length, toBits_length],
      by simp [fieldBits_length, toBits_length], withVersion_fieldBits 2 c _ _, ?_, ?_,
      h1, h2, h3, ?_, ?_⟩
    · rw [withVersion_fieldBits, hdec]
      simp only [hwt, if_true, hnew]
      simp [fieldBits_length, toBits_length]
    · rw [withVersion_fieldBits]; simp only [hw, if_true, hnew]
    · simp [hw, h4]
    · rw [withVersion_fieldBits, h5]
  · have hwt : E.weaponTypes.contains (toLowerCase c.recipe.type) = false := by
      cases hc : E.weaponTypes.contains (toLowerCase c.recipe.type)
      · rfl
      · exact absurd (hcat.2 hc) hw
    have henc := encodeCraft_other c hw
    have hdec := decodeCraft_fields E version c P S hash [] 4 hings' hrec' ht1 ht2
      (Or.inr ⟨hwt, rfl, rfl⟩)
    have hok : (initCraftStats E c.recipe c.mat_tiers c.ingreds (some "SLOW")
        ("CR-".toList ++ b64OfBits E (fieldBits version c [] ++ toBits 0 4))).isOk = true := by
      rw [← hctor]; exact initCraftStats_isOk ..
    obtain ⟨c', hnew, h1, h2, h3, h4, h5⟩ := Craft_new_ok E _ _ _ _ _ hok
    refine ⟨_, c', henc, by simp [fieldBits_length, toBits_length],
      by simp [fieldBits_length, toBits_length], withVersion_fieldBits 2 c _ _, ?_, ?_,
      h1, h2, h3, ?_, ?_⟩
    · rw [withVersion_fieldBits, hdec]
      simp only [hwt, Bool.false_eq_true, if_false, hnew]
      simp [fieldBits_length, toBits_length]
    · rw [withVersion_fieldBits]; simp only [hw, if_false, hnew]
    · simp [hw, h4]
    · rw [withVersion_fieldBits, h5]

theorem decodeCraft_encoded (E : Env) (c : Craft) (P S : List Bool) (hash : Option Str)
    (hings : ∀ ing ∈ c.ingreds.toList, ing.id < 2 ^ 12 ∧ E.ingLookup ing.id = some ing)
    (hrec : c.recipe.id < 2 ^ 12 ∧ E.recipeLookup c.recipe.id = some c.recipe)
    (ht1 : c.mat_tiers.1 = 1 ∨ c.mat_tiers.1 = 2 ∨ c.mat_tiers.1 = 3)
    (ht2 : c.mat_tiers.2 = 1 ∨ c.mat_tiers.2 = 2 ∨ c.mat_tiers.2 = 3)
    (hatk : c.atkSpd = some "SLOW" ∨ c.atkSpd = some "NORMAL" ∨ c.atkSpd = some "FAST")
    (hcat : c.statMap.category = some "weapon" ↔
      E.weaponTypes.contains (toLowerCase c.recipe.type) = true)
    (hctor : (initCraftStats E c.recipe c.mat_tiers c.ingreds c.atkSpd c.hash).isOk = true) :
    ∃ vec c', encodeCraft (some c) = .ok vec ∧ vec.length % 6 = 0 ∧
      decodeCraft E (some ⟨P ++ vec ++ S, P.length⟩) hash =
        .ok (some c', ⟨P ++ vec ++ S, P.length + vec.length⟩) ∧
      c'.recipe = c.recipe ∧ c'.mat_tiers = c.mat_tiers ∧ c'.ingreds = c.ingreds ∧
      c'.atkSpd = (if c.statMap.category = some "weapon" then c.atkSpd else some "SLOW") ∧
      c'.hash = "CR-".toList ++ b64OfBits E vec ∧
      Craft.new E c.recipe c.mat_tiers c.ingreds
        (if c.statMap.category = some "weapon" then c.atkSpd else some "SLOW")
        (b64OfBits E vec) = .ok c' := by
  obtain ⟨vec, c', henc, hmod, -, h2v, hdec, hnew, h1, h2, h3, h4, h5⟩ :=
    decodeCraft_encoded_version E 2 c P S hash hings hrec ht1 ht2 hatk hcat hctor
  rw [h2v] at hdec hnew h5
  exact ⟨vec, c', henc, hmod, hdec, h1, h2, h3, h4, h5, hnew⟩

theorem decodeCraft_of_hash (E : Env) (h : Str) (bits : List Bool)
    (hb : bitsOfB64 E h = .ok bits) :
    decodeCraft E none (some h) = decodeCraft E (some ⟨bits, 0⟩) (some h) := by
  simp [decodeCraft, hb, bind, Except.bind, pure, Except.pure]

/-! ## Claims about the current format -/

/-- C1: round trip of the current format.  For a craft whose ingredient and recipe ids are
below 2^12 and resolve in the tables to the craft's own ingredients and recipe, whose tiers
are in {1,2,3}, whose attack speed is SLOW, NORMAL or FAST, whose category is "weapon" exactly
when its recipe type is in the weapon set, and which the constructor can derive,
`encodeCraft` returns a vector and `decodeCraft` on its base64 string returns a craft with
the same recipe id, ingredient ids in slot order, material tiers and, for a weapon, attack
speed. -/
theorem decodeCraft_encodeCraft_roundtrip (E : Env) (c : Craft)
    (hlen : E.digits.length = 64) (hnd : E.digits.Nodup)
    (hings : ∀ ing ∈ c.ingreds.toList, ing.id < 2 ^ 12 ∧ E.ingLookup ing.id = some ing)
    (hrec : c.recipe.id < 2 ^ 12 ∧ E.recipeLookup c.recipe.id = some c.recipe)
    (ht1 : c.mat_tiers.1 = 1 ∨ c.mat_tiers.1 = 2 ∨ c.mat_tiers.1 = 3)
    (ht2 : c.mat_tiers.2 = 1 ∨ c.mat_tiers.2 = 2 ∨ c.mat_tiers.2 = 3)
    (hatk : c.atkSpd = some "SLOW" ∨ c.atkSpd = some "NORMAL" ∨ c.atkSpd = some "FAST")
    (hcat : c.statMap.category = some "weapon" ↔
      E.weaponTypes.contains (toLowerCase c.recipe.type) = true)
    (hctor : (initCraftStats E c.recipe c.mat_tiers c.ingreds c.atkSpd c.hash).isOk = true) :
    ∃ vec c' cur, encodeCraft (some c) = .ok vec ∧
      decodeCraft E none (some (b64OfBits E vec)) = .ok (some c', cur) ∧
      c'.recipe.id = c.recipe.id ∧
      c'.ingreds.toList.map (fun i => i.id) = c.ingreds.toList.map (fun i => i.id) ∧
      c'.mat_tiers = c.mat_tiers ∧
      (c.statMap.category = some "weapon" → c'.atkSpd = c.atkSpd) := by
  obtain ⟨vec, -, henc, hmod, -⟩ :=
    decodeCraft_encoded E c [] [] none hings hrec ht1 ht2 hatk hcat hctor
  obtain ⟨vec1, c', henc1, -, hdec, h1, h2, h3, h4, -, -⟩ :=
    decodeCraft_encoded E c [] [] (some (b64OfBits E vec)) hings hrec ht1 ht2 hatk hcat hctor
  have hv : vec1 = vec := by
    rw [henc] at henc1
    exact (Except.ok.inj henc1).symm
  subst hv
  have hb := bitsOfB64_b64OfBits E hlen hnd (vec1.length / 6) vec1 (by omega)
  refine ⟨vec1, c', ⟨vec1, vec1.length⟩, henc, ?_, by rw [h1], by rw [h3], h2, ?_⟩
  · rw [decodeCraft_of_hash E _ vec1 hb]
    simpa using hdec
  · intro hw
    simp [h4, hw]

/-- Witness of C1 on the example wand craft. -/
theorem decodeCraft_encodeCraft_roundtrip_witness :
    ∃ vec c' cur, encodeCraft (some exWandCraft) = .ok vec ∧
      decodeCraft exEnv none (some (b64OfBits exEnv vec)) = .ok (some c', cur) ∧
      c'.recipe.id = exWandCraft.recipe.id ∧
      c'.ingreds.toList.map (fun i => i.id) = exWandCraft.ingreds.toList.map (fun i => i.id) ∧
      c'.mat_tiers = exWandCraft.mat_tiers ∧
      (exWandCraft.statMap.category = some "weapon" → c'.atkSpd = exWandCraft.atkSpd) :=
  decodeCraft_encodeCraft_roundtrip exEnv exWandCraft (by decide) (by decide) (by decide)
    (by decide) (by decide) (by decide) (by decide) (by decide) (by decide)

/-- C2: padding invariant.  A missing craft encodes to the empty vector; every vector
`encodeCraft` returns has a length that is a multiple of 6; and `encodeCraft` returns a vector
for every craft that is not a weapon or whose attack speed is a key of the table. -/
theorem encodeCraft_length_multiple_of_six (craft : Option Craft) :
    encodeCraft none = .ok [] ∧
    (∀ vec, encodeCraft craft = .ok vec → vec.length % 6 = 0) ∧
    ((∀ c, craft = some c → c.statMap.category = some "weapon" →
        (CRAFTED_ATK_SPD c.atkSpd).isSome = true) →
      ∃ vec, encodeCraft craft = .ok vec ∧ vec.length % 6 = 0) := by
  refine ⟨rfl, ?_, ?_⟩
  · intro vec hvec
    cases craft with
    | none =>
      have : vec = [] := by
        have h : encodeCraft none = .ok ([] : List Bool) := rfl
        rw [h] at hvec
        exact (Except.ok.inj hvec).symm
      subst this; rfl
    | some c =>
      by_cases hw : c.statMap.category = some "weapon"
      · cases hcode : CRAFTED_ATK_SPD c.atkSpd with
        | none => simp [encodeCraft, hw, hcode] at hvec
        | some code =>
          rw [encodeCraft_weapon c code hw hcode] at hvec
          rw [← Except.ok.inj hvec]
          simp [fieldBits_length, toBits_length]
      · rw [encodeCraft_other c hw] at hvec
        rw [← Except.ok.inj hvec]
        simp [fieldBits_length, toBits_length]
  · intro hatk
    cases craft with
    | none => exact ⟨[], rfl, rfl⟩
    | some c =>
      by_cases hw : c.statMap.category = some "weapon"
      · have hsome := hatk c rfl hw
        cases hcode : CRAFTED_ATK_SPD c.atkSpd with
        | none => rw [hcode] at hsome; exact absurd hsome (by simp)
        | some code =>
          exact ⟨_, encodeCraft_weapon c code hw hcode, by simp [fieldBits_length, toBits_length]⟩
      · exact ⟨_, encodeCraft_other c hw, by simp [fieldBits_length, toBits_length]⟩

/-- Witness of C2 on the example wand craft: it encodes to a vector of 108 bits. -/
theorem encodeCraft_length_multiple_of_six_witness :
    ∃ vec, encodeCraft (some exWandCraft) = .ok vec ∧ vec.length % 6 = 0 :=
  (encodeCraft_length_multiple_of_six (some exWandCraft)).2.2 (by decide)

/-- C3: composition with an outer stream.  For a valid craft (as in C1), any bit prefix `P`,
any bit suffix `S` and any `hash` argument, `decodeCraft` called with a cursor at index `|P|`
of `P ++ encodeCraft(c) ++ S` returns a craft, leaves the cursor at `|P| + |encodeCraft(c)|`,
and the hash of the craft is "CR-" followed by the base64 text of the bits
`[|P|, |P| + |encodeCraft(c)|)` of the buffer. -/
theorem decodeCraft_inside_outer_stream (E : Env) (c : Craft) (P S : List Bool)
    (hash : Option Str)
    (hings : ∀ ing ∈ c.ingreds.toList, ing.id < 2 ^ 12 ∧ E.ingLookup ing.id = some ing)
    (hrec : c.recipe.id < 2 ^ 12 ∧ E.recipeLookup c.recipe.id = some c.recipe)
    (ht1 : c.mat_tiers.1 = 1 ∨ c.mat_tiers.1 = 2 ∨ c.mat_tiers.1 = 3)
    (ht2 : c.mat_tiers.2 = 1 ∨ c.mat_tiers.2 = 2 ∨ c.mat_tiers.2 = 3)
    (hatk : c.atkSpd = some "SLOW" ∨ c.atkSpd = some "NORMAL" ∨ c.atkSpd = some "FAST")
    (hcat : c.statMap.category = some "weapon" ↔
      E.weaponTypes.contains (toLowerCase c.recipe.type) = true)
    (hctor : (initCraftStats E c.recipe c.mat_tiers c.ingreds c.atkSpd c.hash).isOk = true) :
    ∃ vec c', encodeCraft (some c) = .ok vec ∧
      decodeCraft E (some ⟨P ++ vec ++ S, P.length⟩) hash =
        .ok (some c', ⟨P ++ vec ++ S, P.length + vec.length⟩) ∧
      c'.hash = "CR-".toList ++
        b64OfBits E (((P ++ vec ++ S).drop P.length).take vec.length) := by
  obtain ⟨vec, c', henc, -, hdec, -, -, -, -, hh, -⟩ :=
    decodeCraft_encoded E c P S hash hings hrec ht1 ht2 hatk hcat hctor
  refine ⟨vec, c', henc, hdec, ?_⟩
  have : ((P ++ vec ++ S).drop P.length).take vec.length = vec := by
    simp [List.append_assoc]
  rw [this, hh]

/-- Witness of C3: the example helmet craft between the prefix 101 and the suffix 11. -/
theorem decodeCraft_inside_outer_stream_witness :
    ∃ vec c', encodeCraft (some exHelmetCraft) = .ok vec ∧
      decodeCraft exEnv (some ⟨[true, false, true] ++ vec ++ [true, true], 3⟩) none =
        .ok (some c', ⟨[true, false, true] ++ vec ++ [true, true], 3 + vec.length⟩) ∧
      c'.hash = "CR-".toList ++
        b64OfBits exEnv ((([true, false, true] ++ vec ++ [true, true]).drop 3).take vec.length) :=
  decodeCraft_inside_outer_stream exEnv exHelmetCraft [true, false, true] [true, true] none
    (by decide) (by decide) (by decide) (by decide) (by decide) (by decide) (by decide)

/-! ## The legacy format -/

theorem fromIntN_two (E : Env) (v : Int) :
    fromIntN E v 2 = [digitChar E (v / 64 % 64).toNat, digitChar E (v % 64).toNat] := by
  simp [fromIntN]

theorem fromIntN_one (E : Env) (v : Int) : fromIntN E v 1 = [digitChar E (v % 64).toNat] := by
  simp [fromIntN]

theorem toInt_two (E : Env) (hlen : E.digits.length = 64) (hnd : E.digits.Nodup) (a b : Nat)
    (ha : a < 64) (hb : b < 64) : toInt E [digitChar E a, digitChar E b] = some (a * 64 + b) := by
  simp [toInt, toIntAux, digitOf_digitChar E hlen hnd a ha, digitOf_digitChar E hlen hnd b hb]

theorem toInt_one (E : Env) (hlen : E.digits.length = 64) (hnd : E.digits.Nodup) (a : Nat)
    (ha : a < 64) : toInt E [digitChar E a] = some a := by
  simp [toInt, toIntAux, digitOf_digitChar E hlen hnd a ha]

theorem toInt_fromIntN_two (E : Env) (hlen : E.digits.length = 64) (hnd : E.digits.Nodup)
    (v : Nat) (hv : v < 2 ^ 12) : toInt E (fromIntN E (v : Int) 2) = some v := by
  have hv' : v < 4096 := hv
  have h1 : ((v : Int) / 64 % 64).toNat = v / 64 := by omega
  have h2 : ((v : Int) % 64).toNat = v % 64 := by omega
  rw [fromIntN_two, h1, h2, toInt_two E hlen hnd _ _ (by omega) (by omega)]
  congr 1; omega

theorem legacy_tiers (a b : Int) (ha : a = 1 ∨ a = 2 ∨ a = 3) (hb : b = 1 ∨ b = 2 ∨ b = 3) :
    ∃ n : Nat, ((a + (b - 1) * 3) % 64).toNat = n ∧ n < 64 ∧ legacyTierA n = a ∧
      legacyTierB n = b ∧ (n : Int) = a + (b - 1) * 3 := by
  rcases ha with h | h | h <;> rcases hb with h' | h' | h' <;> subst h <;> subst h'
  · refine ⟨1, by decide, by decide, by decide, ?_, by decide⟩
    simp only [legacyTierB]; norm_num [Int.floor_eq_iff]
  · refine ⟨4, by decide, by decide, by decide, ?_, by decide⟩
    simp only [legacyTierB]; norm_num [Int.floor_eq_iff]
  · refine ⟨7, by decide, by decide, by decide, ?_, by decide⟩
    simp only [legacyTierB]; norm_num [Int.floor_eq_iff]
  · refine ⟨2, by decide, by decide, by decide, ?_, by decide⟩
    simp only [legacyTierB]; norm_num [Int.floor_eq_iff]
  · refine ⟨5, by decide, by decide, by decide, ?_, by decide⟩
    simp only [legacyTierB]; norm_num [Int.floor_eq_iff]
  · refine ⟨8, by decide, by decide, by decide, ?_, by decide⟩
    simp only [legacyTierB]; norm_num [Int.floor_eq_iff]
  · refine ⟨3, by decide, by decide, by decide, ?_, by decide⟩
    simp only [legacyTierB]; norm_num [Int.floor_eq_iff]
  · refine ⟨6, by decide, by decide, by decide, ?_, by decide⟩
    simp only [legacyTierB]; norm_num [Int.floor_eq_iff]
  · refine ⟨9, by decide, by decide, by decide, ?_, by decide⟩
    simp only [legacyTierB]; norm_num [Int.floor_eq_iff]

theorem atk_index (a : Option String)
    (hatk : a = some "SLOW" ∨ a = some "NORMAL" ∨ a = some "FAST") :
    ∃ k : Nat, (legacyAtkIndex a % 64).toNat = k ∧ k < 64 ∧
      ["SLOW", "NORMAL", "FAST"].get? k = a := by
  rcases hatk with h | h | h <;> subst h
  · exact ⟨0, by decide, by decide, by decide⟩
  · exact ⟨1, by decide, by decide, by decide⟩
  · exact ⟨2, by decide, by decide, by decide⟩

theorem getCraftFromHash_legacy (E : Env) (c : Craft)
    (hlen : E.digits.length = 64) (hnd : E.digits.Nodup)
    (hings : ∀ ing ∈ c.ingreds.toList, ing.id < 2 ^ 12 ∧ E.ingLookup ing.id = some ing)
    (hrec : c.recipe.id < 2 ^ 12 ∧ E.recipeLookup c.recipe.id = some c.recipe)
    (ht1 : c.mat_tiers.1 = 1 ∨ c.mat_tiers.1 = 2 ∨ c.mat_tiers.1 = 3)
    (ht2 : c.mat_tiers.2 = 1 ∨ c.mat_tiers.2 = 2 ∨ c.mat_tiers.2 = 3)
    (hatk : c.atkSpd = some "SLOW" ∨ c.atkSpd = some "NORMAL" ∨ c.atkSpd = some "FAST") :
    getCraftFromHash E ("CR-".toList ++ encodeCraftLegacy E (some c)) =
      (match Craft.new E c.recipe c.mat_tiers c.ingreds c.atkSpd (encodeCraftLegacy E (some c)) with
        | .ok craft => some craft
        | .error _ => none) := by
  obtain ⟨r, ⟨t1, t2⟩, ings, a, h, sm⟩ := c
  obtain ⟨i0, i1, i2, i3, i4, i5⟩ := ings
  simp only [Six.toList, List.mem_cons, List.mem_singleton, forall_eq_or_imp, forall_eq,
    List.not_mem_nil, false_implies, implies_true, and_true] at hings
  obtain ⟨⟨l0, k0⟩, ⟨l1, k1⟩, ⟨l2, k2⟩, ⟨l3, k3⟩, ⟨l4, k4⟩, ⟨l5, k5⟩⟩ := hings
  obtain ⟨lr, kr⟩ := hrec
  simp only at ht1 ht2 hatk lr kr
  obtain ⟨n, hn, hn64, hA, hB, -⟩ := legacy_tiers t1 t2 ht1 ht2
  obtain ⟨k, hk, hk64, hget⟩ := atk_index a hatk
  have e0 := toInt_fromIntN_two E hlen hnd i0.id l0
  have e1 := toInt_fromIntN_two E hlen hnd i1.id l1
  have e2 := toInt_fromIntN_two E hlen hnd i2.id l2
  have e3 := toInt_fromIntN_two E hlen hnd i3.id l3
  have e4 := toInt_fromIntN_two E hlen hnd i4.id l4
  have e5 := toInt_fromIntN_two E hlen hnd i5.id l5
  have er := toInt_fromIntN_two E hlen hnd r.id lr
  have et := toInt_one E hlen hnd n hn64
  have ea := toInt_one E hlen hnd k hk64
  simp only [fromIntN_two] at e0 e1 e2 e3 e4 e5 er
  have hname : encodeCraftLegacy E (some ⟨r, (t1, t2), ⟨i0, i1, i2, i3, i4, i5⟩, a, h, sm⟩) =
      '1' :: (fromIntN E i0.id 2 ++ fromIntN E i1.id 2 ++ fromIntN E i2.id 2 ++ fromIntN E i3.id 2 ++
        fromIntN E i4.id 2 ++ fromIntN E i5.id 2 ++ fromIntN E r.id 2 ++ [digitChar E n] ++
        [digitChar E k]) := by
    simp [encodeCraftLegacy, fromIntN_one, hn, hk]
  rw [hname]
  have hcr : "CR-".toList = ['C', 'R', '-'] := by decide
  have h1 : "1".toList = ['1'] := by decide
  simp only [fromIntN_two, getCraftFromHash, legacyBody, substring, bind, Except.bind, hcr, h1,
    List.cons_append, List.nil_append, List.append_assoc, List.take_succ_cons, List.take_zero,
    List.drop_succ_cons, List.drop_zero, Nat.sub_zero, Nat.reduceSub, if_true,
    e0, e1, e2, e3, e4, e5, er, et, ea, lookupIng, lookupRecipe, Option.bind, k0, k1, k2, k3, k4,
    k5, kr, hA, hB, hget]

/-- C4: round trip of the legacy format.  For a craft whose ingredient and recipe ids are
below 2^12 and resolve in the tables, whose tiers `(a, b)` are in {1,2,3}, whose attack speed
is SLOW, NORMAL or FAST and which the constructor can derive, `getCraftFromHash` applied to
"CR-" followed by `encodeCraftLegacy(craft)` returns a craft with the same recipe id, the same
ingredient ids in order, the same attack speed and the tiers `(a, b)`; and for each of the
nine tier pairs the number `n = a + 3 (b - 1)` is decoded to `a` and to `b`. -/
theorem getCraftFromHash_encodeCraftLegacy_roundtrip (E : Env) (c : Craft)
    (hlen : E.digits.length = 64) (hnd : E.digits.Nodup)
    (hings : ∀ ing ∈ c.ingreds.toList, ing.id < 2 ^ 12 ∧ E.ingLookup ing.id = some ing)
    (hrec : c.recipe.id < 2 ^ 12 ∧ E.recipeLookup c.recipe.id = some c.recipe)
    (ht1 : c.mat_tiers.1 = 1 ∨ c.mat_tiers.1 = 2 ∨ c.mat_tiers.1 = 3)
    (ht2 : c.mat_tiers.2 = 1 ∨ c.mat_tiers.2 = 2 ∨ c.mat_tiers.2 = 3)
    (hatk : c.atkSpd = some "SLOW" ∨ c.atkSpd = some "NORMAL" ∨ c.atkSpd = some "FAST")
    (hctor : (initCraftStats E c.recipe c.mat_tiers c.ingreds c.atkSpd c.hash).isOk = true) :
    (∃ c', getCraftFromHash E ("CR-".toList ++ encodeCraftLegacy E (some c)) = some c' ∧
      c'.recipe.id = c.recipe.id ∧
      c'.ingreds.toList.map (fun i => i.id) = c.ingreds.toList.map (fun i => i.id) ∧
      c'.atkSpd = c.atkSpd ∧ c'.mat_tiers = c.mat_tiers) ∧
    (∀ a b : Int, (a = 1 ∨ a = 2 ∨ a = 3) → (b = 1 ∨ b = 2 ∨ b = 3) →
      ∃ n : Nat, (n : Int) = a + (b - 1) * 3 ∧ legacyTierA n = a ∧ legacyTierB n = b) := by
  constructor
  · have hok : (initCraftStats E c.recipe c.mat_tiers c.ingreds c.atkSpd
        ("CR-".toList ++ encodeCraftLegacy E (some c))).isOk = true := by
      rw [← hctor]; exact initCraftStats_isOk ..
    obtain ⟨c', hnew, h1, h2, h3, h4, -⟩ := Craft_new_ok E _ _ _ _ _ hok
    refine ⟨c', ?_, by rw [h1], by rw [h3], h4, h2⟩
    rw [getCraftFromHash_legacy E c hlen hnd hings hrec ht1 ht2 hatk, hnew]
  · intro a b ha hb
    obtain ⟨n, -, -, hA, hB, hn⟩ := legacy_tiers a b ha hb
    exact ⟨n, hn, hA, hB⟩

/-- Witness of C4 on the example wand craft. -/
theorem getCraftFromHash_encodeCraftLegacy_roundtrip_witness :
    ∃ c', getCraftFromHash exEnv ("CR-".toList ++ encodeCraftLegacy exEnv (some exWandCraft)) =
        some c' ∧
      c'.recipe.id = exWandCraft.recipe.id ∧
      c'.ingreds.toList.map (fun i => i.id) = exWandCraft.ingreds.toList.map (fun i => i.id) ∧
      c'.atkSpd = exWandCraft.atkSpd ∧ c'.mat_tiers = exWandCraft.mat_tiers :=
  (getCraftFromHash_encodeCraftLegacy_roundtrip exEnv exWandCraft (by decide) (by decide)
    (by decide) (by decide) (by decide) (by decide) (by decide) (by decide)).1

/-! ## Legacy compatibility -/

theorem Craft_new_statMap (E : Env) (r : Recipe) (t : Int × Int) (ings : Six Ingredient)
    (a : Option String) (h : Str) (c : Craft) (hnew : Craft.new E r t ings a h = .ok c) :
    ∃ sm, initCraftStats E r t ings a ("CR-".toList ++ h) = .ok sm ∧
      c.statMap = { sm with hash := some ("CR-".toList ++ h) } ∧ c.hash = "CR-".toList ++ h := by
  cases hs : initCraftStats E r t ings a ("CR-".toList ++ h) with
  | error e => simp only [Craft.new, hs] at hnew; cases hnew
  | ok sm =>
    simp only [Craft.new, hs] at hnew
    have := Except.ok.inj hnew
    subst this
    exact ⟨sm, rfl, rfl, rfl⟩

/-- C5 (amended): legacy compatibility up to the hash entries.  For a valid craft (as in C1)
in an environment whose category table and weapon set agree on the recipe type, the craft
`c1` decoded from the legacy hash and the craft `c2` decoded from the current-format string
have the same attribute map except for the entries `name`, `displayName` and `hash`, which
hold the hash of their own craft. -/
theorem legacy_and_current_maps_agree_up_to_hash (E : Env) (c : Craft)
    (hlen : E.digits.length = 64) (hnd : E.digits.Nodup)
    (hings : ∀ ing ∈ c.ingreds.toList, ing.id < 2 ^ 12 ∧ E.ingLookup ing.id = some ing)
    (hrec : c.recipe.id < 2 ^ 12 ∧ E.recipeLookup c.recipe.id = some c.recipe)
    (ht1 : c.mat_tiers.1 = 1 ∨ c.mat_tiers.1 = 2 ∨ c.mat_tiers.1 = 3)
    (ht2 : c.mat_tiers.2 = 1 ∨ c.mat_tiers.2 = 2 ∨ c.mat_tiers.2 = 3)
    (hatk : c.atkSpd = some "SLOW" ∨ c.atkSpd = some "NORMAL" ∨ c.atkSpd = some "FAST")
    (hcat : c.statMap.category = some "weapon" ↔
      E.weaponTypes.contains (toLowerCase c.recipe.type) = true)
    (hcatE : E.getCategory (toLowerCase c.recipe.type) = some "weapon" ↔
      E.weaponTypes.contains (toLowerCase c.recipe.type) = true)
    (hctor : (initCraftStats E c.recipe c.mat_tiers c.ingreds c.atkSpd c.hash).isOk = true) :
    ∃ vec c1 c2 cur, encodeCraft (some c) = .ok vec ∧
      getCraftFromHash E ("CR-".toList ++ encodeCraftLegacy E (some c)) = some c1 ∧
      decodeCraft E none (some (b64OfBits E vec)) = .ok (some c2, cur) ∧
      c1.statMap =
        { c2.statMap with name := c1.hash, displayName := c1.hash, hash := some c1.hash } ∧
      c1.hash = "CR-".toList ++ encodeCraftLegacy E (some c) ∧
      c2.hash = "CR-".toList ++ b64OfBits E vec := by
  obtain ⟨vec, -, henc, hmod, -⟩ :=
    decodeCraft_encoded E c [] [] none hings hrec ht1 ht2 hatk hcat hctor
  obtain ⟨vec1, c2, henc1, -, hdec, -, -, -, -, hh2, hnew2⟩ :=
    decodeCraft_encoded E c [] [] (some (b64OfBits E vec)) hings hrec ht1 ht2 hatk hcat hctor
  have hv : vec1 = vec := by
    rw [henc] at henc1
    exact (Except.ok.inj henc1).symm
  subst hv
  have hb := bitsOfB64_b64OfBits E hlen hnd (vec1.length / 6) vec1 (by omega)
  have hok : (initCraftStats E c.recipe c.mat_tiers c.ingreds c.atkSpd
      ("CR-".toList ++ encodeCraftLegacy E (some c))).isOk = true := by
    rw [← hctor]; exact initCraftStats_isOk ..
  obtain ⟨c1, hnew1, -, -, -, -, hh1⟩ := Craft_new_ok E _ _ _ _ _ hok
  obtain ⟨sm1, hs1, hm1, -⟩ := Craft_new_statMap E _ _ _ _ _ c1 hnew1
  obtain ⟨sm2, hs2, hm2, -⟩ := Craft_new_statMap E _ _ _ _ _ c2 hnew2
  have hatk' : initCraftStats E c.recipe c.mat_tiers c.ingreds
      (if c.statMap.category = some "weapon" then c.atkSpd else some "SLOW")
      ("CR-".toList ++ b64OfBits E vec1) =
      initCraftStats E c.recipe c.mat_tiers c.ingreds c.atkSpd
      ("CR-".toList ++ b64OfBits E vec1) := by
    by_cases hw : c.statMap.category = some "weapon"
    · simp only [hw, if_true]
    · simp only [hw, if_false]
      exact initCraftStats_atkSpd E _ _ _ _ _ _ (fun hE => hw (hcat.2 (hcatE.1 hE)))
  have hrel := initCraftStats_setName E c.recipe c.mat_tiers c.ingreds c.atkSpd
    ("CR-".toList ++ encodeCraftLegacy E (some c)) ("CR-".toList ++ b64OfBits E vec1)
  rw [hs1, ← hatk', hs2] at hrel
  have hsm : sm1 = setName ("CR-".toList ++ encodeCraftLegacy E (some c)) sm2 :=
    Except.ok.inj hrel
  refine ⟨vec1, c1, c2, ⟨vec1, vec1.length⟩, henc, ?_, ?_, ?_, hh1, hh2⟩
  · rw [getCraftFromHash_legacy E c hlen hnd hings hrec ht1 ht2 hatk, hnew1]
  · rw [decodeCraft_of_hash E _ vec1 hb]
    simpa using hdec
  · rw [hm1, hm2, hsm, hh1]
    rfl

/-- Witness of C5 on the example helmet craft. -/
theorem legacy_and_current_maps_agree_up_to_hash_witness :
    ∃ vec c1 c2 cur, encodeCraft (some exHelmetCraft) = .ok vec ∧
      getCraftFromHash exEnv ("CR-".toList ++ encodeCraftLegacy exEnv (some exHelmetCraft)) =
        some c1 ∧
      decodeCraft exEnv none (some (b64OfBits exEnv vec)) = .ok (some c2, cur) ∧
      c1.statMap =
        { c2.statMap with name := c1.hash, displayName := c1.hash, hash := some c1.hash } ∧
      c1.hash = "CR-".toList ++ encodeCraftLegacy exEnv (some exHelmetCraft) ∧
      c2.hash = "CR-".toList ++ b64OfBits exEnv vec :=
  legacy_and_current_maps_agree_up_to_hash exEnv exHelmetCraft (by decide) (by decide)
    (by decide) (by decide) (by decide) (by decide) (by decide) (by decide) (by decide)
    (by decide)

theorem encodeCraft_exHelmet :
    ∃ vec, encodeCraft (some exHelmetCraft) = .ok vec ∧
      b64OfBits exEnv vec = "4000w3000000w3041".toList := by
  have h : (match encodeCraft (some exHelmetCraft) with
    | .ok vec => decide (b64OfBits exEnv vec = "4000w3000000w3041".toList)
    | _ => false) = true := by decide
  split at h
  · rename_i vec h1
    exact ⟨vec, h1, of_decide_eq_true h⟩
  · exact absurd h (by simp)

/-- C5 (counterexample): for the example helmet craft the legacy hash is
"CR-100+W000000+W0081" and the current-format hash is "CR-4000w3000000w3041"; both decode, and
the two attribute maps differ (their `name` entries are the two hashes). -/
theorem legacy_and_current_maps_differ :
    ∃ vec c1 c2 cur,
      encodeCraftLegacy exEnv (some exHelmetCraft) = "100+W000000+W0081".toList ∧
      encodeCraft (some exHelmetCraft) = .ok vec ∧
      b64OfBits exEnv vec = "4000w3000000w3041".toList ∧
      getCraftFromHash exEnv "CR-100+W000000+W0081".toList = some c1 ∧
      decodeCraft exEnv none (some "4000w3000000w3041".toList) = .ok (some c2, cur) ∧
      c1.statMap.name = "CR-100+W000000+W0081".toList ∧
      c2.statMap.name = "CR-4000w3000000w3041".toList ∧
      c1.statMap ≠ c2.statMap := by
  have h : (match getCraftFromHash exEnv "CR-100+W000000+W0081".toList,
      decodeCraft exEnv none (some "4000w3000000w3041".toList) with
    | some c1, .ok (some c2, _) =>
      decide (c1.statMap.name = "CR-100+W000000+W0081".toList ∧
        c2.statMap.name = "CR-4000w3000000w3041".toList)
    | _, _ => false) = true := by decide
  split at h
  · rename_i c1 c2 cur h1 h2
    have hn := of_decide_eq_true h
    obtain ⟨vec, hv1, hv2⟩ := encodeCraft_exHelmet
    refine ⟨vec, c1, c2, cur, by decide, hv1, hv2, h1, h2, hn.1, hn.2, ?_⟩
    intro heq
    have : c1.statMap.name = c2.statMap.name := by rw [heq]
    rw [hn.1, hn.2] at this
    exact absurd this (by decide)
  · exact absurd h (by simp)


/-! ## The version field -/

theorem encodeCraft_take_one (c : Craft) (vec : List Bool) (h : encodeCraft (some c) = .ok vec) :
    vec.take 1 = [false] := by
  have h1 : toBits 0 1 = [false] := by decide
  by_cases hw : c.statMap.category = some "weapon"
  · cases hcode : CRAFTED_ATK_SPD c.atkSpd with
    | none => simp [encodeCraft, hw, hcode] at h
    | some code =>
      rw [encodeCraft_weapon c code hw hcode] at h
      rw [← Except.ok.inj h]
      simp [fieldBits, h1]
  · rw [encodeCraft_other c hw] at h
    rw [← Except.ok.inj h]
    simp [fieldBits, h1]

theorem withVersion_fields (version : Nat) (hver : version < 128) (vec : List Bool)
    (h : vec.take 1 = [false]) :
    (withVersion version vec).head? = some false ∧
      fromBits (((withVersion version vec).drop 1).take 7) = version := by
  have hv := fromBits_toBits_lt version 7 (by simpa using hver)
  constructor
  · simp [withVersion, h]
  · have hshape : (withVersion version vec).drop 1 = toBits version 7 ++ vec.drop 8 := by
      simp [withVersion, h]
    rw [hshape, List.take_left' (toBits_length _ _), hv]

/-- C6 (amended): the version field is read and ignored.  For a valid craft (as in C1) and
every value `version` of the 7-bit version field, `decodeCraft` on the encoding of the craft
with its version field overwritten by `version` (flag bit 0) returns a craft with the recipe,
ingredients, tiers and, for a weapon, attack speed of the encoded craft, and leaves the cursor
after the padding. -/
theorem decodeCraft_ignores_version (E : Env) (c : Craft) (P S : List Bool) (hash : Option Str)
    (version : Nat) (hver : version < 128)
    (hings : ∀ ing ∈ c.ingreds.toList, ing.id < 2 ^ 12 ∧ E.ingLookup ing.id = some ing)
    (hrec : c.recipe.id < 2 ^ 12 ∧ E.recipeLookup c.recipe.id = some c.recipe)
    (ht1 : c.mat_tiers.1 = 1 ∨ c.mat_tiers.1 = 2 ∨ c.mat_tiers.1 = 3)
    (ht2 : c.mat_tiers.2 = 1 ∨ c.mat_tiers.2 = 2 ∨ c.mat_tiers.2 = 3)
    (hatk : c.atkSpd = some "SLOW" ∨ c.atkSpd = some "NORMAL" ∨ c.atkSpd = some "FAST")
    (hcat : c.statMap.category = some "weapon" ↔
      E.weaponTypes.contains (toLowerCase c.recipe.type) = true)
    (hctor : (initCraftStats E c.recipe c.mat_tiers c.ingreds c.atkSpd c.hash).isOk = true) :
    ∃ vec c', encodeCraft (some c) = .ok vec ∧
      (withVersion version vec).head? = some false ∧
      fromBits (((withVersion version vec).drop 1).take 7) = version ∧
      decodeCraft E (some ⟨P ++ withVersion version vec ++ S, P.length⟩) hash =
        .ok (some c', ⟨P ++ withVersion version vec ++ S, P.length + vec.length⟩) ∧
      c'.recipe = c.recipe ∧ c'.ingreds = c.ingreds ∧ c'.mat_tiers = c.mat_tiers ∧
      (c.statMap.category = some "weapon" → c'.atkSpd = c.atkSpd) := by
  obtain ⟨vec, c', henc, -, -, -, hdec, -, h1, h2, h3, h4, -⟩ :=
    decodeCraft_encoded_version E version c P S hash hings hrec ht1 ht2 hatk hcat hctor
  obtain ⟨hf, hv⟩ := withVersion_fields version hver vec (encodeCraft_take_one c vec henc)
  exact ⟨vec, c', henc, hf, hv, hdec, h1, h3, h2, fun hw => by simp [h4, hw]⟩

/-- Witness of C6 (amended): version 3 on the example helmet craft. -/
theorem decodeCraft_ignores_version_witness :
    ∃ vec c', encodeCraft (some exHelmetCraft) = .ok vec ∧
      (withVersion 3 vec).head? = some false ∧
      fromBits (((withVersion 3 vec).drop 1).take 7) = 3 ∧
      decodeCraft exEnv (some ⟨[] ++ withVersion 3 vec ++ [], 0⟩) none =
        .ok (some c', ⟨[] ++ withVersion 3 vec ++ [], 0 + vec.length⟩) ∧
      c'.recipe = exHelmetCraft.recipe ∧ c'.ingreds = exHelmetCraft.ingreds ∧
      c'.mat_tiers = exHelmetCraft.mat_tiers ∧
      (exHelmetCraft.statMap.category = some "weapon" → c'.atkSpd = exHelmetCraft.atkSpd) :=
  decodeCraft_ignores_version exEnv exHelmetCraft [] [] none 3 (by decide) (by decide) (by decide)
    (by decide) (by decide) (by decide) (by decide) (by decide)

/-- C6 (counterexample): the string "60000000000000000" has flag bit 0 and version field 3,
and `decodeCraft` returns a craft for it. -/
theorem decodeCraft_accepts_version_three :
    ∃ bits c cur, bitsOfB64 exEnv "60000000000000000".toList = .ok bits ∧
      bits.head? = some false ∧ fromBits ((bits.drop 1).take 7) = 3 ∧
      decodeCraft exEnv none (some "60000000000000000".toList) = .ok (some c, cur) := by
  have h : (match bitsOfB64 exEnv "60000000000000000".toList,
      decodeCraft exEnv none (some "60000000000000000".toList) with
    | .ok bits, .ok (some _, _) =>
      decide (bits.head? = some false ∧ fromBits ((bits.drop 1).take 7) = 3)
    | _, _ => false) = true := by decide
  split at h
  · rename_i bits c cur h1 h2
    have hn := of_decide_eq_true h
    exact ⟨bits, c, cur, h1, hn.1, hn.2, h2⟩
  · exact absurd h (by simp)


/-! ## Malformed legacy input -/

/-- C7: the legacy decoder rejects a malformed tag or version.  A string that does not begin
with "CR-", and a string that begins with "CR-" but whose next character is not "1" (or is
missing), make `getCraftFromHash` return `undefined` (`none`): no craft is returned. -/
theorem getCraftFromHash_rejects_malformed (E : Env) (hash : Str) :
    (hash.take 3 ≠ "CR-".toList → getCraftFromHash E hash = none) ∧
    (hash.take 3 = "CR-".toList → (hash.drop 3).take 1 ≠ "1".toList →
      getCraftFromHash E hash = none) := by
  constructor
  · intro h
    simp only [getCraftFromHash, h, if_false]
  · intro h1 h2
    have h2' : substring (hash.drop 3) 0 1 ≠ "1".toList := by
      simpa [substring] using h2
    simp only [getCraftFromHash, h1, if_true, h2', if_false]

/-- Witness of C7: a wrong tag and a wrong version character. -/
theorem getCraftFromHash_rejects_malformed_witness :
    getCraftFromHash exEnv "XY-100+W000000+W0081".toList = none ∧
    getCraftFromHash exEnv "CR-200+W000000+W0081".toList = none :=
  ⟨(getCraftFromHash_rejects_malformed exEnv "XY-100+W000000+W0081".toList).1 (by decide),
   (getCraftFromHash_rejects_malformed exEnv "CR-200+W000000+W0081".toList).2 (by decide)
     (by decide)⟩


/-! ## Effectiveness matrix -/

theorem applyEffectivenessModification_spec (n : Nat) (hn : n < 6) (key : String)
    (hkey : key ∈ posModKeys) (g : Nat → Int) (value : Int) :
    applyEffectivenessModification key (n / 2) (n % 2) (effOfFn g) value =
      .ok (effOfFn (fun c => g c + specModValue n (key, value) c)) := by
  simp only [posModKeys, List.mem_cons, List.mem_singleton, List.not_mem_nil, or_false] at hkey
  interval_cases n <;> rcases hkey with h | h | h | h | h | h <;> subst h <;>
    simp [applyEffectivenessModification, addAtAll, addAt, cellsOf, absDiff, specModValue,
      specTarget, specAdjacent, cellOf, effOfFn, List.range, List.range.loop, List.range',
      List.enum, List.enumFrom, List.foldlM, bind, Except.bind, pure, Except.pure, List.filter]


theorem specModValue_zero (n : Nat) (key : String) (c : Nat) : specModValue n (key, 0) c = 0 := by
  simp [specModValue]

theorem applyPosMods_spec (n : Nat) (hn : n < 6) (mods : List (String × Int))
    (hkeys : ∀ kv ∈ mods, kv.1 ∈ posModKeys) (g : Nat → Int) :
    applyPosMods n mods (effOfFn g) =
      .ok (effOfFn (fun c => g c + (mods.map (fun kv => specModValue n kv c)).sum)) := by
  induction mods generalizing g with
  | nil => simp [applyPosMods]
  | cons kv rest ih =>
    obtain ⟨key, value⟩ := kv
    have hk : key ∈ posModKeys := hkeys (key, value) (List.mem_cons_self _ _)
    have hrest : ∀ kv ∈ rest, kv.1 ∈ posModKeys := fun kv h => hkeys kv (List.mem_cons_of_mem _ h)
    by_cases hv : value = 0
    · subst hv
      simp only [applyPosMods, if_true, ih hrest, List.map_cons, List.sum_cons, specModValue_zero,
        zero_add]
    · simp only [applyPosMods, hv, if_false, applyEffectivenessModification_spec n hn key hk g value,
        ih hrest, List.map_cons, List.sum_cons, add_assoc]

theorem effLoop_spec (pairs : List (Nat × Ingredient))
    (hpairs : ∀ p ∈ pairs, p.1 < 6 ∧ ∀ kv ∈ p.2.posMods, kv.1 ∈ posModKeys) (g : Nat → Int) :
    effLoop pairs (effOfFn g) =
      .ok (effOfFn (fun c => g c +
        (pairs.map (fun p => (p.2.posMods.map (fun kv => specModValue p.1 kv c)).sum)).sum)) := by
  induction pairs generalizing g with
  | nil => simp [effLoop]
  | cons p rest ih =>
    obtain ⟨n, ing⟩ := p
    obtain ⟨hn, hk⟩ := hpairs (n, ing) (List.mem_cons_self _ _)
    have hrest : ∀ p ∈ rest, p.1 < 6 ∧ ∀ kv ∈ p.2.posMods, kv.1 ∈ posModKeys :=
      fun p h => hpairs p (List.mem_cons_of_mem _ h)
    simp only [effLoop, applyPosMods_spec n hn ing.posMods hk g, ih hrest, List.map_cons,
      List.sum_cons, add_assoc]

theorem effLoop_spec_base (pairs : List (Nat × Ingredient))
    (hpairs : ∀ p ∈ pairs, p.1 < 6 ∧ ∀ kv ∈ p.2.posMods, kv.1 ∈ posModKeys) :
    effLoop pairs [[100, 100], [100, 100], [100, 100]] =
      .ok (effOfFn (specEffectiveness pairs)) := by
  have h := effLoop_spec pairs hpairs (fun _ => 100)
  simpa [effOfFn, specEffectiveness] using h

theorem enum_pairs_ok (ings : Six Ingredient)
    (hkeys : ∀ ing ∈ ings.toList, ∀ kv ∈ ing.posMods, kv.1 ∈ posModKeys) :
    ∀ p ∈ ings.toList.enum, p.1 < 6 ∧ ∀ kv ∈ p.2.posMods, kv.1 ∈ posModKeys := by
  simp only [Six.toList, List.mem_cons, List.mem_singleton, forall_eq_or_imp, forall_eq,
    List.not_mem_nil, false_implies, implies_true, and_true] at hkeys
  obtain ⟨h0, h1, h2, h3, h4, h5⟩ := hkeys
  intro p hp
  simp only [Six.toList, List.enum, List.enumFrom, List.mem_cons, List.mem_singleton,
    List.not_mem_nil, or_false] at hp
  rcases hp with h | h | h | h | h | h <;> subst h
  · exact ⟨by simp, h0⟩
  · exact ⟨by simp, h1⟩
  · exact ⟨by simp, h2⟩
  · exact ⟨by simp, h3⟩
  · exact ⟨by simp, h4⟩
  · exact ⟨by simp, h5⟩

theorem specEffectiveness_perm (pairs pairs' : List (Nat × Ingredient)) (hp : pairs'.Perm pairs)
    (c : Nat) : specEffectiveness pairs' c = specEffectiveness pairs c := by
  unfold specEffectiveness
  rw [(hp.map _).sum_eq]


/-- C8: the effectiveness matrix equals its additive definition.  For six ingredients whose
positional modifiers use only the six relation keys, `getIngredientEffectiveness` returns the
matrix whose cell of slot `c` is 100 plus the sum, over the slots and over the pairs each
ingredient declares, of the value when `c` is a target of the relation (targets as in the
spec table); hence the result is the same when the (slot, ingredient) pairs are processed in
another order, and when the modifiers of an ingredient are listed in another order. -/
theorem getIngredientEffectiveness_additive (ings : Six Ingredient)
    (hkeys : ∀ ing ∈ ings.toList, ∀ kv ∈ ing.posMods, kv.1 ∈ posModKeys) :
    (∃ eff, getIngredientEffectiveness ings = .ok eff ∧
      eff = effOfFn (specEffectiveness ings.toList.enum) ∧
      eff.flatten = (List.range 6).map (specEffectiveness ings.toList.enum)) ∧
    (∀ pairs : List (Nat × Ingredient), pairs.Perm ings.toList.enum →
      effLoop pairs [[100, 100], [100, 100], [100, 100]] = getIngredientEffectiveness ings) ∧
    (∀ ings' : Six Ingredient,
      List.Forall₂ (fun a b => a.posMods.Perm b.posMods) ings'.toList ings.toList →
      getIngredientEffectiveness ings' = getIngredientEffectiveness ings) := by
  have hp := enum_pairs_ok ings hkeys
  have hmain : getIngredientEffectiveness ings =
      .ok (effOfFn (specEffectiveness ings.toList.enum)) := effLoop_spec_base _ hp
  refine ⟨⟨_, hmain, rfl, ?_⟩, ?_, ?_⟩
  · simp [effOfFn, List.range, List.range.loop]
  · intro pairs hperm
    have hp' : ∀ p ∈ pairs, p.1 < 6 ∧ ∀ kv ∈ p.2.posMods, kv.1 ∈ posModKeys :=
      fun p h => hp p (hperm.mem_iff.1 h)
    rw [effLoop_spec_base pairs hp', hmain]
    congr 1
    have : specEffectiveness pairs = specEffectiveness ings.toList.enum :=
      funext (specEffectiveness_perm _ _ hperm)
    rw [this]
  · intro ings' hperm
    have hkeys' : ∀ ing ∈ ings'.toList, ∀ kv ∈ ing.posMods, kv.1 ∈ posModKeys := by
      simp only [Six.toList, List.forall₂_cons, List.Forall₂.nil, and_true] at hperm
      obtain ⟨p0, p1, p2, p3, p4, p5⟩ := hperm
      simp only [Six.toList, List.mem_cons, List.mem_singleton, forall_eq_or_imp, forall_eq,
        List.not_mem_nil, false_implies, implies_true, and_true] at hkeys ⊢
      obtain ⟨h0, h1, h2, h3, h4, h5⟩ := hkeys
      exact ⟨fun kv h => h0 kv (p0.mem_iff.1 h), fun kv h => h1 kv (p1.mem_iff.1 h),
        fun kv h => h2 kv (p2.mem_iff.1 h), fun kv h => h3 kv (p3.mem_iff.1 h),
        fun kv h => h4 kv (p4.mem_iff.1 h), fun kv h => h5 kv (p5.mem_iff.1 h)⟩
    have hmain' : getIngredientEffectiveness ings' =
        .ok (effOfFn (specEffectiveness ings'.toList.enum)) :=
      effLoop_spec_base _ (enum_pairs_ok ings' hkeys')
    rw [hmain, hmain']
    congr 2
    funext c
    simp only [Six.toList, List.forall₂_cons, List.Forall₂.nil, and_true] at hperm
    obtain ⟨p0, p1, p2, p3, p4, p5⟩ := hperm
    simp only [specEffectiveness, Six.toList, List.enum, List.enumFrom, List.map_cons,
      List.map_nil, List.sum_cons, List.sum_nil, (p0.map _).sum_eq, (p1.map _).sum_eq,
      (p2.map _).sum_eq, (p3.map _).sum_eq, (p4.map _).sum_eq, (p5.map _).sum_eq]

/-- Witness of C8 on the example ingredients. -/
theorem getIngredientEffectiveness_additive_witness :
    ∃ eff, getIngredientEffectiveness exPosIngs = .ok eff ∧
      eff = effOfFn (specEffectiveness exPosIngs.toList.enum) ∧
      eff.flatten = (List.range 6).map (specEffectiveness exPosIngs.toList.enum) :=
  (getIngredientEffectiveness_additive exPosIngs (by decide)).1

/-- C9: touching and notTouching partition the grid.  From the origin cell of slot `n`, the
key "touching" adds the value exactly to the orthogonally adjacent cells and "notTouching"
exactly to the cells that are neither the origin nor adjacent; the origin is not adjacent to
itself, every other cell is in exactly one of the two target sets, and the two sets have five
cells together.  A slot-0 ingredient declaring touching +20, with no other modifier, gives the
flattened matrix [100, 120, 120, 100, 100, 100]. -/
theorem touching_notTouching_partition (n : Nat) (hn : n < 6) (g : Nat → Int) (value : Int) :
    applyEffectivenessModification "touching" (n / 2) (n % 2) (effOfFn g) value =
      .ok (effOfFn (fun c =>
        g c + if specAdjacent (cellOf n) (cellOf c) then value else 0)) ∧
    applyEffectivenessModification "notTouching" (n / 2) (n % 2) (effOfFn g) value =
      .ok (effOfFn (fun c =>
        g c + if c ≠ n ∧ specAdjacent (cellOf n) (cellOf c) = false then value else 0)) ∧
    specAdjacent (cellOf n) (cellOf n) = false ∧
    (∀ c, c < 6 → c ≠ n →
      (specAdjacent (cellOf n) (cellOf c) = true ∨
        (c ≠ n ∧ specAdjacent (cellOf n) (cellOf c) = false)) ∧
      ¬(specAdjacent (cellOf n) (cellOf c) = true ∧
        (c ≠ n ∧ specAdjacent (cellOf n) (cellOf c) = false))) ∧
    ((List.range 6).filter (fun c => specAdjacent (cellOf n) (cellOf c))).length +
      ((List.range 6).filter (fun c =>
        decide (c ≠ n) && !specAdjacent (cellOf n) (cellOf c))).length = 5 ∧
    (∀ ings : Six Ingredient, ings.s0.posMods = [("touching", 20)] → ings.s1.posMods = [] →
      ings.s2.posMods = [] → ings.s3.posMods = [] → ings.s4.posMods = [] →
      ings.s5.posMods = [] →
      ∃ eff, getIngredientEffectiveness ings = .ok eff ∧
        eff.flatten = [100, 120, 120, 100, 100, 100]) := by
  refine ⟨?_, ?_, ?_, ?_, ?_, ?_⟩
  · rw [applyEffectivenessModification_spec n hn "touching" (by decide) g value]
    simp [specModValue, specTarget]
  · rw [applyEffectivenessModification_spec n hn "notTouching" (by decide) g value]
    congr 1
    simp only [effOfFn, specModValue, specTarget]
    interval_cases n <;> simp [specAdjacent, cellOf]
  · interval_cases n <;> decide
  · intro c hc hcn
    by_cases h : specAdjacent (cellOf n) (cellOf c) = true
    · exact ⟨Or.inl h, fun hh => by simp [h] at hh⟩
    · have h' : specAdjacent (cellOf n) (cellOf c) = false := by simpa using h
      exact ⟨Or.inr ⟨hcn, h'⟩, fun hh => h hh.1⟩
  · interval_cases n <;> decide
  · intro ings h0 h1 h2 h3 h4 h5
    refine ⟨[[100, 120], [120, 100], [100, 100]], ?_, rfl⟩
    simp [getIngredientEffectiveness, Six.toList, List.enum, List.enumFrom, effLoop, h0, h1, h2,
      h3, h4, h5, applyPosMods, applyEffectivenessModification, addAtAll, addAt, cellsOf,
      absDiff, List.range, List.range.loop, List.foldlM, bind, Except.bind, pure, Except.pure,
      List.filter]


/-- Witness of C9: the origin in slot 0 and the value 20 on the baseline matrix. -/
theorem touching_notTouching_partition_witness :
    applyEffectivenessModification "touching" (0 / 2) (0 % 2) (effOfFn (fun _ => 100)) 20 =
      .ok (effOfFn (fun c =>
        100 + if specAdjacent (cellOf 0) (cellOf c) then 20 else 0)) :=
  (touching_notTouching_partition 0 (by decide) (fun _ => 100) 20).1

/-! ## Material multiplier -/

/-- The material multiplier for tiers in {1,2,3}: the weighted average in binary64
arithmetic. -/
theorem getMaterialMultiplier_eq (r : Recipe) (t0 t1 : Int)
    (ht0 : t0 = 1 ∨ t0 = 2 ∨ t0 = 3) (ht1 : t1 = 1 ∨ t1 = 2 ∨ t1 = 3)
    (ha : 0 < r.amounts.1 + r.amounts.2) :
    getMaterialMultiplier r (t0, t1) =
      some (div64 (add64 (mul64 (specTierMult t0) r.amounts.1)
        (mul64 (specTierMult t1) r.amounts.2)) (add64 r.amounts.1 r.amounts.2)) := by
  have hne : r.amounts.1 + r.amounts.2 ≠ 0 := by omega
  rcases ht0 with h | h | h <;> rcases ht1 with h' | h' | h' <;> subst h <;> subst h' <;>
    simp [getMaterialMultiplier, tierToMult, specTierMult, hne]

/-- C10 (counterexample): tiers (1, 3) with the equal amounts 7 and 7.  The multiplier that
`getMaterialMultiplier` returns is 1.1999999999999997 (5404319552844594 / 2^52), which is
neither the fraction 6/5 nor the binary64 number 1.2, and the range (100, 200) becomes
(119, 239), not (120, 240). -/
theorem getMaterialMultiplier_equal_amounts_below :
    getMaterialMultiplier { exRecipe 0 "HELMET" with amounts := (7, 7) } (1, 3) =
      some (5404319552844594 / 4503599627370496) ∧
    getMaterialMultiplier { exRecipe 0 "HELMET" with amounts := (7, 7) } (1, 3) ≠ some 1.2 ∧
    getMaterialMultiplier { exRecipe 0 "HELMET" with amounts := (7, 7) } (1, 3) ≠
      some (fl64 1.2) ∧
    ({ exRecipe 0 "HELMET" with amounts := (7, 7) } : Recipe).healthOrDamage = (100, 200) ∧
    healthOrDamageBounds { exRecipe 0 "HELMET" with amounts := (7, 7) } (1, 3) =
      (some 119, some 239) := by
  refine ⟨by decide!, by decide!, by decide!, rfl, by decide!⟩

/-- C10 (amended): the material multiplier is the amount-weighted average of the tier
multipliers, computed in binary64 arithmetic.  For tiers in {1,2,3} and amounts with a
positive sum, `getMaterialMultiplier` returns `(m(t0) a0 + m(t1) a1) / (a0 + a1)` with
`m(1) = 1`, `m(2) = 1.25` and `m(3)` the binary64 number 1.4, where each product, the sum and
the quotient are rounded to binary64, and both health-or-damage bounds are the floor of the
rounded product of the recipe bound and the multiplier; for tiers (1, 3) with the amounts 1
and 1 the multiplier is the binary64 number 1.2 and the range (100, 200) becomes
(120, 240). -/
theorem getMaterialMultiplier_weighted_average (r : Recipe) (t0 t1 : Int)
    (ht0 : t0 = 1 ∨ t0 = 2 ∨ t0 = 3) (ht1 : t1 = 1 ∨ t1 = 2 ∨ t1 = 3)
    (ha : 0 < r.amounts.1 + r.amounts.2) :
    (specTierMult 1 = 1 ∧ specTierMult 2 = 1.25 ∧ specTierMult 3 = fl64 1.4) ∧
    getMaterialMultiplier r (t0, t1) =
      some (div64 (add64 (mul64 (specTierMult t0) r.amounts.1)
        (mul64 (specTierMult t1) r.amounts.2)) (add64 r.amounts.1 r.amounts.2)) ∧
    healthOrDamageBounds r (t0, t1) =
      (some ⌊mul64 (r.healthOrDamage.1 : ℚ)
          (div64 (add64 (mul64 (specTierMult t0) r.amounts.1)
            (mul64 (specTierMult t1) r.amounts.2)) (add64 r.amounts.1 r.amounts.2))⌋,
        some ⌊mul64 (r.healthOrDamage.2 : ℚ)
          (div64 (add64 (mul64 (specTierMult t0) r.amounts.1)
            (mul64 (specTierMult t1) r.amounts.2)) (add64 r.amounts.1 r.amounts.2))⌋) ∧
    (t0 = 1 → t1 = 3 → r.amounts = (1, 1) →
      getMaterialMultiplier r (t0, t1) = some (fl64 1.2) ∧
      (r.healthOrDamage = (100, 200) → healthOrDamageBounds r (t0, t1) = (some 120, some 240))) := by
  have hmm := getMaterialMultiplier_eq r t0 t1 ht0 ht1 ha
  refine ⟨⟨by decide!, by decide!, by decide!⟩, hmm, ?_, ?_⟩
  · simp only [healthOrDamageBounds, hmm, jsMul, jsFloor, Option.map]
  · intro h0 h1 heq
    subst h0 h1
    have e1 : r.amounts.1 = 1 := congrArg Prod.fst heq
    have e2 : r.amounts.2 = 1 := congrArg Prod.snd heq
    have h12 : getMaterialMultiplier r (1, 3) = some (fl64 1.2) := by
      rw [hmm, e1, e2]
      decide!
    refine ⟨h12, ?_⟩
    intro hr
    have b1 : r.healthOrDamage.1 = 100 := congrArg Prod.fst hr
    have b2 : r.healthOrDamage.2 = 200 := congrArg Prod.snd hr
    simp only [healthOrDamageBounds, h12, jsMul, jsFloor, Option.map, b1, b2]
    decide!

/-- Witness of C10 on the example helmet recipe (amounts 1 and 1, range 100-200). -/
theorem getMaterialMultiplier_weighted_average_witness :
    getMaterialMultiplier (exRecipe 0 "HELMET") (1, 3) = some (fl64 1.2) ∧
    healthOrDamageBounds (exRecipe 0 "HELMET") (1, 3) = (some 120, some 240) :=
  ⟨((getMaterialMultiplier_weighted_average (exRecipe 0 "HELMET") 1 3 (by decide) (by decide)
      (by decide)).2.2.2 rfl rfl rfl).1,
   ((getMaterialMultiplier_weighted_average (exRecipe 0 "HELMET") 1 3 (by decide) (by decide)
      (by decide)).2.2.2 rfl rfl rfl).2 rfl⟩

/-! ## Attack speed, slots and charges -/

/-- C11: attack speed ratios.  `getAttackSpeedRatio` returns exactly 1 for NORMAL (that branch
assigns the literal 1 and does not use 2.05), 2.05 / 1.5 (= 41/30) for SLOW and
2.05 / 2.5 = 0.82 for FAST.  Numbers are exact rationals here.  As binary64 numbers
(`attackSpeedRatio64`) the three values are 1, the quotient of the numbers 2.05 and 1.5, and
the quotient of the numbers 2.05 and 2.5, which is the number 0.82. -/
theorem getAttackSpeedRatio_values :
    getAttackSpeedRatio (some "NORMAL") = 1 ∧
    getAttackSpeedRatio (some "SLOW") = 2.05 / 1.5 ∧
    getAttackSpeedRatio (some "FAST") = 2.05 / 2.5 ∧
    getAttackSpeedRatio (some "FAST") = 0.82 ∧
    getAttackSpeedRatio (some "SLOW") = 41 / 30 ∧
    attackSpeedRatio64 (some "NORMAL") = 1 ∧
    attackSpeedRatio64 (some "SLOW") = div64 (fl64 2.05) (fl64 1.5) ∧
    attackSpeedRatio64 (some "FAST") = div64 (fl64 2.05) (fl64 2.5) ∧
    attackSpeedRatio64 (some "FAST") = fl64 0.82 := by
  have hS : getAttackSpeedRatio (some "SLOW") = 2.05 / 1.5 := by
    simp [getAttackSpeedRatio]
  have hN : getAttackSpeedRatio (some "NORMAL") = 1 := by
    simp [getAttackSpeedRatio]
  have hF : getAttackSpeedRatio (some "FAST") = 2.05 / 2.5 := by
    simp [getAttackSpeedRatio]
  refine ⟨hN, hS, hF, ?_, ?_, by decide!, by decide!, by decide!, by decide!⟩
  · rw [hF]; norm_num
  · rw [hS]; norm_num

/-- C14: slot and charge count by level.  `getPowderSlotCount` returns 0 when the type is
neither armor nor weapon and otherwise 1, 2 or 3 as the recipe's low level is below 30, below
70 or not; `getConsumableCharges` returns 0 when the type is not a consumable and otherwise
the same value by the same thresholds. -/
theorem slot_and_charge_count_by_level (E : Env) (recipe : Recipe) (statMap : StatMap) :
    getPowderSlotCount E recipe statMap =
      (if E.isArmor statMap.type = false ∧ E.isWeapon statMap.type = false then 0
       else if recipe.lvl.1 < 30 then 1 else if recipe.lvl.1 < 70 then 2 else 3) ∧
    getConsumableCharges E recipe statMap =
      (if E.isConsumable statMap.type = false then 0
       else if recipe.lvl.1 < 30 then 1 else if recipe.lvl.1 < 70 then 2 else 3) := by
  constructor
  · unfold getPowderSlotCount countByLevel
    cases E.isArmor statMap.type <;> cases E.isWeapon statMap.type <;> simp
  · unfold getConsumableCharges countByLevel
    cases E.isConsumable statMap.type <;> simp

/-! ## Clamping and `setHash` -/

/-- C12: clamp.  In the map returned by `clampAttributes` a durability bound that was below 1
is 1 and any other is its floor (a `NaN` bound stays `NaN`), so every durability bound that is
a number is an integer at least 1; when all six ingredients are the sentinel the duration
bounds are unchanged, and otherwise a duration bound below 10 is 10 and a bound of at least 10
is unchanged. -/
theorem clampAttributes_bounds (ingreds : Six Ingredient) (statMap : StatMap) :
    (clampAttributes ingreds statMap).durability.1 =
      statMap.durability.1.map (fun v : Int => if v < (1 : Int) then (1 : Int) else Int.floor (v : ℚ)) ∧
    (clampAttributes ingreds statMap).durability.2 =
      statMap.durability.2.map (fun v : Int => if v < (1 : Int) then (1 : Int) else Int.floor (v : ℚ)) ∧
    (∀ v, (clampAttributes ingreds statMap).durability.1 = some v → 1 ≤ v) ∧
    (∀ v, (clampAttributes ingreds statMap).durability.2 = some v → 1 ≤ v) ∧
    (isAllNone ingreds = true →
      (clampAttributes ingreds statMap).duration = statMap.duration) ∧
    (isAllNone ingreds = false →
      (clampAttributes ingreds statMap).duration.1 =
        statMap.duration.1.map (fun v => if v < 10 then 10 else v) ∧
      (clampAttributes ingreds statMap).duration.2 =
        statMap.duration.2.map (fun v => if v < 10 then 10 else v)) := by
  have hd : ∀ x : JSInt, clampDurability x =
      x.map (fun v : Int => if v < (1 : Int) then (1 : Int) else Int.floor (v : ℚ)) := by
    intro x
    cases x with
    | none => rfl
    | some v => by_cases hv : v < 1 <;> simp [clampDurability, hv]
  have hge : ∀ (x : JSInt) (v : Int), clampDurability x = some v → 1 ≤ v := by
    intro x v hx
    cases x with
    | none => simp [clampDurability] at hx
    | some w =>
      by_cases hw : w < 1
      · simp [clampDurability, hw] at hx; omega
      · simp [clampDurability, hw] at hx; omega
  refine ⟨hd _, hd _, hge _, hge _, ?_, ?_⟩
  · intro hall
    have : ∀ x : JSInt, clampDuration true x = x := by
      intro x; cases x <;> simp [clampDuration]
    simp [clampAttributes, hall, this]
  · intro hall
    have : ∀ x : JSInt, clampDuration false x = x.map (fun v => if v < 10 then 10 else v) := by
      intro x
      cases x with
      | none => rfl
      | some v => by_cases hv : v < 10 <;> simp [clampDuration, hv]
    simp [clampAttributes, hall, this]

/-- Witness of C12: the example helmet craft, whose ingredients are not all the sentinel. -/
theorem clampAttributes_bounds_witness :
    (clampAttributes exHelmetCraft.ingreds exHelmetCraft.statMap).duration.1 =
        exHelmetCraft.statMap.duration.1.map (fun v => if v < 10 then 10 else v) ∧
      (clampAttributes exHelmetCraft.ingreds exHelmetCraft.statMap).duration.2 =
        exHelmetCraft.statMap.duration.2.map (fun v => if v < 10 then 10 else v) :=
  (clampAttributes_bounds exHelmetCraft.ingreds exHelmetCraft.statMap).2.2.2.2.2 (by decide)

/-- C19: `setHash` replaces only the display hash.  After `setHash(h)` the craft's hash and
the map's `name`, `displayName` and `hash` entries are "CR-" followed by `h`; the recipe,
material tiers, ingredients and attack speed are unchanged, and the map is unchanged outside
these three entries (the two maps are equal once the three entries are overwritten alike). -/
theorem setHash_replaces_only_hash (c : Craft) (h : Str) :
    (c.setHash h).hash = "CR-".toList ++ h ∧
    (c.setHash h).statMap.name = "CR-".toList ++ h ∧
    (c.setHash h).statMap.displayName = "CR-".toList ++ h ∧
    (c.setHash h).statMap.hash = some ("CR-".toList ++ h) ∧
    (c.setHash h).recipe = c.recipe ∧
    (c.setHash h).mat_tiers = c.mat_tiers ∧
    (c.setHash h).ingreds = c.ingreds ∧
    (c.setHash h).atkSpd = c.atkSpd ∧
    (∀ n d s, { (c.setHash h).statMap with name := n, displayName := d, hash := s } =
      { c.statMap with name := n, displayName := d, hash := s }) ∧
    (c.setHash h).statMap.minRolls = c.statMap.minRolls ∧
    (c.setHash h).statMap.maxRolls = c.statMap.maxRolls ∧
    (c.setHash h).statMap.duration = c.statMap.duration ∧
    (c.setHash h).statMap.durability = c.statMap.durability ∧
    (c.setHash h).statMap.charges = c.statMap.charges ∧
    (c.setHash h).statMap.category = c.statMap.category := by
  refine ⟨rfl, rfl, rfl, rfl, rfl, rfl, rfl, rfl, fun _ _ _ => rfl, rfl, rfl, rfl, rfl, rfl, rfl⟩

/-! ## Powder defense -/

theorem mapGet_mapSet {α : Type} (m : List (String × α)) (k k' : String) (v : α) :
    mapGet (mapSet m k v) k' = if k = k' then some v else mapGet m k' := by
  induction m with
  | nil => simp [mapSet, mapGet]
  | cons p rest ih =>
    obtain ⟨a, b⟩ := p
    simp only [mapSet]
    split_ifs with h1 h2 h2
    · simp [mapGet, h1, h2]
    · subst h1
      simp [mapGet, h2]
    · subst h2
      simp [mapGet, h1, ih]
    · by_cases h3 : a = k'
      · simp [mapGet, h3]
      · simp [mapGet, h3, ih, h2]

theorem mapHas_mapSet {α : Type} (m : List (String × α)) (k k' : String) (v : α) :
    mapHas (mapSet m k v) k' = (decide (k = k') || mapHas m k') := by
  unfold mapHas
  rw [mapGet_mapSet]
  by_cases hk : k = k' <;> simp [hk]

theorem elem_index (k : Nat) (hk : k < 5) :
    skp_elements.getD ((jsIndexOf skp_elements (skp_elements.getD k "") + 4) % 5).toNat "" =
      skp_elements.getD ((k + 4) % 5) "" := by
  interval_cases k <;> decide

/-- C16: powder defense.  For a powder whose name starts with the element of index `k` in the
cycle e, t, w, f, a, `applyPowderIngredient` returns a map in which the defense of element `k`
has gained the powder's bonus, the defense of element `(k + 4) mod 5`, which is another
element, has lost the powder's penalty, no other defense entry has changed and no other entry
of the map has changed; an earth powder penalises air and a thunder powder earth. -/
theorem applyPowderIngredient_defense (E : Env) (ingred : Ingredient) (statMap : StatMap)
    (name : String) (powder : Powder) (k : Nat) (hk : k < 5)
    (hname : E.powderNames ingred.pid = some name)
    (hstats : E.powderStats ingred.pid = some powder)
    (helem : charAt0 name = skp_elements.getD k "") :
    ∃ r, applyPowderIngredient E ingred statMap = .ok r ∧
      (k + 4) % 5 ≠ k ∧ (k + 4) % 5 < 5 ∧
      skp_elements.getD ((k + 4) % 5) "" ≠ skp_elements.getD k "" ∧
      (mapGet r.defs (skp_elements.getD k "")).getD 0 =
        (mapGet statMap.defs (skp_elements.getD k "")).getD 0 + powder.defPlus ∧
      (mapGet r.defs (skp_elements.getD ((k + 4) % 5) "")).getD 0 =
        (mapGet statMap.defs (skp_elements.getD ((k + 4) % 5) "")).getD 0 - powder.defMinus ∧
      (∀ x, x ≠ skp_elements.getD k "" → x ≠ skp_elements.getD ((k + 4) % 5) "" →
        mapGet r.defs x = mapGet statMap.defs x) ∧
      (∀ d, { r with defs := d } = { statMap with defs := d }) ∧
      (k = 0 → skp_elements.getD ((k + 4) % 5) "" = "a") ∧
      (k = 1 → skp_elements.getD ((k + 4) % 5) "" = "e") := by
  have hne : skp_elements.getD ((k + 4) % 5) "" ≠ skp_elements.getD k "" := by
    interval_cases k <;> decide
  have hr : ∃ r, applyPowderIngredient E ingred statMap = .ok r ∧
      r.defs = mapSet (mapSet statMap.defs (charAt0 name)
          ((mapGet statMap.defs (charAt0 name)).getD 0 + powder.defPlus))
        (skp_elements.getD ((jsIndexOf skp_elements (charAt0 name) + 4) % 5).toNat "")
        ((mapGet (mapSet statMap.defs (charAt0 name)
            ((mapGet statMap.defs (charAt0 name)).getD 0 + powder.defPlus))
          (skp_elements.getD ((jsIndexOf skp_elements (charAt0 name) + 4) % 5).toNat "")).getD 0 -
          powder.defMinus) ∧
      ∀ d, { r with defs := d } = { statMap with defs := d } := by
    simp only [applyPowderIngredient, hname, hstats]
    exact ⟨_, rfl, rfl, fun _ => rfl⟩
  obtain ⟨r, hr, hdefs, hframe⟩ := hr
  refine ⟨r, hr, by omega, by omega, hne, ?_, ?_, ?_, hframe, ?_, ?_⟩
  · rw [hdefs]
    simp only [helem, elem_index k hk, mapGet_mapSet, if_neg hne, if_true, Option.getD_some]
  · rw [hdefs]
    simp only [helem, elem_index k hk, mapGet_mapSet, if_neg hne.symm, if_true, Option.getD_some]
  · intro x hx1 hx2
    rw [hdefs]
    simp only [helem, elem_index k hk, mapGet_mapSet, if_neg (Ne.symm hx1), if_neg (Ne.symm hx2)]
  · intro h0; subst h0; decide
  · intro h1; subst h1; decide

/-- Witness of C16: the earth powder of the example environment on the default map. -/
theorem applyPowderIngredient_defense_witness :
    ∃ r, applyPowderIngredient exPowderEnv exPowderIng (initStatMap (exRecipe 0 "HELMET") []) =
        .ok r ∧
      (0 + 4) % 5 ≠ 0 ∧ (0 + 4) % 5 < 5 ∧
      skp_elements.getD ((0 + 4) % 5) "" ≠ skp_elements.getD 0 "" ∧
      (mapGet r.defs (skp_elements.getD 0 "")).getD 0 =
        (mapGet (initStatMap (exRecipe 0 "HELMET") []).defs (skp_elements.getD 0 "")).getD 0 +
          (⟨3, 1⟩ : Powder).defPlus ∧
      (mapGet r.defs (skp_elements.getD ((0 + 4) % 5) "")).getD 0 =
        (mapGet (initStatMap (exRecipe 0 "HELMET") []).defs
          (skp_elements.getD ((0 + 4) % 5) "")).getD 0 - (⟨3, 1⟩ : Powder).defMinus ∧
      (∀ x, x ≠ skp_elements.getD 0 "" → x ≠ skp_elements.getD ((0 + 4) % 5) "" →
        mapGet r.defs x = mapGet (initStatMap (exRecipe 0 "HELMET") []).defs x) ∧
      (∀ d, { r with defs := d } = { initStatMap (exRecipe 0 "HELMET") [] with defs := d }) ∧
      (0 = 0 → skp_elements.getD ((0 + 4) % 5) "" = "a") ∧
      (0 = 1 → skp_elements.getD ((0 + 4) % 5) "" = "e") :=
  applyPowderIngredient_defense exPowderEnv exPowderIng (initStatMap (exRecipe 0 "HELMET") [])
    "e1" ⟨3, 1⟩ 0 (by decide) (by decide) (by decide) (by decide)

/-! ## The steps of the derivation -/

theorem foldl_preserve {α β γ : Type} (f : β → α → β) (P : β → γ)
    (hf : ∀ m x, P (f m x) = P m) (l : List α) (m : β) : P (l.foldl f m) = P m := by
  induction l generalizing m with
  | nil => rfl
  | cons x xs ih => simp only [List.foldl, ih, hf]

theorem foldlM_preserve {α β γ : Type} (f : β → α → Except Err β) (P : β → γ)
    (hf : ∀ m x m', f m x = .ok m' → P m' = P m) (l : List α) (m m' : β)
    (h : l.foldlM f m = .ok m') : P m' = P m := by
  induction l generalizing m with
  | nil =>
    simp only [List.foldlM, pure, Except.pure] at h
    rw [← Except.ok.inj h]
  | cons x xs ih =>
    simp only [List.foldlM, bind, Except.bind] at h
    cases hx : f m x with
    | error e => rw [hx] at h; cases h
    | ok b =>
      rw [hx] at h
      rw [ih b h, hf m x b hx]

/-- The entries of the map that only the powder step writes are put aside. -/
theorem applyPowderIngredients_frame (E : Env) (ings : Six Ingredient) (m m' : StatMap)
    (h : applyPowderIngredients E ings m = .ok m') (d : List (String × Int)) :
    { m' with defs := d } = { m with defs := d } := by
  refine foldlM_preserve _ (fun x : StatMap => { x with defs := d }) ?_ _ m m' h
  intro m x m1 hx
  cases hp : x.isPowder
  · simp only [hp, Bool.not_false, if_true] at hx
    rw [← Except.ok.inj hx]
  · simp only [hp, Bool.not_true, Bool.false_eq_true, if_false, applyPowderIngredient] at hx
    cases hn : E.powderNames x.pid <;> cases hs : E.powderStats x.pid <;> rw [hn, hs] at hx <;>
      first
      | (have hx2 := Except.ok.inj hx; subst hx2; rfl)
      | cases hx

theorem initCraftStats_inv (E : Env) (r : Recipe) (t : Int × Int) (ings : Six Ingredient)
    (a : Option String) (h : Str) (sm : StatMap) (hsm : initCraftStats E r t ings a h = .ok sm) :
    ∃ (m1 : StatMap) (eff : Eff),
      (∀ d, { m1 with defs := d } = { (baseCraftStats E r t ings a h) with defs := d }) ∧
      getIngredientEffectiveness ings = .ok eff ∧
      sm = fillEmptyRolledIDs E (setSkillpointsAndRequirements E (clampAttributes ings
        (ings.toList.enum.foldl
          (fun m ni => applyIngredient E ni.2 (effMultOf eff.flatten ni.1)
            (toLowerCase r.type) m)
          { m1 with ingredEffectiveness := some eff.flatten }))) := by
  simp only [initCraftStats] at hsm
  cases hX : (if (baseCraftStats E r t ings a h).category = some "armor" ∨
      (baseCraftStats E r t ings a h).category = some "accessory" then
      applyPowderIngredients E ings (baseCraftStats E r t ings a h)
      else Except.ok (baseCraftStats E r t ings a h)) with
  | error e => rw [hX] at hsm; cases hsm
  | ok m1 =>
    rw [hX] at hsm
    have hframe : ∀ d, { m1 with defs := d } =
        { (baseCraftStats E r t ings a h) with defs := d } := by
      intro d
      split_ifs at hX with hc
      · exact applyPowderIngredients_frame E ings _ _ hX d
      · rw [← Except.ok.inj hX]
    simp only [applyAllIngredients] at hsm
    cases he : getIngredientEffectiveness ings with
    | error e => rw [he] at hsm; cases hsm
    | ok eff =>
      rw [he] at hsm
      exact ⟨m1, eff, hframe, rfl, (Except.ok.inj hsm).symm⟩

/-! ## Roll totals -/

theorem addRoll_eq (m : List (String × Int)) (key : String) (r : Int) :
    addRoll m key r = mapSet m key (rollTotal m key + r) := by
  unfold addRoll rollTotal
  cases h : mapGet m key with
  | none => simp
  | some old =>
    by_cases h0 : old = 0
    · subst h0; simp
    · simp [h0]

theorem rollTotal_addRoll (m : List (String × Int)) (key k : String) (r : Int) :
    rollTotal (addRoll m key r) k = rollTotal m k + if key = k then r else 0 := by
  rw [addRoll_eq]
  unfold rollTotal
  rw [mapGet_mapSet]
  by_cases h : key = k
  · subst h; simp
  · simp [h]

theorem mapHas_addRoll (m : List (String × Int)) (key k : String) (r : Int) :
    mapHas (addRoll m key r) k = (decide (key = k) || mapHas m k) := by
  rw [addRoll_eq, mapHas_mapSet]

/-- What `applyMaxMinRolls` does to the roll totals, and what it leaves alone. -/
theorem applyMaxMinRolls_spec (ing : Ingredient) (e : ℚ) (m : StatMap) :
    (∀ key, rollTotal (applyMaxMinRolls ing e m).minRolls key =
      rollTotal m.minRolls key + (ing.rolls.map (specRollMin e key)).sum) ∧
    (∀ key, rollTotal (applyMaxMinRolls ing e m).maxRolls key =
      rollTotal m.maxRolls key + (ing.rolls.map (specRollMax e key)).sum) ∧
    (sameRollKeys m → sameRollKeys (applyMaxMinRolls ing e m)) ∧
    (∀ x y, { applyMaxMinRolls ing e m with minRolls := x, maxRolls := y } =
      { m with minRolls := x, maxRolls := y }) := by
  unfold applyMaxMinRolls
  generalize ing.rolls = rolls
  induction rolls generalizing m with
  | nil => simp
  | cons roll rest ih =>
    obtain ⟨k0, lo, hi⟩ := roll
    simp only [List.foldl]
    by_cases hz : hi = 0
    · subst hz
      obtain ⟨h1, h2, h3, h4⟩ := ih m
      refine ⟨?_, ?_, ?_, ?_⟩
      · intro key; simp [h1 key, specRollMin]
      · intro key; simp [h2 key, specRollMax]
      · simpa using h3
      · simpa using h4
    · simp only [hz, if_false]
      obtain ⟨h1, h2, h3, h4⟩ := ih
        { m with
          minRolls := addRoll m.minRolls k0
            (min ⌊mul64 (lo : ℚ) (fl64 e)⌋ ⌊mul64 (hi : ℚ) (fl64 e)⌋)
          maxRolls := addRoll m.maxRolls k0
            (max ⌊mul64 (lo : ℚ) (fl64 e)⌋ ⌊mul64 (hi : ℚ) (fl64 e)⌋) }
      refine ⟨?_, ?_, ?_, ?_⟩
      · intro key
        rw [h1 key]
        simp only [rollTotal_addRoll, List.map_cons, List.sum_cons, specRollMin, hz]
        by_cases hk : k0 = key <;> simp [hk, hz, add_assoc]
      · intro key
        rw [h2 key]
        simp only [rollTotal_addRoll, List.map_cons, List.sum_cons, specRollMax, hz]
        by_cases hk : k0 = key <;> simp [hk, hz, add_assoc]
      · intro hs
        apply h3
        intro k
        simp only [mapHas_addRoll, hs k]
      · intro x y
        rw [h4 x y]

theorem applyIngredientItemIDs_keeps (E : Env) (ing : Ingredient) (ct : String) (e : ℚ)
    (m : StatMap) :
    (applyIngredientItemIDs E ing ct e m).minRolls = m.minRolls ∧
    (applyIngredientItemIDs E ing ct e m).maxRolls = m.maxRolls ∧
    (applyIngredientItemIDs E ing ct e m).dams = m.dams ∧
    (applyIngredientItemIDs E ing ct e m).ingredPowders = m.ingredPowders := by
  have h := foldl_preserve
    (fun (m : StatMap) (kv : ItemKey × Int) =>
      match kv.1.reqIdx with
      | some idx =>
        if !E.isConsumable ct then
          let effMult : ℚ := if !ing.isPowder then fl64 e else 1
          let updated : Int :=
            Int.floor
            (add64 ((m.skillReqs.getD idx 0 : Int) : ℚ) (mul64 (kv.2 : ℚ) effMult) + 1 / 2)
          { m with skillReqs := m.skillReqs.set idx updated }
        else { m with durability := (jsAdd m.durability.1 kv.2, jsAdd m.durability.2 kv.2) }
      | none => { m with durability := (jsAdd m.durability.1 kv.2, jsAdd m.durability.2 kv.2) })
    (fun x : StatMap => (x.minRolls, x.maxRolls, x.dams, x.ingredPowders))
    (by
      intro m kv
      dsimp only
      split
      · split <;> rfl
      · rfl)
    ing.itemIDs m
  simp only [Prod.mk.injEq] at h
  exact h

theorem applyIngredientConsumableIDs_keeps (ing : Ingredient) (m : StatMap) :
    (applyIngredientConsumableIDs ing m).minRolls = m.minRolls ∧
    (applyIngredientConsumableIDs ing m).maxRolls = m.maxRolls ∧
    (applyIngredientConsumableIDs ing m).dams = m.dams ∧
    (applyIngredientConsumableIDs ing m).ingredPowders = m.ingredPowders := by
  have h := foldl_preserve
    (fun (m : StatMap) (kv : ConsKey × Int) =>
      match kv.1 with
      | .dura => { m with duration := (jsAdd m.duration.1 kv.2, jsAdd m.duration.2 kv.2) }
      | .charges => { m with charges := m.charges + kv.2 })
    (fun x : StatMap => (x.minRolls, x.maxRolls, x.dams, x.ingredPowders))
    (by
      intro m kv
      dsimp only
      split <;> rfl)
    ing.consumableIDs m
  simp only [Prod.mk.injEq] at h
  exact h

/-- What one ingredient does to the roll totals; it leaves the damage entries alone. -/
theorem applyIngredient_spec (E : Env) (ing : Ingredient) (e : ℚ) (ct : String) (m : StatMap) :
    (∀ key, rollTotal (applyIngredient E ing e ct m).minRolls key =
      rollTotal m.minRolls key + (ing.rolls.map (specRollMin e key)).sum) ∧
    (∀ key, rollTotal (applyIngredient E ing e ct m).maxRolls key =
      rollTotal m.maxRolls key + (ing.rolls.map (specRollMax e key)).sum) ∧
    (sameRollKeys m → sameRollKeys (applyIngredient E ing e ct m)) ∧
    (applyIngredient E ing e ct m).dams = m.dams ∧
    (applyIngredient E ing e ct m).ingredPowders = m.ingredPowders := by
  obtain ⟨a1, a2, a3, a4⟩ := applyIngredientItemIDs_keeps E ing ct e m
  obtain ⟨b1, b2, b3, b4⟩ :=
    applyIngredientConsumableIDs_keeps ing (applyIngredientItemIDs E ing ct e m)
  obtain ⟨c1, c2, c3, c4⟩ := applyMaxMinRolls_spec ing e
    (applyIngredientConsumableIDs ing (applyIngredientItemIDs E ing ct e m))
  unfold applyIngredient
  refine ⟨?_, ?_, ?_, ?_, ?_⟩
  · intro key; rw [c1 key, b1, a1]
  · intro key; rw [c2 key, b2, a2]
  · intro hs
    apply c3
    intro k
    rw [b1, b2, a1, a2]
    exact hs k
  · have := congrArg StatMap.dams (c4 [] [])
    simp only at this
    rw [this, b3, a3]
  · have := congrArg StatMap.ingredPowders (c4 [] [])
    simp only at this
    rw [this, b4, a4]

/-- The totals after a list of (slot, ingredient) pairs, each applied with the multiplier of
its slot. -/
theorem foldl_applyIngredient_spec (E : Env) (ct : String) (eff_flat : List Int)
    (pairs : List (Nat × Ingredient)) (m : StatMap) :
    (∀ key, rollTotal (pairs.foldl
        (fun m ni => applyIngredient E ni.2 (effMultOf eff_flat ni.1) ct m)
        m).minRolls key = rollTotal m.minRolls key + specMinTotal eff_flat pairs key) ∧
    (∀ key, rollTotal (pairs.foldl
        (fun m ni => applyIngredient E ni.2 (effMultOf eff_flat ni.1) ct m)
        m).maxRolls key = rollTotal m.maxRolls key + specMaxTotal eff_flat pairs key) ∧
    (sameRollKeys m → sameRollKeys (pairs.foldl
        (fun m ni => applyIngredient E ni.2 (effMultOf eff_flat ni.1) ct m) m)) ∧
    (pairs.foldl
        (fun m ni => applyIngredient E ni.2 (effMultOf eff_flat ni.1) ct m)
        m).dams = m.dams ∧
    (pairs.foldl
        (fun m ni => applyIngredient E ni.2 (effMultOf eff_flat ni.1) ct m)
        m).ingredPowders = m.ingredPowders := by
  induction pairs generalizing m with
  | nil => simp [specMinTotal, specMaxTotal]
  | cons p rest ih =>
    obtain ⟨a1, a2, a3, a4, a5⟩ :=
      applyIngredient_spec E p.2 (effMultOf eff_flat p.1) ct m
    obtain ⟨b1, b2, b3, b4, b5⟩ :=
      ih (applyIngredient E p.2 (effMultOf eff_flat p.1) ct m)
    simp only [List.foldl]
    refine ⟨?_, ?_, fun hs => b3 (a3 hs), by rw [b4, a4], by rw [b5, a5]⟩
    · intro key
      rw [b1 key, a1 key]
      simp only [specMinTotal, List.map_cons, List.sum_cons, add_assoc]
    · intro key
      rw [b2 key, a2 key]
      simp only [specMaxTotal, List.map_cons, List.sum_cons, add_assoc]

theorem setSkillpointsAndRequirements_keeps (E : Env) (m : StatMap) :
    (setSkillpointsAndRequirements E m).minRolls = m.minRolls ∧
    (setSkillpointsAndRequirements E m).maxRolls = m.maxRolls ∧
    (setSkillpointsAndRequirements E m).dams = m.dams ∧
    (setSkillpointsAndRequirements E m).ingredPowders = m.ingredPowders ∧
    (setSkillpointsAndRequirements E m).durability = m.durability ∧
    (setSkillpointsAndRequirements E m).duration = m.duration := by
  have h := foldl_preserve
    (fun (m : StatMap) (e : Nat) =>
      let key := skp_order.getD e ""
      let skillpointCount : Int :=
        if mapHas m.maxRolls key then (mapGet m.maxRolls key).getD 0 else 0
      { m with
        skills := m.skills.set e skillpointCount
        skillpoints := m.skillpoints.set e skillpointCount
        reqs := m.reqs.set e
          (if !E.consumableTypes.contains m.type then m.skillReqs.getD e 0 else 0) })
    (fun x : StatMap =>
      (x.minRolls, x.maxRolls, x.dams, x.ingredPowders, x.durability, x.duration))
    (by intro m e; rfl)
    (List.range skp_order.length) m
  simp only [Prod.mk.injEq] at h
  exact h

/-- The maps after `fillEmptyRolledIDs`, key by key, when the two maps have the same keys. -/
theorem fillEmptyRolledIDs_spec (E : Env) (m : StatMap) (hs : sameRollKeys m) :
    (∀ k, mapGet (fillEmptyRolledIDs E m).minRolls k =
      if mapHas m.minRolls k then mapGet m.minRolls k
      else if k ∈ E.rolledIDs then some 0 else none) ∧
    (∀ k, mapGet (fillEmptyRolledIDs E m).maxRolls k =
      if mapHas m.maxRolls k then mapGet m.maxRolls k
      else if k ∈ E.rolledIDs then some 0 else none) ∧
    (∀ x y, { fillEmptyRolledIDs E m with minRolls := x, maxRolls := y } =
      { m with minRolls := x, maxRolls := y }) := by
  unfold fillEmptyRolledIDs
  generalize E.rolledIDs = ids
  induction ids generalizing m with
  | nil =>
    refine ⟨?_, ?_, fun _ _ => rfl⟩
    · intro k
      simp only [List.foldl, List.not_mem_nil, if_false, mapHas]
      cases mapGet m.minRolls k <;> simp
    · intro k
      simp only [List.foldl, List.not_mem_nil, if_false, mapHas]
      cases mapGet m.maxRolls k <;> simp
  | cons id rest ih =>
    simp only [List.foldl]
    by_cases hid : mapHas m.minRolls id = true
    · simp only [hid, if_true]
      obtain ⟨h1, h2, h3⟩ := ih m hs
      have hid2 : mapHas m.maxRolls id = true := by rw [← hs id]; exact hid
      refine ⟨?_, ?_, h3⟩
      · intro k
        rw [h1 k]
        by_cases hk : mapHas m.minRolls k = true
        · simp [hk]
        · have hne : k ≠ id := fun h => hk (h ▸ hid)
          simp [hk, hne]
      · intro k
        rw [h2 k]
        by_cases hk : mapHas m.maxRolls k = true
        · simp [hk]
        · have hne : k ≠ id := fun h => hk (h ▸ hid2)
          simp [hk, hne]
    · simp only [hid, Bool.false_eq_true, if_false]
      have hid2 : ¬ mapHas m.maxRolls id = true := by rw [← hs id]; exact hid
      have hs2 : sameRollKeys
          { m with minRolls := mapSet m.minRolls id 0, maxRolls := mapSet m.maxRolls id 0 } := by
        intro k
        simp only [mapHas_mapSet, hs k]
      obtain ⟨h1, h2, h3⟩ := ih _ hs2
      refine ⟨?_, ?_, ?_⟩
      · intro k
        rw [h1 k]
        simp only [mapHas_mapSet, mapGet_mapSet]
        by_cases hk : id = k
        · subst hk
          simp [hid]
        · have hk2 : ¬ k = id := fun h => hk h.symm
          simp [hk, hk2]
      · intro k
        rw [h2 k]
        simp only [mapHas_mapSet, mapGet_mapSet]
        by_cases hk : id = k
        · subst hk
          simp [hid2]
        · have hk2 : ¬ k = id := fun h => hk h.symm
          simp [hk, hk2]
      · intro x y
        rw [h3 x y]

/-! ## Roll accumulation and backfill -/

theorem isOk_ok {α : Type} (x : Except Err α) (h : x.isOk = true) : ∃ v, x = .ok v := by
  cases x with
  | error e => exact absurd h (by simp [Except.isOk, Except.toBool])
  | ok v => exact ⟨v, rfl⟩

theorem baseCraftStats_rolls (E : Env) (r : Recipe) (t : Int × Int) (ings : Six Ingredient)
    (a : Option String) (h : Str) :
    (baseCraftStats E r t ings a h).minRolls = [] ∧
    (baseCraftStats E r t ings a h).maxRolls = [] := by
  simp only [baseCraftStats, initStatMap]
  split_ifs <;> simp [applyWeaponDamages, computeElementDamage, skp_elements]

theorem specRollMin_le_specRollMax (e : ℚ) (key : String) (roll : String × Int × Int) :
    specRollMin e key roll ≤ specRollMax e key roll := by
  unfold specRollMin specRollMax
  split_ifs
  · exact le_trans (min_le_left _ _) (le_max_left _ _)
  · exact le_refl _

theorem specMinTotal_le_specMaxTotal (eff_flat : List Int) (pairs : List (Nat × Ingredient))
    (key : String) : specMinTotal eff_flat pairs key ≤ specMaxTotal eff_flat pairs key := by
  unfold specMinTotal specMaxTotal
  apply List.sum_le_sum
  intro p _
  apply List.sum_le_sum
  intro roll _
  exact specRollMin_le_specRollMax _ key roll

theorem specTotal_zero (eff_flat : List Int) (ings : Six Ingredient) (id : String)
    (hno : ∀ ing ∈ ings.toList, ∀ roll ∈ ing.rolls, roll.1 = id → roll.2.2 = 0) :
    specMinTotal eff_flat ings.toList.enum id = 0 ∧
    specMaxTotal eff_flat ings.toList.enum id = 0 := by
  have hz : ∀ (e : ℚ), ∀ ing ∈ ings.toList,
      (ing.rolls.map (specRollMin e id)).sum = 0 ∧ (ing.rolls.map (specRollMax e id)).sum = 0 := by
    intro e ing hing
    have h1 : ∀ roll ∈ ing.rolls, specRollMin e id roll = 0 ∧ specRollMax e id roll = 0 := by
      intro roll hr
      unfold specRollMin specRollMax
      by_cases hk : roll.1 = id
      · simp [hk, hno ing hing roll hr hk]
      · simp [hk]
    constructor
    · apply List.sum_eq_zero
      intro x hx
      obtain ⟨roll, hr, rfl⟩ := List.mem_map.1 hx
      exact (h1 roll hr).1
    · apply List.sum_eq_zero
      intro x hx
      obtain ⟨roll, hr, rfl⟩ := List.mem_map.1 hx
      exact (h1 roll hr).2
  simp only [Six.toList, List.mem_cons, List.mem_singleton, forall_eq_or_imp, forall_eq,
    List.not_mem_nil, false_implies, implies_true, and_true] at hz
  simp only [specMinTotal, specMaxTotal, Six.toList, List.enum, List.enumFrom, List.map_cons,
    List.map_nil, List.sum_cons, List.sum_nil]
  constructor
  · rw [((hz _).1).1, ((hz _).2.1).1, ((hz _).2.2.1).1, ((hz _).2.2.2.1).1,
      ((hz _).2.2.2.2.1).1, ((hz _).2.2.2.2.2).1]
    rfl
  · rw [((hz _).1).2, ((hz _).2.1).2, ((hz _).2.2.1).2, ((hz _).2.2.2.1).2,
      ((hz _).2.2.2.2.1).2, ((hz _).2.2.2.2.2).2]
    rfl

/-- The roll maps of a derived attribute map. -/
theorem initCraftStats_rolls (E : Env) (r : Recipe) (t : Int × Int) (ings : Six Ingredient)
    (a : Option String) (h : Str) (sm : StatMap) (hsm : initCraftStats E r t ings a h = .ok sm) :
    ∃ eff, getIngredientEffectiveness ings = .ok eff ∧
      (∀ key, rollTotal sm.minRolls key = specMinTotal eff.flatten ings.toList.enum key) ∧
      (∀ key, rollTotal sm.maxRolls key = specMaxTotal eff.flatten ings.toList.enum key) ∧
      sameRollKeys sm ∧
      (∀ id ∈ E.rolledIDs, mapHas sm.minRolls id = true) := by
  obtain ⟨m1, eff, hframe, he, hsm2⟩ := initCraftStats_inv E r t ings a h sm hsm
  obtain ⟨hb1, hb2⟩ := baseCraftStats_rolls E r t ings a h
  have hm1 : m1.minRolls = [] ∧ m1.maxRolls = [] := by
    have h1 := congrArg StatMap.minRolls (hframe [])
    have h2 := congrArg StatMap.maxRolls (hframe [])
    simp only at h1 h2
    exact ⟨h1.trans hb1, h2.trans hb2⟩
  have hs0 : sameRollKeys { m1 with ingredEffectiveness := some eff.flatten } := by
    intro k
    show mapHas m1.minRolls k = mapHas m1.maxRolls k
    rw [hm1.1, hm1.2]
  obtain ⟨f1, f2, f3, -, -⟩ := foldl_applyIngredient_spec E (toLowerCase r.type) eff.flatten
    ings.toList.enum { m1 with ingredEffectiveness := some eff.flatten }
  have f3 := f3 hs0
  generalize hM : (ings.toList.enum.foldl
    (fun m ni => applyIngredient E ni.2 (effMultOf eff.flatten ni.1)
      (toLowerCase r.type) m)
    { m1 with ingredEffectiveness := some eff.flatten }) = M at hsm2 f1 f2 f3
  obtain ⟨s1, s2, -, -, -, -⟩ := setSkillpointsAndRequirements_keeps E (clampAttributes ings M)
  have c1 : (clampAttributes ings M).minRolls = M.minRolls := rfl
  have c2 : (clampAttributes ings M).maxRolls = M.maxRolls := rfl
  have hsP : sameRollKeys (setSkillpointsAndRequirements E (clampAttributes ings M)) := by
    intro k
    rw [s1, s2, c1, c2]
    exact f3 k
  obtain ⟨g1, g2, -⟩ := fillEmptyRolledIDs_spec E _ hsP
  rw [← hsm2] at g1 g2
  rw [s1, c1] at g1
  rw [s2, c2] at g2
  have t1 : ∀ key, rollTotal sm.minRolls key = rollTotal M.minRolls key := by
    intro key
    unfold rollTotal
    rw [g1 key]
    unfold mapHas
    cases mapGet M.minRolls key with
    | none => by_cases hk : key ∈ E.rolledIDs <;> simp [hk]
    | some v => simp
  have t2 : ∀ key, rollTotal sm.maxRolls key = rollTotal M.maxRolls key := by
    intro key
    unfold rollTotal
    rw [g2 key]
    unfold mapHas
    cases mapGet M.maxRolls key with
    | none => by_cases hk : key ∈ E.rolledIDs <;> simp [hk]
    | some v => simp
  refine ⟨eff, he, ?_, ?_, ?_, ?_⟩
  · intro key
    rw [t1 key, f1 key]
    show rollTotal m1.minRolls key + _ = _
    rw [hm1.1]
    simp [rollTotal, mapGet]
  · intro key
    rw [t2 key, f2 key]
    show rollTotal m1.maxRolls key + _ = _
    rw [hm1.2]
    simp [rollTotal, mapGet]
  · intro k
    have h3 := f3 k
    unfold mapHas at h3 ⊢
    rw [g1 k, g2 k]
    unfold mapHas
    cases h1 : mapGet M.minRolls k <;> cases h2 : mapGet M.maxRolls k <;>
      rw [h1, h2] at h3 <;> simp at h3 ⊢
  · intro id hid
    unfold mapHas
    rw [g1 id]
    unfold mapHas
    cases mapGet M.minRolls id <;> simp [hid]

/-- C17: roll accumulation keeps min <= max.  For every ingredient, multiplier `e` (of any
sign) and attribute map, `applyMaxMinRolls` adds to the min total of a key the sum, over the
rolls of the ingredient for that key whose maxRoll is not 0, of
min(floor(minRoll * e), floor(maxRoll * e)), and to the max total the sum of the maxima; a roll
whose maxRoll is 0 adds nothing; each contribution to the min total is at most the
contribution to the max total.  The products are products of JavaScript numbers (`mul64`, with
`e` read as a binary64 number): the roll 50 to 100 at effectiveness 115 contributes 57 and
114.  When the derivation returns, each total of the returned map is the sum of the
contributions of the six ingredients, each with the multiplier of its slot, and the min total
is at most the max total for every key. -/
theorem roll_accumulation_min_le_max (E : Env) (r : Recipe) (t : Int × Int)
    (ings : Six Ingredient) (a : Option String) (h : Str)
    (hok : (initCraftStats E r t ings a h).isOk = true) :
    (∀ (ing : Ingredient) (e : ℚ) (m : StatMap) (key : String),
      rollTotal (applyMaxMinRolls ing e m).minRolls key =
        rollTotal m.minRolls key + (ing.rolls.map (specRollMin e key)).sum ∧
      rollTotal (applyMaxMinRolls ing e m).maxRolls key =
        rollTotal m.maxRolls key + (ing.rolls.map (specRollMax e key)).sum) ∧
    (∀ (e : ℚ) (key : String) (lo hi : Int),
      specRollMin e key (key, lo, 0) = 0 ∧ specRollMax e key (key, lo, 0) = 0 ∧
      (hi ≠ 0 →
        specRollMin e key (key, lo, hi) =
          min (Int.floor (mul64 (lo : ℚ) (fl64 e))) (Int.floor (mul64 (hi : ℚ) (fl64 e))) ∧
        specRollMax e key (key, lo, hi) =
          max (Int.floor (mul64 (lo : ℚ) (fl64 e))) (Int.floor (mul64 (hi : ℚ) (fl64 e))) ∧
        specRollMin e key (key, lo, hi) ≤ specRollMax e key (key, lo, hi))) ∧
    (effMultOf [115] 0 = 1.15 ∧
      specRollMin (effMultOf [115] 0) "hpBonus" ("hpBonus", 50, 100) = 57 ∧
      specRollMax (effMultOf [115] 0) "hpBonus" ("hpBonus", 50, 100) = 114) ∧
    ∃ sm eff, initCraftStats E r t ings a h = .ok sm ∧
      getIngredientEffectiveness ings = .ok eff ∧
      ∀ key, rollTotal sm.minRolls key = specMinTotal eff.flatten ings.toList.enum key ∧
        rollTotal sm.maxRolls key = specMaxTotal eff.flatten ings.toList.enum key ∧
        rollTotal sm.minRolls key ≤ rollTotal sm.maxRolls key := by
  refine ⟨?_, ?_, ⟨by decide!, by decide!, by decide!⟩, ?_⟩
  · intro ing e m key
    obtain ⟨h1, h2, -, -⟩ := applyMaxMinRolls_spec ing e m
    exact ⟨h1 key, h2 key⟩
  · intro e key lo hi
    refine ⟨by simp [specRollMin], by simp [specRollMax], fun hhi => ?_⟩
    have hle := specRollMin_le_specRollMax e key (key, lo, hi)
    refine ⟨by simp [specRollMin, hhi], by simp [specRollMax, hhi], hle⟩
  · obtain ⟨sm, hsm⟩ := isOk_ok _ hok
    obtain ⟨eff, he, h1, h2, -, -⟩ := initCraftStats_rolls E r t ings a h sm hsm
    refine ⟨sm, eff, hsm, he, fun key => ⟨h1 key, h2 key, ?_⟩⟩
    rw [h1 key, h2 key]
    exact specMinTotal_le_specMaxTotal _ _ key

/-- Witness of C17: a helmet whose slot 1 has effectiveness -50 and rolls 10 to 20; the
totals of "hpBonus" are -10 and -5. -/
theorem roll_accumulation_min_le_max_witness :
    (∃ sm eff, initCraftStats exEnv (exRecipe 0 "HELMET") (1, 1) exRollIngs none [] = .ok sm ∧
      getIngredientEffectiveness exRollIngs = .ok eff ∧
      ∀ key, rollTotal sm.minRolls key = specMinTotal eff.flatten exRollIngs.toList.enum key ∧
        rollTotal sm.maxRolls key = specMaxTotal eff.flatten exRollIngs.toList.enum key ∧
        rollTotal sm.minRolls key ≤ rollTotal sm.maxRolls key) ∧
    getIngredientEffectiveness exRollIngs = .ok [[100, -50], [100, 100], [100, 100]] ∧
    specMinTotal [100, -50, 100, 100, 100, 100] exRollIngs.toList.enum "hpBonus" = -10 ∧
    specMaxTotal [100, -50, 100, 100, 100, 100] exRollIngs.toList.enum "hpBonus" = -5 :=
  ⟨(roll_accumulation_min_le_max exEnv (exRecipe 0 "HELMET") (1, 1) exRollIngs none []
    (by decide)).2.2.2, rfl, by decide!, by decide!⟩

/-- C18: backfill makes the roll schema complete.  When the derivation returns a map, every
id of `rolledIDs` is a key of `minRolls` and of `maxRolls`; an id of `rolledIDs` for which no
ingredient declares a roll with a non-zero maxRoll has min 0 and max 0; the totals are the
accumulated sums of the contributions (floors of products of JavaScript numbers); the two maps
have the same keys.  The backfill itself, on maps with the same keys, does not change the
value of a key that is present. -/
theorem fillEmptyRolledIDs_completes_schema (E : Env) (r : Recipe) (t : Int × Int)
    (ings : Six Ingredient) (a : Option String) (h : Str)
    (hok : (initCraftStats E r t ings a h).isOk = true) :
    (∃ sm eff, initCraftStats E r t ings a h = .ok sm ∧
      getIngredientEffectiveness ings = .ok eff ∧
      (∀ id ∈ E.rolledIDs, mapHas sm.minRolls id = true ∧ mapHas sm.maxRolls id = true) ∧
      (∀ id ∈ E.rolledIDs,
        (∀ ing ∈ ings.toList, ∀ roll ∈ ing.rolls, roll.1 = id → roll.2.2 = 0) →
        mapGet sm.minRolls id = some 0 ∧ mapGet sm.maxRolls id = some 0) ∧
      (∀ key, rollTotal sm.minRolls key = specMinTotal eff.flatten ings.toList.enum key ∧
        rollTotal sm.maxRolls key = specMaxTotal eff.flatten ings.toList.enum key) ∧
      sameRollKeys sm) ∧
    (∀ m, sameRollKeys m → ∀ k, mapHas m.minRolls k = true →
      mapGet (fillEmptyRolledIDs E m).minRolls k = mapGet m.minRolls k ∧
      mapGet (fillEmptyRolledIDs E m).maxRolls k = mapGet m.maxRolls k) := by
  constructor
  · obtain ⟨sm, hsm⟩ := isOk_ok _ hok
    obtain ⟨eff, he, h1, h2, h3, h4⟩ := initCraftStats_rolls E r t ings a h sm hsm
    have h5 : ∀ id ∈ E.rolledIDs, mapHas sm.maxRolls id = true :=
      fun id hid => (h3 id).symm.trans (h4 id hid)
    refine ⟨sm, eff, hsm, he, fun id hid => ⟨h4 id hid, h5 id hid⟩, ?_,
      fun key => ⟨h1 key, h2 key⟩, h3⟩
    intro id hid hno
    obtain ⟨z1, z2⟩ := specTotal_zero eff.flatten ings id hno
    have a1 := h1 id
    have a2 := h2 id
    have b1 := h4 id hid
    have b2 := h5 id hid
    rw [z1] at a1
    rw [z2] at a2
    unfold rollTotal at a1 a2
    unfold mapHas at b1 b2
    constructor
    · cases hg : mapGet sm.minRolls id with
      | none => rw [hg] at b1; exact absurd b1 (by simp)
      | some v => rw [hg] at a1; simp at a1; rw [a1]
    · cases hg : mapGet sm.maxRolls id with
      | none => rw [hg] at b2; exact absurd b2 (by simp)
      | some v => rw [hg] at a2; simp at a2; rw [a2]
  · intro m hs k hk
    obtain ⟨g1, g2, -⟩ := fillEmptyRolledIDs_spec E m hs
    have hk2 : mapHas m.maxRolls k = true := (hs k).symm.trans hk
    rw [g1 k, g2 k]
    simp [hk, hk2]

/-- Witness of C18 on the helmet of the roll example. -/
theorem fillEmptyRolledIDs_completes_schema_witness :
    ∃ sm eff, initCraftStats exEnv (exRecipe 0 "HELMET") (1, 1) exRollIngs none [] = .ok sm ∧
      getIngredientEffectiveness exRollIngs = .ok eff ∧
      (∀ id ∈ exEnv.rolledIDs, mapHas sm.minRolls id = true ∧ mapHas sm.maxRolls id = true) ∧
      (∀ id ∈ exEnv.rolledIDs,
        (∀ ing ∈ exRollIngs.toList, ∀ roll ∈ ing.rolls, roll.1 = id → roll.2.2 = 0) →
        mapGet sm.minRolls id = some 0 ∧ mapGet sm.maxRolls id = some 0) ∧
      (∀ key, rollTotal sm.minRolls key = specMinTotal eff.flatten exRollIngs.toList.enum key ∧
        rollTotal sm.maxRolls key = specMaxTotal eff.flatten exRollIngs.toList.enum key) ∧
      sameRollKeys sm :=
  (fillEmptyRolledIDs_completes_schema exEnv (exRecipe 0 "HELMET") (1, 1) exRollIngs none []
    (by decide)).1

/-! ## Weapon damage -/

theorem floor_zero_mul (q : ℚ) : jsFloor (jsMul (some 0) (some q)) = some 0 := by
  simp [jsFloor, jsMul, mul64_zero_left]

/-- The method `applyWeaponDamages` writes the damage entries and the powder list only. -/
theorem applyWeaponDamages_spec (ingreds : Six Ingredient) (atkSpd : Option String)
    (damageLow damageHigh : JSInt) (m : StatMap)
    (hd : m.dams = ("n", ⟨none, none, .num 0⟩) ::
      skp_elements.map (fun e => (e, ⟨none, none, .range (some 0) (some 0)⟩))) :
    (applyWeaponDamages ingreds atkSpd damageLow damageHigh m).dams =
      specWeaponDams (jsFloor (jsMul damageLow (some (attackSpeedRatio64 atkSpd))))
        (jsFloor (jsMul damageHigh (some (attackSpeedRatio64 atkSpd)))) ∧
    (applyWeaponDamages ingreds atkSpd damageLow damageHigh m).ingredPowders =
      some (specPowderIds ingreds) ∧
    ∀ d p, { applyWeaponDamages ingreds atkSpd damageLow damageHigh m with
        dams := d, ingredPowders := p } = { m with dams := d, ingredPowders := p } := by
  refine ⟨?_, ?_, ?_⟩
  · simp only [applyWeaponDamages, computeElementDamage, skp_elements, List.foldl, hd,
      specWeaponDams, specDamRange, List.map, mapSet, floor_zero_mul]
    simp
  · simp [applyWeaponDamages, computeElementDamage, skp_elements, specPowderIds]
  · intro d p
    simp [applyWeaponDamages, computeElementDamage, skp_elements]

theorem baseCraftStats_weapon (E : Env) (r : Recipe) (t : Int × Int) (ings : Six Ingredient)
    (a : Option String) (h : Str) (hw : E.getCategory (toLowerCase r.type) = some "weapon") :
    (baseCraftStats E r t ings a h).dams =
      specWeaponDams (specNeutralBase r t a r.healthOrDamage.1)
        (specNeutralBase r t a r.healthOrDamage.2) ∧
    (baseCraftStats E r t ings a h).ingredPowders = some (specPowderIds ings) := by
  have hc : ¬ (some "weapon" : Option String) = some "consumable" := by decide
  simp only [baseCraftStats, initStatMap, hw, hc, if_false, if_true]
  have hs := applyWeaponDamages_spec ings a (healthOrDamageBounds r t).1
    (healthOrDamageBounds r t).2
  refine ⟨?_, ?_⟩
  · rw [(hs _ rfl).1]
    rfl
  · rw [(hs _ rfl).2.1]

/-- The damage entries and the powder list are those of the map before the ingredients. -/
theorem initCraftStats_dams (E : Env) (r : Recipe) (t : Int × Int) (ings : Six Ingredient)
    (a : Option String) (h : Str) (sm : StatMap) (hsm : initCraftStats E r t ings a h = .ok sm) :
    sm.dams = (baseCraftStats E r t ings a h).dams ∧
    sm.ingredPowders = (baseCraftStats E r t ings a h).ingredPowders := by
  obtain ⟨m1, eff, hframe, -, hsm2⟩ := initCraftStats_inv E r t ings a h sm hsm
  obtain ⟨-, -, -, f4, f5⟩ := foldl_applyIngredient_spec E (toLowerCase r.type) eff.flatten
    ings.toList.enum { m1 with ingredEffectiveness := some eff.flatten }
  generalize hM : (ings.toList.enum.foldl
    (fun m ni => applyIngredient E ni.2 (effMultOf eff.flatten ni.1)
      (toLowerCase r.type) m)
    { m1 with ingredEffectiveness := some eff.flatten }) = M at hsm2 f4 f5
  obtain ⟨-, -, s3, s4, -, -⟩ := setSkillpointsAndRequirements_keeps E (clampAttributes ings M)
  have c3 : (clampAttributes ings M).dams = M.dams := rfl
  have c4 : (clampAttributes ings M).ingredPowders = M.ingredPowders := rfl
  have g : ∀ m : StatMap, (fillEmptyRolledIDs E m).dams = m.dams ∧
      (fillEmptyRolledIDs E m).ingredPowders = m.ingredPowders := by
    intro m
    have hp := foldl_preserve
      (fun (m : StatMap) (id : String) =>
        if mapHas m.minRolls id then m
        else { m with minRolls := mapSet m.minRolls id 0, maxRolls := mapSet m.maxRolls id 0 })
      (fun x : StatMap => (x.dams, x.ingredPowders))
      (by
        intro m id
        dsimp only
        split <;> rfl)
      E.rolledIDs m
    simp only [Prod.mk.injEq] at hp
    exact hp
  have d1 := congrArg StatMap.dams (hframe [])
  have d2 := congrArg StatMap.ingredPowders (hframe [])
  simp only at d1 d2
  rw [hsm2]
  constructor
  · rw [(g _).1, s3, c3, f4]
    exact d1
  · rw [(g _).2, s4, c4, f5]
    exact d2

/-- C15: weapon damage ignores powders.  When the derivation of a weapon returns a map, its
neutral base bounds are floor(floor(recipeBound * materialMultiplier) * attackSpeedRatio), the
displayed neutral ranges are the floors of 0.9 and 1.1 times the low base bound and of 0.9 and
1.1 times the high base bound, each of the five elements has base bounds 0 and the displayed
ranges 0-0, and `ingredPowders` lists the powder ids of the powder-flagged ingredients in slot
order; no ingredient enters the damage entries.  The products are products of JavaScript
numbers (`mul64`) and the ratio is the binary64 number that `getAttackSpeedRatio` returns: at
multiplier 1 a SLOW weapon with the bounds 30 and 60 has the base bounds 40 and 81, and a FAST
weapon with the bounds 150 and 300 has 122 and 245.  The method `applyWeaponDamages` changes
no entry other than the damage entries and `ingredPowders`. -/
theorem weapon_damage_ignores_powders (E : Env) (r : Recipe) (t : Int × Int)
    (ings : Six Ingredient) (a : Option String) (h : Str)
    (hw : E.getCategory (toLowerCase r.type) = some "weapon")
    (hok : (initCraftStats E r t ings a h).isOk = true) :
    (∃ sm, initCraftStats E r t ings a h = .ok sm ∧
      mapGet sm.dams "n" = some
        ⟨some (specNeutralBase r t a r.healthOrDamage.1, specNeutralBase r t a r.healthOrDamage.2),
          some (specDamRange (specNeutralBase r t a r.healthOrDamage.1)),
          .range (specDamRange (specNeutralBase r t a r.healthOrDamage.2)).1
            (specDamRange (specNeutralBase r t a r.healthOrDamage.2)).2⟩ ∧
      (∀ e ∈ skp_elements, mapGet sm.dams e =
        some ⟨some (some 0, some 0), some (some 0, some 0), .range (some 0) (some 0)⟩) ∧
      sm.ingredPowders = some (specPowderIds ings)) ∧
    (∀ mm : ℚ, getMaterialMultiplier r t = some mm → ∀ bound : Int,
      specNeutralBase r t a bound =
        some (Int.floor (mul64 ((Int.floor (mul64 (bound : ℚ) mm) : Int) : ℚ)
          (attackSpeedRatio64 a)))) ∧
    (∀ v : Int, specDamRange (some v) =
      (some (Int.floor (mul64 (v : ℚ) (fl64 0.9))), some (Int.floor (mul64 (v : ℚ) (fl64 1.1))))) ∧
    (attackSpeedRatio64 (some "NORMAL") = 1 ∧
      attackSpeedRatio64 (some "SLOW") = div64 (fl64 2.05) (fl64 1.5) ∧
      attackSpeedRatio64 (some "FAST") = div64 (fl64 2.05) (fl64 2.5) ∧
      attackSpeedRatio64 (some "FAST") = fl64 0.82 ∧
      specNeutralBase (exRecipe 5 "WAND") (1, 1) (some "SLOW") 30 = some 40 ∧
      specNeutralBase (exRecipe 5 "WAND") (1, 1) (some "SLOW") 60 = some 81 ∧
      specNeutralBase (exRecipe 5 "WAND") (1, 1) (some "FAST") 150 = some 122 ∧
      specNeutralBase (exRecipe 5 "WAND") (1, 1) (some "FAST") 300 = some 245) ∧
    (∀ (lo hi : JSInt) (m : StatMap) (d : List (String × DamEntry)) (p : Option (List Nat)),
      { applyWeaponDamages ings a lo hi m with dams := d, ingredPowders := p } =
        { m with dams := d, ingredPowders := p }) := by
  refine ⟨?_, ?_, ?_, ⟨by decide!, by decide!, by decide!, by decide!, by decide!, by decide!,
    by decide!, by decide!⟩, ?_⟩
  · obtain ⟨sm, hsm⟩ := isOk_ok _ hok
    obtain ⟨d1, d2⟩ := initCraftStats_dams E r t ings a h sm hsm
    obtain ⟨b1, b2⟩ := baseCraftStats_weapon E r t ings a h hw
    refine ⟨sm, hsm, ?_, ?_, ?_⟩
    · rw [d1, b1]
      simp [specWeaponDams, mapGet]
    · intro e he
      rw [d1, b1]
      simp only [skp_elements, List.mem_cons, List.mem_singleton, List.not_mem_nil,
        or_false] at he
      rcases he with h1 | h1 | h1 | h1 | h1 <;> subst h1 <;>
        simp [specWeaponDams, skp_elements, mapGet]
    · rw [d2, b2]
  · intro mm hmm bound
    simp [specNeutralBase, hmm, jsFloor, jsMul]
  · intro v
    simp [specDamRange, jsFloor, jsMul]
  · intro lo hi m d p
    simp [applyWeaponDamages, computeElementDamage, skp_elements]

/-- Witness of C15: a FAST wand with an earth powder in slot 0, material tiers 1 and 3 and
the recipe bounds 100 and 200.  The base bounds are 98 and 196 and the displayed ranges 88-107
and 176-215. -/
theorem weapon_damage_ignores_powders_witness :
    (∃ sm, initCraftStats exPowderEnv (exRecipe 5 "WAND") (1, 3)
        ⟨exPowderIng, exIng 0 "Ingredient Zero", exIng 0 "Ingredient Zero",
          exIng 0 "Ingredient Zero", exIng 0 "Ingredient Zero", exIng 4000 "No Ingredient"⟩
        (some "FAST") [] = .ok sm ∧
      mapGet sm.dams "n" = some
        ⟨some (specNeutralBase (exRecipe 5 "WAND") (1, 3) (some "FAST") 100,
            specNeutralBase (exRecipe 5 "WAND") (1, 3) (some "FAST") 200),
          some (specDamRange (specNeutralBase (exRecipe 5 "WAND") (1, 3) (some "FAST") 100)),
          .range (specDamRange (specNeutralBase (exRecipe 5 "WAND") (1, 3) (some "FAST") 200)).1
            (specDamRange (specNeutralBase (exRecipe 5 "WAND") (1, 3) (some "FAST") 200)).2⟩ ∧
      (∀ e ∈ skp_elements, mapGet sm.dams e =
        some ⟨some (some 0, some 0), some (some 0, some 0), .range (some 0) (some 0)⟩) ∧
      sm.ingredPowders = some [0]) ∧
    specNeutralBase (exRecipe 5 "WAND") (1, 3) (some "FAST") 100 = some 98 ∧
    specNeutralBase (exRecipe 5 "WAND") (1, 3) (some "FAST") 200 = some 196 ∧
    specDamRange (some 98) = (some 88, some 107) ∧
    specDamRange (some 196) = (some 176, some 215) :=
  ⟨(weapon_damage_ignores_powders exPowderEnv (exRecipe 5 "WAND") (1, 3)
    ⟨exPowderIng, exIng 0 "Ingredient Zero", exIng 0 "Ingredient Zero",
      exIng 0 "Ingredient Zero", exIng 0 "Ingredient Zero", exIng 4000 "No Ingredient"⟩
    (some "FAST") [] (by decide) (by decide)).1, by decide!, by decide!, by decide!, by decide!⟩

/-! ## The all-empty craft -/

theorem applyIngredient_empty (E : Env) (ing : Ingredient) (e : ℚ) (ct : String) (m : StatMap)
    (h1 : ing.itemIDs = []) (h2 : ing.consumableIDs = []) (h3 : ing.rolls = []) :
    applyIngredient E ing e ct m = m := by
  simp [applyIngredient, applyMaxMinRolls, applyIngredientConsumableIDs, applyIngredientItemIDs,
    h1, h2, h3]

theorem getMaterialMultiplier_one (r : Recipe) (hamt : 0 < r.amounts.1 + r.amounts.2) :
    getMaterialMultiplier r (1, 1) = some 1 := by
  have hne : ¬ (r.amounts.1 + r.amounts.2 = 0) := by omega
  have hq : add64 (r.amounts.1 : ℚ) (r.amounts.2 : ℚ) ≠ 0 := by
    have : (0 : ℚ) < ((r.amounts.1 + r.amounts.2 : Nat) : ℚ) := by exact_mod_cast hamt
    push_cast at this
    exact ne_of_gt (fl64_pos _ this)
  simp only [getMaterialMultiplier, tierToMult]
  simp only [one_ne_zero, if_false, if_true, hne, mul64_one_left]
  rw [div64_self _ hq]

theorem jsRound_mul_one (d : Int) : jsRound (jsMul (some d) (some 1)) = some d := by
  simp only [jsRound, jsMul, Option.map, mul64_one_right]
  congr 1
  rw [Int.floor_eq_iff]
  constructor <;> norm_num

/-- The map before the ingredients, for six sentinels and material tiers 1 and 1. -/
theorem baseCraftStats_empty (E : Env) (r : Recipe) (ings : Six Ingredient) (a : Option String)
    (h : Str) (hnone : isAllNone ings = true) (hamt : 0 < r.amounts.1 + r.amounts.2) :
    (baseCraftStats E r (1, 1) ings a h).skillpoints = [0, 0, 0, 0, 0] ∧
    (baseCraftStats E r (1, 1) ings a h).skills = [0, 0, 0, 0, 0] ∧
    (E.getCategory (toLowerCase r.type) ≠ some "consumable" →
      (baseCraftStats E r (1, 1) ings a h).durability =
        (some r.durability.1, some r.durability.2)) ∧
    (E.getCategory (toLowerCase r.type) = some "consumable" →
      (baseCraftStats E r (1, 1) ings a h).duration =
        (some r.basicDuration.1, some r.basicDuration.2)) := by
  simp only [baseCraftStats, initStatMap, getMaterialMultiplier_one r hamt, hnone, if_true]
  refine ⟨?_, ?_, ?_, ?_⟩
  · split_ifs <;> simp [applyWeaponDamages, computeElementDamage, skp_elements]
  · split_ifs <;> simp [applyWeaponDamages, computeElementDamage, skp_elements, skp_order]
  · intro hc
    simp only [hc, if_false]
    split_ifs <;>
      simp [applyWeaponDamages, computeElementDamage, skp_elements, jsRound_mul_one]
  · intro hc
    have h1 : ¬ (some "consumable" : Option String) = some "weapon" := by decide
    have h2 : ¬ (some "consumable" : Option String) = some "armor" := by decide
    simp only [hc, if_true, h1, h2, if_false, jsRound_mul_one]

theorem setSkillpointsAndRequirements_zero (E : Env) (m : StatMap) (hmax : m.maxRolls = [])
    (hsp : m.skillpoints = [0, 0, 0, 0, 0]) (hsk : m.skills = [0, 0, 0, 0, 0]) :
    (setSkillpointsAndRequirements E m).skillpoints = [0, 0, 0, 0, 0] ∧
    (setSkillpointsAndRequirements E m).skills = [0, 0, 0, 0, 0] := by
  simp [setSkillpointsAndRequirements, skp_order, List.range, List.range.loop, hmax, hsp, hsk,
    mapHas, mapGet]

theorem fillEmptyRolledIDs_keeps (E : Env) (m : StatMap) :
    (fillEmptyRolledIDs E m).skillpoints = m.skillpoints ∧
    (fillEmptyRolledIDs E m).skills = m.skills ∧
    (fillEmptyRolledIDs E m).durability = m.durability ∧
    (fillEmptyRolledIDs E m).duration = m.duration := by
  have hp := foldl_preserve
    (fun (m : StatMap) (id : String) =>
      if mapHas m.minRolls id then m
      else { m with minRolls := mapSet m.minRolls id 0, maxRolls := mapSet m.maxRolls id 0 })
    (fun x : StatMap => (x.skillpoints, x.skills, x.durability, x.duration))
    (by
      intro m id
      dsimp only
      split <;> rfl)
    E.rolledIDs m
  simp only [Prod.mk.injEq] at hp
  exact hp

theorem getIngredientEffectiveness_noMods (ings : Six Ingredient)
    (h : ∀ ing ∈ ings.toList, ing.posMods = []) :
    (getIngredientEffectiveness ings).isOk = true := by
  have hk : ∀ ing ∈ ings.toList, ∀ kv ∈ ing.posMods, kv.1 ∈ posModKeys := by
    intro ing hing kv hkv
    rw [h ing hing] at hkv
    cases hkv
  have hmain : getIngredientEffectiveness ings =
      .ok (effOfFn (specEffectiveness ings.toList.enum)) :=
    effLoop_spec_base _ (enum_pairs_ok ings hk)
  rw [hmain]
  rfl

/-- A key of `rolledIDs` to which no ingredient contributes holds 0 in both maps. -/
theorem initCraftStats_no_contribution (E : Env) (r : Recipe) (t : Int × Int)
    (ings : Six Ingredient) (a : Option String) (h : Str) (sm : StatMap)
    (hsm : initCraftStats E r t ings a h = .ok sm) (id : String) (hid : id ∈ E.rolledIDs)
    (hno : ∀ ing ∈ ings.toList, ∀ roll ∈ ing.rolls, roll.1 = id → roll.2.2 = 0) :
    mapGet sm.minRolls id = some 0 ∧ mapGet sm.maxRolls id = some 0 := by
  obtain ⟨eff, -, h1, h2, h3, h4⟩ := initCraftStats_rolls E r t ings a h sm hsm
  obtain ⟨z1, z2⟩ := specTotal_zero eff.flatten ings id hno
  have a1 := h1 id
  have a2 := h2 id
  have b1 := h4 id hid
  have b2 : mapHas sm.maxRolls id = true := (h3 id).symm.trans b1
  rw [z1] at a1
  rw [z2] at a2
  unfold rollTotal at a1 a2
  unfold mapHas at b1 b2
  constructor
  · cases hg : mapGet sm.minRolls id with
    | none => rw [hg] at b1; exact absurd b1 (by simp)
    | some v => rw [hg] at a1; simp at a1; rw [a1]
  · cases hg : mapGet sm.maxRolls id with
    | none => rw [hg] at b2; exact absurd b2 (by simp)
    | some v => rw [hg] at a2; simp at a2; rw [a2]

/-- The derived map of six sentinels without declarations, except for the roll maps. -/
theorem initCraftStats_empty (E : Env) (r : Recipe) (t : Int × Int) (ings : Six Ingredient)
    (a : Option String) (h : Str) (sm : StatMap)
    (hing : ∀ ing ∈ ings.toList, ing.itemIDs = [] ∧ ing.consumableIDs = [] ∧ ing.rolls = [])
    (hsm : initCraftStats E r t ings a h = .ok sm) :
    ∃ m1 : StatMap, (∀ d, { m1 with defs := d } = { (baseCraftStats E r t ings a h) with defs := d }) ∧
      ∃ effs, sm = fillEmptyRolledIDs E (setSkillpointsAndRequirements E (clampAttributes ings
        { m1 with ingredEffectiveness := effs })) := by
  obtain ⟨m1, eff, hframe, -, hsm2⟩ := initCraftStats_inv E r t ings a h sm hsm
  refine ⟨m1, hframe, some eff.flatten, ?_⟩
  rw [hsm2]
  simp only [Six.toList, List.mem_cons, List.mem_singleton, forall_eq_or_imp, forall_eq,
    List.not_mem_nil, false_implies, implies_true, and_true] at hing
  obtain ⟨h0, h1, h2, h3, h4, h5⟩ := hing
  simp only [Six.toList, List.enum, List.enumFrom, List.foldl,
    applyIngredient_empty E _ _ _ _ h0.1 h0.2.1 h0.2.2,
    applyIngredient_empty E _ _ _ _ h1.1 h1.2.1 h1.2.2,
    applyIngredient_empty E _ _ _ _ h2.1 h2.2.1 h2.2.2,
    applyIngredient_empty E _ _ _ _ h3.1 h3.2.1 h3.2.2,
    applyIngredient_empty E _ _ _ _ h4.1 h4.2.1 h4.2.2,
    applyIngredient_empty E _ _ _ _ h5.1 h5.2.1 h5.2.2]

/-- C13: the all-empty craft.  For a recipe with a positive total material amount and
durability bounds of at least 1, six ingredients named "No Ingredient" that declare no
positional modifiers, no item or consumable deltas and no rolls, and material tiers 1 and 1:
the derivation returns a map when no ingredient is powder-flagged, and whenever it returns a
map, the min and max totals of every id of `rolledIDs` are 0, all five skillpoints are 0, the
durability of a recipe that is not a consumable is the durability range of the recipe, and the
duration of a consumable recipe is the base duration of the recipe. -/
theorem all_empty_craft (E : Env) (r : Recipe) (ings : Six Ingredient) (a : Option String)
    (h : Str)
    (hing : ∀ ing ∈ ings.toList, ing.name = "No Ingredient" ∧ ing.posMods = [] ∧
      ing.itemIDs = [] ∧ ing.consumableIDs = [] ∧ ing.rolls = [])
    (hamt : 0 < r.amounts.1 + r.amounts.2)
    (hdur : 1 ≤ r.durability.1 ∧ 1 ≤ r.durability.2) :
    ((∀ ing ∈ ings.toList, ing.isPowder = false) →
      (initCraftStats E r (1, 1) ings a h).isOk = true) ∧
    ∀ sm, initCraftStats E r (1, 1) ings a h = .ok sm →
      (∀ id ∈ E.rolledIDs, mapGet sm.minRolls id = some 0 ∧ mapGet sm.maxRolls id = some 0) ∧
      (∀ key, rollTotal sm.minRolls key = 0 ∧ rollTotal sm.maxRolls key = 0) ∧
      sm.skillpoints = [0, 0, 0, 0, 0] ∧ sm.skills = [0, 0, 0, 0, 0] ∧
      (E.getCategory (toLowerCase r.type) ≠ some "consumable" →
        sm.durability = (some r.durability.1, some r.durability.2)) ∧
      (E.getCategory (toLowerCase r.type) = some "consumable" →
        sm.duration = (some r.basicDuration.1, some r.basicDuration.2)) := by
  have hnone : isAllNone ings = true := by
    simp only [isAllNone, List.all_eq_true, decide_eq_true_eq]
    exact fun ing hi => (hing ing hi).1
  have hno : ∀ id : String, ∀ ing ∈ ings.toList, ∀ roll ∈ ing.rolls,
      roll.1 = id → roll.2.2 = 0 := by
    intro id ing hi roll hr
    rw [(hing ing hi).2.2.2.2] at hr
    cases hr
  constructor
  · intro hpow
    have he := getIngredientEffectiveness_noMods ings (fun ing hi => (hing ing hi).2.1)
    have hp : ∀ m, applyPowderIngredients E ings m = .ok m := by
      intro m
      simp only [Six.toList, List.mem_cons, List.mem_singleton, forall_eq_or_imp, forall_eq,
        List.not_mem_nil, false_implies, implies_true, and_true] at hpow
      obtain ⟨p0, p1, p2, p3, p4, p5⟩ := hpow
      simp [applyPowderIngredients, Six.toList, List.foldlM, p0, p1, p2, p3, p4, p5, bind,
        Except.bind, pure, Except.pure]
    obtain ⟨eff, heff⟩ := isOk_ok _ he
    simp only [initCraftStats, hp, ite_self, applyAllIngredients, heff]
    rfl
  · intro sm hsm
    obtain ⟨eff, -, h1, h2, -, -⟩ := initCraftStats_rolls E r (1, 1) ings a h sm hsm
    obtain ⟨m1, hframe, effs, hsm2⟩ := initCraftStats_empty E r (1, 1) ings a h sm
      (fun ing hi => (hing ing hi).2.2) hsm
    obtain ⟨b1, b2, b3, b4⟩ := baseCraftStats_empty E r ings a h hnone hamt
    obtain ⟨r1, r2⟩ := baseCraftStats_rolls E r (1, 1) ings a h
    have e1 := congrArg StatMap.skillpoints (hframe [])
    have e2 := congrArg StatMap.skills (hframe [])
    have e3 := congrArg StatMap.durability (hframe [])
    have e4 := congrArg StatMap.duration (hframe [])
    have e5 := congrArg StatMap.maxRolls (hframe [])
    simp only at e1 e2 e3 e4 e5
    obtain ⟨g1, g2, g3, g4⟩ := fillEmptyRolledIDs_keeps E (setSkillpointsAndRequirements E
      (clampAttributes ings { m1 with ingredEffectiveness := effs }))
    obtain ⟨-, -, -, -, s5, s6⟩ := setSkillpointsAndRequirements_keeps E
      (clampAttributes ings { m1 with ingredEffectiveness := effs })
    obtain ⟨z1, z2⟩ := setSkillpointsAndRequirements_zero E
      (clampAttributes ings { m1 with ingredEffectiveness := effs })
      (e5.trans r2) (e1.trans b1) (e2.trans b2)
    refine ⟨fun id hid => initCraftStats_no_contribution E r (1, 1) ings a h sm hsm id hid
      (hno id), ?_, ?_, ?_, ?_, ?_⟩
    · intro key
      obtain ⟨y1, y2⟩ := specTotal_zero eff.flatten ings key (hno key)
      exact ⟨(h1 key).trans y1, (h2 key).trans y2⟩
    · rw [hsm2, g1, z1]
    · rw [hsm2, g2, z2]
    · intro hc
      rw [hsm2, g3, s5]
      show (clampDurability m1.durability.1, clampDurability m1.durability.2) = _
      rw [e3, b3 hc]
      have d1 : ¬ r.durability.1 < 1 := by omega
      have d2 : ¬ r.durability.2 < 1 := by omega
      simp [clampDurability, d1, d2]
    · intro hc
      rw [hsm2, g4, s6]
      show (clampDuration (isAllNone ings) m1.duration.1,
        clampDuration (isAllNone ings) m1.duration.2) = _
      rw [e4, b4 hc, hnone]
      simp [clampDuration]

/-- Witness of C13: the helmet recipe with six sentinels. -/
theorem all_empty_craft_witness :
    (initCraftStats exEnv (exRecipe 0 "HELMET") (1, 1) exEmptyIngs none []).isOk = true ∧
    ∀ sm, initCraftStats exEnv (exRecipe 0 "HELMET") (1, 1) exEmptyIngs none [] = .ok sm →
      (∀ id ∈ exEnv.rolledIDs,
        mapGet sm.minRolls id = some 0 ∧ mapGet sm.maxRolls id = some 0) ∧
      (∀ key, rollTotal sm.minRolls key = 0 ∧ rollTotal sm.maxRolls key = 0) ∧
      sm.skillpoints = [0, 0, 0, 0, 0] ∧ sm.skills = [0, 0, 0, 0, 0] ∧
      (exEnv.getCategory (toLowerCase "HELMET") ≠ some "consumable" →
        sm.durability = (some 175, some 182)) ∧
      (exEnv.getCategory (toLowerCase "HELMET") = some "consumable" →
        sm.duration = (some 300, some 360)) :=
  have T := all_empty_craft exEnv (exRecipe 0 "HELMET") exEmptyIngs none []
    (by decide) (by decide) (by decide)
  ⟨T.1 (by decide), T.2⟩

/-! ## Material tiers of decoded crafts -/

theorem Craft_new_mat_tiers (E : Env) (r : Recipe) (t : Int × Int) (ings : Six Ingredient)
    (a : Option String) (h : Str) (c : Craft) (hnew : Craft.new E r t ings a h = .ok c) :
    c.mat_tiers = t := by
  cases hs : initCraftStats E r t ings a ("CR-".toList ++ h) with
  | error e => simp only [Craft.new, hs] at hnew; cases hnew
  | ok sm =>
    simp only [Craft.new, hs] at hnew
    rw [← Except.ok.inj hnew]

/-- C20: material tiers outside 1, 2, 3.  The current-format text "400000000000000S0" (helmet
recipe 0, six times ingredient 0, first tier field 7) decodes to a craft with material tiers
8 and 1, and the legacy hash "CR-100000000000000A0" (tier character "A", value 10) decodes to
a craft with material tiers 1 and 4: neither decoder checks the tiers it reads. -/
theorem material_tiers_out_of_range :
    (∃ c cur, decodeCraft exEnv none (some "400000000000000S0".toList) = .ok (some c, cur) ∧
      c.mat_tiers = (8, 1)) ∧
    (∃ c, getCraftFromHash exEnv "CR-100000000000000A0".toList = some c ∧
      c.mat_tiers = (1, 4)) := by
  constructor
  · have h : (match decodeCraft exEnv none (some "400000000000000S0".toList) with
      | .ok (some c, _) => decide (c.mat_tiers = (8, 1))
      | _ => false) = true := by decide
    split at h
    · rename_i c cur h1
      exact ⟨c, cur, h1, of_decide_eq_true h⟩
    · exact absurd h (by simp)
  · have h : (match getCraftFromHash exEnv "CR-100000000000000A0".toList with
      | some c => decide (c.mat_tiers = (1, 4))
      | none => false) = true := by decide!
    split at h
    · rename_i c h1
      exact ⟨c, h1, of_decide_eq_true h⟩
    · exact absurd h (by simp)

/-! ## Padding -/

theorem toBits_zero (n : Nat) : toBits 0 n = List.replicate n false := by
  induction n with
  | zero => rfl
  | succ k ih => simp [toBits, ih, List.replicate_succ]

/-- C21 (counterexample): no minimal padding.  The example wand craft has 102 field bits, for
which (6 - L mod 6) mod 6 is 0, and `encodeCraft` returns 108 bits: the field bits followed by
six zero bits. -/
theorem encodeCraft_pads_aligned_length :
    ∃ vec, encodeCraft (some exWandCraft) = .ok vec ∧
      (fieldBits 2 exWandCraft (toBits 2 4)).length = 102 ∧
      specPadding 102 = 0 ∧
      vec = fieldBits 2 exWandCraft (toBits 2 4) ++ List.replicate 6 false ∧
      vec.length = 108 ∧ vec.length ≠ 102 + specPadding 102 := by
  have h := encodeCraft_weapon exWandCraft 2 (by decide) (by decide)
  refine ⟨_, h, ?_, by decide, ?_, ?_, ?_⟩
  · simp [fieldBits_length, toBits_length]
  · rw [toBits_zero]
  · simp [fieldBits_length, toBits_length]
  · simp [fieldBits_length, toBits_length, specPadding]

/-- C21 (amended): the padding of `encodeCraft`.  For a craft that is not a weapon or whose
attack speed is a key of the table, `encodeCraft` returns the field bits (flag, version,
ingredients, recipe, tiers and, for a weapon, the 4-bit attack speed) followed by
6 - (L mod 6) zero bits, where L is the number of field bits: between 1 and 6 padding bits,
and a whole group of 6 when L is a multiple of 6.  A weapon has L = 102 and encodes to 108
bits; any other craft has L = 98 and encodes to 102 bits.  The count equals the minimal count
(6 - L mod 6) mod 6 exactly when L is not a multiple of 6. -/
theorem encodeCraft_padding (c : Craft)
    (hatk : c.statMap.category = some "weapon" → (CRAFTED_ATK_SPD c.atkSpd).isSome = true) :
    ∃ vec atk, encodeCraft (some c) = .ok vec ∧
      vec = fieldBits 2 c atk ++ List.replicate (6 - (fieldBits 2 c atk).length % 6) false ∧
      1 ≤ 6 - (fieldBits 2 c atk).length % 6 ∧ 6 - (fieldBits 2 c atk).length % 6 ≤ 6 ∧
      (c.statMap.category = some "weapon" →
        atk.length = 4 ∧ (fieldBits 2 c atk).length = 102 ∧ vec.length = 108) ∧
      (c.statMap.category ≠ some "weapon" →
        atk = [] ∧ (fieldBits 2 c atk).length = 98 ∧ vec.length = 102) ∧
      (6 - (fieldBits 2 c atk).length % 6 = specPadding (fieldBits 2 c atk).length ↔
        (fieldBits 2 c atk).length % 6 ≠ 0) := by
  by_cases hw : c.statMap.category = some "weapon"
  · have hsome := hatk hw
    cases hcode : CRAFTED_ATK_SPD c.atkSpd with
    | none => rw [hcode] at hsome; exact absurd hsome (by simp)
    | some code =>
      have hl : (fieldBits 2 c (toBits code 4)).length = 102 := by
        simp [fieldBits_length, toBits_length]
      refine ⟨_, toBits code 4, encodeCraft_weapon c code hw hcode, ?_, ?_, ?_, ?_, ?_, ?_⟩
      · rw [hl, toBits_zero]
      · omega
      · omega
      · intro _
        exact ⟨toBits_length _ _, hl, by simp [hl, toBits_length]⟩
      · intro h; exact absurd hw h
      · rw [hl]; simp [specPadding]
  · have hl : (fieldBits 2 c []).length = 98 := by simp [fieldBits_length]
    refine ⟨_, [], encodeCraft_other c hw, ?_, ?_, ?_, ?_, ?_, ?_⟩
    · rw [hl, toBits_zero]
    · omega
    · omega
    · intro h; exact absurd h hw
    · intro _
      exact ⟨rfl, hl, by simp [hl, toBits_length]⟩
    · rw [hl]; simp [specPadding]

/-- Witness of C21 (amended) on the example wand craft. -/
theorem encodeCraft_padding_witness :
    ∃ vec atk, encodeCraft (some exWandCraft) = .ok vec ∧
      vec = fieldBits 2 exWandCraft atk ++
        List.replicate (6 - (fieldBits 2 exWandCraft atk).length % 6) false ∧
      (fieldBits 2 exWandCraft atk).length = 102 ∧ vec.length = 108 := by
  obtain ⟨vec, atk, h1, h2, -, -, h5, -, -⟩ := encodeCraft_padding exWandCraft (by decide)
  exact ⟨vec, atk, h1, h2, (h5 (by decide)).2.1, (h5 (by decide)).2.2⟩

/-! ## The all-sentinel consumable -/

/-- The duration of a consumable before the ingredients, when all six are the sentinel: the
base duration, multiplied by the material multiplier and rounded. -/
theorem baseCraftStats_consumable_allNone (E : Env) (r : Recipe) (t : Int × Int)
    (ings : Six Ingredient) (a : Option String) (h : Str)
    (hc : E.getCategory (toLowerCase r.type) = some "consumable")
    (hnone : isAllNone ings = true) :
    (baseCraftStats E r t ings a h).duration =
      (jsRound (jsMul (some r.basicDuration.1) (getMaterialMultiplier r t)),
        jsRound (jsMul (some r.basicDuration.2) (getMaterialMultiplier r t))) := by
  have h1 : ¬ (some "consumable" : Option String) = some "weapon" := by decide
  have h2 : ¬ (some "consumable" : Option String) = some "armor" := by decide
  simp only [baseCraftStats, initStatMap, hc, hnone, if_true, h1, h2, if_false]

/-- C22: an all-sentinel potion with material tiers 3 and 3.  The recipe has base duration
300-360 and material amounts 1 and 1; the multiplier is the binary64 number 1.4 and the
derived duration is 420-504, not the base duration. -/
theorem all_sentinel_consumable_duration_scaled :
    ∃ sm, initCraftStats exEnv (exRecipe 12 "POTION") (3, 3) exEmptyIngs none [] = .ok sm ∧
      isAllNone exEmptyIngs = true ∧
      exEnv.getCategory (toLowerCase (exRecipe 12 "POTION").type) = some "consumable" ∧
      (exRecipe 12 "POTION").basicDuration = (300, 360) ∧
      getMaterialMultiplier (exRecipe 12 "POTION") (3, 3) = some (fl64 1.4) ∧
      sm.duration = (some 420, some 504) := by
  have hok : (initCraftStats exEnv (exRecipe 12 "POTION") (3, 3) exEmptyIngs none []).isOk =
      true := by decide
  obtain ⟨sm, hsm⟩ := isOk_ok _ hok
  have hmm : getMaterialMultiplier (exRecipe 12 "POTION") (3, 3) = some (fl64 1.4) := by
    decide!
  refine ⟨sm, hsm, by decide, by decide, rfl, hmm, ?_⟩
  obtain ⟨m1, hframe, effs, hsm2⟩ := initCraftStats_empty exEnv _ (3, 3) exEmptyIngs none [] sm
    (by decide) hsm
  obtain ⟨-, -, -, g4⟩ := fillEmptyRolledIDs_keeps exEnv (setSkillpointsAndRequirements exEnv
    (clampAttributes exEmptyIngs { m1 with ingredEffectiveness := effs }))
  obtain ⟨-, -, -, -, -, s6⟩ := setSkillpointsAndRequirements_keeps exEnv
    (clampAttributes exEmptyIngs { m1 with ingredEffectiveness := effs })
  have e4 := congrArg StatMap.duration (hframe [])
  simp only at e4
  have hb := baseCraftStats_consumable_allNone exEnv (exRecipe 12 "POTION") (3, 3) exEmptyIngs
    none [] (by decide) (by decide)
  have hnone : isAllNone exEmptyIngs = true := by decide
  rw [hsm2, g4, s6]
  show (clampDuration (isAllNone exEmptyIngs) m1.duration.1,
    clampDuration (isAllNone exEmptyIngs) m1.duration.2) = _
  rw [e4, hb, hmm, hnone]
  have r1 : jsRound (jsMul (some (exRecipe 12 "POTION").basicDuration.1) (some (fl64 1.4))) =
      some 420 := by
    decide!
  have r2 : jsRound (jsMul (some (exRecipe 12 "POTION").basicDuration.2) (some (fl64 1.4))) =
      some 504 := by
    decide!
  rw [r1, r2]
  simp [clampDuration]

/-! ## Item deltas on consumables -/

theorem jsAdd_jsAdd (x : JSInt) (a b : Int) : jsAdd (jsAdd x a) b = jsAdd x (a + b) := by
  cases x with
  | none => rfl
  | some v => simp [jsAdd, add_assoc]

theorem jsAdd_zero (x : JSInt) : jsAdd x 0 = x := by
  cases x <;> simp [jsAdd]

theorem foldl_durability {κ : Type} (f : StatMap → κ × Int → StatMap)
    (hf : ∀ m kv, f m kv =
      { m with durability := (jsAdd m.durability.1 kv.2, jsAdd m.durability.2 kv.2) })
    (l : List (κ × Int)) (m : StatMap) :
    l.foldl f m =
      { m with durability :=
          (jsAdd m.durability.1 (l.map (fun kv => kv.2)).sum,
            jsAdd m.durability.2 (l.map (fun kv => kv.2)).sum) } := by
  induction l generalizing m with
  | nil => simp [jsAdd_zero]
  | cons kv rest ih =>
    simp only [List.foldl, hf, ih, jsAdd_jsAdd, List.map_cons, List.sum_cons]

/-- On a consumable type every item delta, whatever its key, is added to both durability
bounds, and nothing else changes. -/
theorem applyIngredientItemIDs_consumable (E : Env) (ing : Ingredient) (ct : String) (e : ℚ)
    (m : StatMap) (hc : E.isConsumable ct = true) :
    applyIngredientItemIDs E ing ct e m =
      { m with durability :=
          (jsAdd m.durability.1 (ing.itemIDs.map (fun kv => kv.2)).sum,
            jsAdd m.durability.2 (ing.itemIDs.map (fun kv => kv.2)).sum) } := by
  unfold applyIngredientItemIDs
  apply foldl_durability
  intro m kv
  dsimp only
  split
  · simp [hc]
  · rfl

/-- C23: a requirement delta applied to a consumable.  For the type "potion" the ingredient
that declares only "strReq" +5 leaves the requirement fields unchanged and raises the
durability bounds of the default map from 175-182 to 180-187. -/
theorem consumable_item_delta_changes_durability :
    exEnv.isConsumable "potion" = true ∧
    (initStatMap (exRecipe 12 "POTION") []).durability = (some 175, some 182) ∧
    (applyIngredientItemIDs exEnv exReqIng "potion" 1
      (initStatMap (exRecipe 12 "POTION") [])).durability = (some 180, some 187) ∧
    (applyIngredientItemIDs exEnv exReqIng "potion" 1
      (initStatMap (exRecipe 12 "POTION") [])).skillReqs =
        (initStatMap (exRecipe 12 "POTION") []).skillReqs ∧
    applyIngredientItemIDs exEnv exReqIng "potion" 1 (initStatMap (exRecipe 12 "POTION") []) ≠
      initStatMap (exRecipe 12 "POTION") [] := by
  have h := applyIngredientItemIDs_consumable exEnv exReqIng "potion" 1
    (initStatMap (exRecipe 12 "POTION") []) (by decide)
  refine ⟨by decide, rfl, ?_, ?_, ?_⟩
  · rw [h]; decide
  · rw [h]
  · rw [h]
    intro heq
    have := congrArg StatMap.durability heq
    revert this
    decide

/-! ## The legacy fallback of `decodeCraft` -/

theorem getCraftFromHash_undefined (E : Env) :
    getCraftFromHash E ("CR-".toList ++ "undefined".toList) = none := by
  simp only [getCraftFromHash]
  rw [if_pos (by decide), if_neg (by decide)]

/-- With a cursor whose next bit is 1 and no hash string, `decodeCraft` returns `undefined`
and leaves the cursor one bit further. -/
theorem decodeCraft_legacy_no_hash (E : Env) (cur : Cursor)
    (hlen : cur.currIdx + 1 ≤ cur.bitVec.length)
    (hbit : fromBits ((cur.bitVec.drop cur.currIdx).take 1) ≠ 0) :
    decodeCraft E (some cur) none = .ok (none, ⟨cur.bitVec, cur.currIdx + 1⟩) := by
  simp only [decodeCraft, Cursor.advance, Cursor.advanceBy, hlen, if_true, bind, Except.bind,
    pure, Except.pure, ne_eq, hbit, not_false_eq_true, Option.getD_none,
    getCraftFromHash_undefined]

/-- With a hash string whose first bit is 1, `decodeCraft` returns what `getCraftFromHash`
returns for "CR-" followed by the string. -/
theorem decodeCraft_legacy_hash (E : Env) (h : Str) (bits : List Bool)
    (hb : bitsOfB64 E h = .ok bits) (hlen : 1 ≤ bits.length)
    (hbit : fromBits (bits.take 1) ≠ 0) :
    decodeCraft E none (some h) = .ok (getCraftFromHash E ("CR-".toList ++ h), ⟨bits, 1⟩) := by
  have hlen2 : 0 + 1 ≤ bits.length := by omega
  simp only [decodeCraft, hb, Cursor.advance, Cursor.advanceBy, hlen2, if_true, bind,
    Except.bind, pure, Except.pure, ne_eq, List.drop_zero, hbit, not_false_eq_true,
    Option.getD_some]

/-- C25: the legacy hash "100+W000000+W0081" in both entry forms.  Called with the string,
`decodeCraft` returns the craft that `getCraftFromHash` decodes from "CR-" followed by the
string; called with only a cursor at the start of the bits of the string, whose first bit is
1, it returns `undefined`. -/
theorem decodeCraft_legacy_cursor_only :
    ∃ bits c, bitsOfB64 exEnv "100+W000000+W0081".toList = .ok bits ∧
      bits.head? = some true ∧
      getCraftFromHash exEnv "CR-100+W000000+W0081".toList = some c ∧
      decodeCraft exEnv none (some "100+W000000+W0081".toList) = .ok (some c, ⟨bits, 1⟩) ∧
      decodeCraft exEnv (some ⟨bits, 0⟩) none = .ok (none, ⟨bits, 1⟩) := by
  have h : (match bitsOfB64 exEnv "100+W000000+W0081".toList with
    | .ok bits =>
      decide (bits.head? = some true ∧ 1 ≤ bits.length ∧ fromBits (bits.take 1) ≠ 0)
    | _ => false) = true := by decide
  have hs : (getCraftFromHash exEnv "CR-100+W000000+W0081".toList).isSome = true := by decide
  obtain ⟨c, hc⟩ := Option.isSome_iff_exists.1 hs
  split at h
  · rename_i bits h1
    obtain ⟨a1, a3, a4⟩ := of_decide_eq_true h
    refine ⟨bits, c, h1, a1, hc, ?_, ?_⟩
    · rw [decodeCraft_legacy_hash exEnv _ bits h1 a3 a4]
      have : "CR-".toList ++ "100+W000000+W0081".toList = "CR-100+W000000+W0081".toList := by
        decide
      rw [this, hc]
    · exact decodeCraft_legacy_no_hash exEnv ⟨bits, 0⟩ (by simpa using a3)
        (by simpa using a4)
  · exact absurd h (by simp)

/-! ## Durability, duration and charges through the ingredients -/

/-- A fold whose step adds to the durability bounds, the duration bounds and the charges
adds the sums. -/
theorem foldl_view {α : Type} (f : StatMap → α → StatMap) (dD dT dC : α → Int)
    (hf : ∀ m x,
      (f m x).durability = (jsAdd m.durability.1 (dD x), jsAdd m.durability.2 (dD x)) ∧
      (f m x).duration = (jsAdd m.duration.1 (dT x), jsAdd m.duration.2 (dT x)) ∧
      (f m x).charges = m.charges + dC x)
    (l : List α) (m : StatMap) :
    (l.foldl f m).durability =
      (jsAdd m.durability.1 (l.map dD).sum, jsAdd m.durability.2 (l.map dD).sum) ∧
    (l.foldl f m).duration =
      (jsAdd m.duration.1 (l.map dT).sum, jsAdd m.duration.2 (l.map dT).sum) ∧
    (l.foldl f m).charges = m.charges + (l.map dC).sum := by
  induction l generalizing m with
  | nil => simp [jsAdd_zero]
  | cons x rest ih =>
    obtain ⟨a1, a2, a3⟩ := hf m x
    obtain ⟨b1, b2, b3⟩ := ih (f m x)
    simp only [List.foldl, List.map_cons, List.sum_cons]
    rw [b1, b2, b3, a1, a2, a3]
    simp only [jsAdd_jsAdd, add_assoc, and_self]

theorem applyIngredientItemIDs_view (E : Env) (ing : Ingredient) (ct : String) (e : ℚ)
    (m : StatMap) :
    (applyIngredientItemIDs E ing ct e m).durability =
      (jsAdd m.durability.1 (durabilityDelta E ct ing),
        jsAdd m.durability.2 (durabilityDelta E ct ing)) ∧
    (applyIngredientItemIDs E ing ct e m).duration = m.duration ∧
    (applyIngredientItemIDs E ing ct e m).charges = m.charges := by
  have h := foldl_view
    (fun (m : StatMap) (kv : ItemKey × Int) =>
      match kv.1.reqIdx with
      | some idx =>
        if !E.isConsumable ct then
          let effMult : ℚ := if !ing.isPowder then fl64 e else 1
          let updated : Int :=
            Int.floor
            (add64 ((m.skillReqs.getD idx 0 : Int) : ℚ) (mul64 (kv.2 : ℚ) effMult) + 1 / 2)
          { m with skillReqs := m.skillReqs.set idx updated }
        else { m with durability := (jsAdd m.durability.1 kv.2, jsAdd m.durability.2 kv.2) }
      | none => { m with durability := (jsAdd m.durability.1 kv.2, jsAdd m.durability.2 kv.2) })
    (fun kv => if kv.1.reqIdx.isSome && !E.isConsumable ct then 0 else kv.2)
    (fun _ => 0) (fun _ => 0)
    (by
      intro m kv
      dsimp only
      split
      · rename_i idx hk
        by_cases hc : E.isConsumable ct = true
        · simp [hk, hc, jsAdd_zero]
        · simp [hk, hc, jsAdd_zero]
      · rename_i hk
        simp [hk, jsAdd_zero])
    ing.itemIDs m
  simp only [List.map_const', List.sum_replicate, smul_zero, jsAdd_zero, add_zero] at h
  exact h

theorem applyIngredientConsumableIDs_view (ing : Ingredient) (m : StatMap) :
    (applyIngredientConsumableIDs ing m).durability = m.durability ∧
    (applyIngredientConsumableIDs ing m).duration =
      (jsAdd m.duration.1 (durationDelta ing), jsAdd m.duration.2 (durationDelta ing)) ∧
    (applyIngredientConsumableIDs ing m).charges = m.charges + chargeDelta ing := by
  have h := foldl_view
    (fun (m : StatMap) (kv : ConsKey × Int) =>
      match kv.1 with
      | .dura => { m with duration := (jsAdd m.duration.1 kv.2, jsAdd m.duration.2 kv.2) }
      | .charges => { m with charges := m.charges + kv.2 })
    (fun _ => 0)
    (fun kv => match kv.1 with
      | .dura => kv.2
      | .charges => 0)
    (fun kv => match kv.1 with
      | .charges => kv.2
      | .dura => 0)
    (by
      intro m kv
      dsimp only
      split <;> rename_i hk <;> simp [hk, jsAdd_zero])
    ing.consumableIDs m
  simp only [List.map_const', List.sum_replicate, smul_zero, jsAdd_zero] at h
  exact h

/-- What one ingredient does to the durability, the duration and the charges: the multiplier
does not enter. -/
theorem applyIngredient_view (E : Env) (ing : Ingredient) (e : ℚ) (ct : String) (m : StatMap) :
    (applyIngredient E ing e ct m).durability =
      (jsAdd m.durability.1 (durabilityDelta E ct ing),
        jsAdd m.durability.2 (durabilityDelta E ct ing)) ∧
    (applyIngredient E ing e ct m).duration =
      (jsAdd m.duration.1 (durationDelta ing), jsAdd m.duration.2 (durationDelta ing)) ∧
    (applyIngredient E ing e ct m).charges = m.charges + chargeDelta ing := by
  obtain ⟨a1, a2, a3⟩ := applyIngredientItemIDs_view E ing ct e m
  obtain ⟨b1, b2, b3⟩ :=
    applyIngredientConsumableIDs_view ing (applyIngredientItemIDs E ing ct e m)
  obtain ⟨-, -, -, c4⟩ := applyMaxMinRolls_spec ing e
    (applyIngredientConsumableIDs ing (applyIngredientItemIDs E ing ct e m))
  have d1 := congrArg StatMap.durability (c4 [] [])
  have d2 := congrArg StatMap.duration (c4 [] [])
  have d3 := congrArg StatMap.charges (c4 [] [])
  simp only at d1 d2 d3
  unfold applyIngredient
  rw [d1, d2, d3, b1, b2, b3, a1, a2, a3]
  exact ⟨rfl, rfl, rfl⟩

/-- The durability, duration and charges after a list of (slot, ingredient) pairs, whatever
multiplier `q` gives each slot. -/
theorem foldl_applyIngredient_view (E : Env) (ct : String) (q : Nat → ℚ)
    (pairs : List (Nat × Ingredient)) (m : StatMap) :
    (pairs.foldl (fun m ni => applyIngredient E ni.2 (q ni.1) ct m) m).durability =
      (jsAdd m.durability.1 (pairs.map (fun p => durabilityDelta E ct p.2)).sum,
        jsAdd m.durability.2 (pairs.map (fun p => durabilityDelta E ct p.2)).sum) ∧
    (pairs.foldl (fun m ni => applyIngredient E ni.2 (q ni.1) ct m) m).duration =
      (jsAdd m.duration.1 (pairs.map (fun p => durationDelta p.2)).sum,
        jsAdd m.duration.2 (pairs.map (fun p => durationDelta p.2)).sum) ∧
    (pairs.foldl (fun m ni => applyIngredient E ni.2 (q ni.1) ct m) m).charges =
      m.charges + (pairs.map (fun p => chargeDelta p.2)).sum := by
  induction pairs generalizing m with
  | nil => simp [jsAdd_zero]
  | cons p rest ih =>
    obtain ⟨a1, a2, a3⟩ := applyIngredient_view E p.2 (q p.1) ct m
    obtain ⟨b1, b2, b3⟩ := ih (applyIngredient E p.2 (q p.1) ct m)
    simp only [List.foldl, List.map_cons, List.sum_cons]
    rw [b1, b2, b3, a1, a2, a3]
    simp only [jsAdd_jsAdd, add_assoc, and_self]

/-! ## Effectiveness and the unscaled entries -/

theorem stripPosMods_eq (x y : Ingredient) (h : stripPosMods x = stripPosMods y) :
    x.name = y.name ∧ x.itemIDs = y.itemIDs ∧ x.consumableIDs = y.consumableIDs := by
  have h1 := congrArg Ingredient.name h
  have h2 := congrArg Ingredient.itemIDs h
  have h3 := congrArg Ingredient.consumableIDs h
  exact ⟨h1, h2, h3⟩

theorem delta_congr (E : Env) (ct : String) (x y : Ingredient)
    (h : stripPosMods x = stripPosMods y) :
    durabilityDelta E ct x = durabilityDelta E ct y ∧ durationDelta x = durationDelta y ∧
    chargeDelta x = chargeDelta y := by
  obtain ⟨-, h2, h3⟩ := stripPosMods_eq x y h
  simp only [durabilityDelta, durationDelta, chargeDelta, h2, h3, and_self]

/-- Two lists of six ingredients that differ only in their positional modifiers have the same
sentinel test and the same sums of deltas. -/
theorem view_congr (E : Env) (ct : String) (ings ings' : Six Ingredient)
    (hsame : ings.map stripPosMods = ings'.map stripPosMods) :
    isAllNone ings = isAllNone ings' ∧
    (ings.toList.enum.map (fun p => durabilityDelta E ct p.2)).sum =
      (ings'.toList.enum.map (fun p => durabilityDelta E ct p.2)).sum ∧
    (ings.toList.enum.map (fun p => durationDelta p.2)).sum =
      (ings'.toList.enum.map (fun p => durationDelta p.2)).sum ∧
    (ings.toList.enum.map (fun p => chargeDelta p.2)).sum =
      (ings'.toList.enum.map (fun p => chargeDelta p.2)).sum := by
  obtain ⟨a0, a1, a2, a3, a4, a5⟩ := ings
  obtain ⟨b0, b1, b2, b3, b4, b5⟩ := ings'
  simp only [Six.map, Six.mk.injEq] at hsame
  obtain ⟨h0, h1, h2, h3, h4, h5⟩ := hsame
  have n0 := (stripPosMods_eq _ _ h0).1
  have n1 := (stripPosMods_eq _ _ h1).1
  have n2 := (stripPosMods_eq _ _ h2).1
  have n3 := (stripPosMods_eq _ _ h3).1
  have n4 := (stripPosMods_eq _ _ h4).1
  have n5 := (stripPosMods_eq _ _ h5).1
  have d0 := delta_congr E ct _ _ h0
  have d1 := delta_congr E ct _ _ h1
  have d2 := delta_congr E ct _ _ h2
  have d3 := delta_congr E ct _ _ h3
  have d4 := delta_congr E ct _ _ h4
  have d5 := delta_congr E ct _ _ h5
  refine ⟨?_, ?_, ?_, ?_⟩
  · simp only [isAllNone, Six.toList, List.all_cons, List.all_nil, n0, n1, n2, n3, n4, n5]
  · simp only [Six.toList, List.enum, List.enumFrom, List.map_cons, List.map_nil, List.sum_cons,
      List.sum_nil, d0.1, d1.1, d2.1, d3.1, d4.1, d5.1]
  · simp only [Six.toList, List.enum, List.enumFrom, List.map_cons, List.map_nil, List.sum_cons,
      List.sum_nil, d0.2.1, d1.2.1, d2.2.1, d3.2.1, d4.2.1, d5.2.1]
  · simp only [Six.toList, List.enum, List.enumFrom, List.map_cons, List.map_nil, List.sum_cons,
      List.sum_nil, d0.2.2, d1.2.2, d2.2.2, d3.2.2, d4.2.2, d5.2.2]

/-- The map before the ingredients depends on the ingredients only through the sentinel test,
as far as durability, duration and charges go. -/
theorem baseCraftStats_view_congr (E : Env) (r : Recipe) (t : Int × Int)
    (ings ings' : Six Ingredient) (a : Option String) (h : Str)
    (hn : isAllNone ings = isAllNone ings') :
    (baseCraftStats E r t ings a h).durability = (baseCraftStats E r t ings' a h).durability ∧
    (baseCraftStats E r t ings a h).duration = (baseCraftStats E r t ings' a h).duration ∧
    (baseCraftStats E r t ings a h).charges = (baseCraftStats E r t ings' a h).charges := by
  simp only [baseCraftStats, initStatMap, hn]
  split_ifs <;> simp [applyWeaponDamages, computeElementDamage, skp_elements]

theorem baseCraftStats_charges_zero (E : Env) (r : Recipe) (t : Int × Int)
    (ings : Six Ingredient) (a : Option String) (h : Str)
    (hc1 : E.isConsumable (toLowerCase r.type) = false)
    (hc2 : E.getCategory (toLowerCase r.type) ≠ some "consumable") :
    getConsumableCharges E r (initStatMap r h) = 0 ∧
    (baseCraftStats E r t ings a h).charges = 0 := by
  have g : getConsumableCharges E r (initStatMap r h) = 0 := by
    simp [getConsumableCharges, initStatMap, hc1]
  refine ⟨g, ?_⟩
  simp only [baseCraftStats, initStatMap, hc2, if_false]
  split_ifs <;>
    simp [applyWeaponDamages, computeElementDamage, skp_elements, getConsumableCharges, hc1]

theorem setSkillpointsAndRequirements_charges (E : Env) (m : StatMap) :
    (setSkillpointsAndRequirements E m).charges = m.charges :=
  foldl_preserve
    (fun (m : StatMap) (e : Nat) =>
      let key := skp_order.getD e ""
      let skillpointCount : Int :=
        if mapHas m.maxRolls key then (mapGet m.maxRolls key).getD 0 else 0
      { m with
        skills := m.skills.set e skillpointCount
        skillpoints := m.skillpoints.set e skillpointCount
        reqs := m.reqs.set e
          (if !E.consumableTypes.contains m.type then m.skillReqs.getD e 0 else 0) })
    (fun x : StatMap => x.charges)
    (by intro m e; rfl)
    (List.range skp_order.length) m

theorem fillEmptyRolledIDs_charges (E : Env) (m : StatMap) :
    (fillEmptyRolledIDs E m).charges = m.charges :=
  foldl_preserve
    (fun (m : StatMap) (id : String) =>
      if mapHas m.minRolls id then m
      else { m with minRolls := mapSet m.minRolls id 0, maxRolls := mapSet m.maxRolls id 0 })
    (fun x : StatMap => x.charges)
    (by
      intro m id
      dsimp only
      split <;> rfl)
    E.rolledIDs m

/-- The durability, the duration and the charges of a derived map: the values before the
ingredients, plus the sums of the deltas, clamped. -/
theorem initCraftStats_view (E : Env) (r : Recipe) (t : Int × Int) (ings : Six Ingredient)
    (a : Option String) (h : Str) (sm : StatMap) (hsm : initCraftStats E r t ings a h = .ok sm) :
    sm.durability =
      (clampDurability (jsAdd (baseCraftStats E r t ings a h).durability.1
          (ings.toList.enum.map (fun p => durabilityDelta E (toLowerCase r.type) p.2)).sum),
        clampDurability (jsAdd (baseCraftStats E r t ings a h).durability.2
          (ings.toList.enum.map (fun p => durabilityDelta E (toLowerCase r.type) p.2)).sum)) ∧
    sm.duration =
      (clampDuration (isAllNone ings) (jsAdd (baseCraftStats E r t ings a h).duration.1
          (ings.toList.enum.map (fun p => durationDelta p.2)).sum),
        clampDuration (isAllNone ings) (jsAdd (baseCraftStats E r t ings a h).duration.2
          (ings.toList.enum.map (fun p => durationDelta p.2)).sum)) ∧
    sm.charges =
      (if (baseCraftStats E r t ings a h).charges +
          (ings.toList.enum.map (fun p => chargeDelta p.2)).sum < 1 then 1
        else (baseCraftStats E r t ings a h).charges +
          (ings.toList.enum.map (fun p => chargeDelta p.2)).sum) := by
  obtain ⟨m1, eff, hframe, -, hsm2⟩ := initCraftStats_inv E r t ings a h sm hsm
  obtain ⟨f1, f2, f3⟩ := foldl_applyIngredient_view E (toLowerCase r.type)
    (fun n => effMultOf eff.flatten n) ings.toList.enum
    { m1 with ingredEffectiveness := some eff.flatten }
  simp only at f1 f2 f3
  generalize hM : (ings.toList.enum.foldl
    (fun m ni => applyIngredient E ni.2 (effMultOf eff.flatten ni.1)
      (toLowerCase r.type) m)
    { m1 with ingredEffectiveness := some eff.flatten }) = M at hsm2 f1 f2 f3
  have e1 := congrArg StatMap.durability (hframe [])
  have e2 := congrArg StatMap.duration (hframe [])
  have e3 := congrArg StatMap.charges (hframe [])
  simp only at e1 e2 e3
  obtain ⟨-, -, g3, g4⟩ := fillEmptyRolledIDs_keeps E (setSkillpointsAndRequirements E
    (clampAttributes ings M))
  obtain ⟨-, -, -, -, s5, s6⟩ := setSkillpointsAndRequirements_keeps E (clampAttributes ings M)
  have g5 := fillEmptyRolledIDs_charges E (setSkillpointsAndRequirements E
    (clampAttributes ings M))
  have s7 := setSkillpointsAndRequirements_charges E (clampAttributes ings M)
  rw [hsm2]
  refine ⟨?_, ?_, ?_⟩
  · rw [g3, s5]
    show (clampDurability M.durability.1, clampDurability M.durability.2) = _
    rw [f1, e1]
  · rw [g4, s6]
    show (clampDuration (isAllNone ings) M.duration.1,
      clampDuration (isAllNone ings) M.duration.2) = _
    rw [f2, e2]
  · rw [g5, s7]
    show (if M.charges < 1 then 1 else M.charges) = _
    rw [f3, e3]

/-- C24: effectiveness never touches durability, duration or charges.  Two lists of six
ingredients that are equal once the positional modifiers are erased, derived with the same
recipe, material tiers and attack speed, give maps with the same durability bounds, the same
duration bounds and the same charge count, whenever both derivations return; and for one
ingredient the three entries after `applyIngredient` do not depend on the multiplier. -/
theorem effectiveness_leaves_durability_duration_charges (E : Env) (r : Recipe)
    (t : Int × Int) (a : Option String) (h : Str) (ings ings' : Six Ingredient)
    (hsame : ings.map stripPosMods = ings'.map stripPosMods)
    (hok : (initCraftStats E r t ings a h).isOk = true)
    (hok' : (initCraftStats E r t ings' a h).isOk = true) :
    (∃ sm sm', initCraftStats E r t ings a h = .ok sm ∧
      initCraftStats E r t ings' a h = .ok sm' ∧
      sm.durability = sm'.durability ∧ sm.duration = sm'.duration ∧
      sm.charges = sm'.charges) ∧
    (∀ (ing : Ingredient) (e e' : ℚ) (ct : String) (m : StatMap),
      (applyIngredient E ing e ct m).durability = (applyIngredient E ing e' ct m).durability ∧
      (applyIngredient E ing e ct m).duration = (applyIngredient E ing e' ct m).duration ∧
      (applyIngredient E ing e ct m).charges = (applyIngredient E ing e' ct m).charges) := by
  constructor
  · obtain ⟨sm, hsm⟩ := isOk_ok _ hok
    obtain ⟨sm', hsm'⟩ := isOk_ok _ hok'
    obtain ⟨v1, v2, v3⟩ := initCraftStats_view E r t ings a h sm hsm
    obtain ⟨w1, w2, w3⟩ := initCraftStats_view E r t ings' a h sm' hsm'
    obtain ⟨hn, s1, s2, s3⟩ := view_congr E (toLowerCase r.type) ings ings' hsame
    obtain ⟨b1, b2, b3⟩ := baseCraftStats_view_congr E r t ings ings' a h hn
    refine ⟨sm, sm', hsm, hsm', ?_, ?_, ?_⟩
    · rw [v1, w1, b1, s1]
    · rw [v2, w2, b2, s2, hn]
    · rw [v3, w3, b3, s3]
  · intro ing e e' ct m
    obtain ⟨a1, a2, a3⟩ := applyIngredient_view E ing e ct m
    obtain ⟨c1, c2, c3⟩ := applyIngredient_view E ing e' ct m
    exact ⟨a1.trans c1.symm, a2.trans c2.symm, a3.trans c3.symm⟩

/-- Witness of C24: the delta example and the same ingredients without positional
modifiers, on the helmet recipe. -/
theorem effectiveness_leaves_durability_duration_charges_witness :
    ∃ sm sm', initCraftStats exEnv (exRecipe 0 "HELMET") (2, 3) exDeltaIngs none [] = .ok sm ∧
      initCraftStats exEnv (exRecipe 0 "HELMET") (2, 3) (exDeltaIngs.map stripPosMods) none [] =
        .ok sm' ∧
      sm.durability = sm'.durability ∧ sm.duration = sm'.duration ∧
      sm.charges = sm'.charges :=
  (effectiveness_leaves_durability_duration_charges exEnv (exRecipe 0 "HELMET") (2, 3) none []
    exDeltaIngs (exDeltaIngs.map stripPosMods) (by decide) (by decide) (by decide)).1

theorem chargeDelta_zero (ing : Ingredient)
    (hno : ∀ kv ∈ ing.consumableIDs, kv.1 ≠ ConsKey.charges) : chargeDelta ing = 0 := by
  unfold chargeDelta
  apply List.sum_eq_zero
  intro x hx
  obtain ⟨kv, hkv, rfl⟩ := List.mem_map.1 hx
  have := hno kv hkv
  cases hk : kv.1 with
  | dura => rfl
  | charges => exact absurd hk this

/-- C26: charges are at least 1 in every derived map.  When the derivation returns a map, its
charges entry is at least 1, whatever the category; if the type is not a consumable (for the
type test and for the category table) and no ingredient declares a charge delta, then
`getConsumableCharges` returns 0 and the charges entry is exactly 1. -/
theorem charges_at_least_one (E : Env) (r : Recipe) (t : Int × Int) (ings : Six Ingredient)
    (a : Option String) (h : Str) (hok : (initCraftStats E r t ings a h).isOk = true) :
    ∃ sm, initCraftStats E r t ings a h = .ok sm ∧ 1 ≤ sm.charges ∧
      (E.isConsumable (toLowerCase r.type) = false →
        E.getCategory (toLowerCase r.type) ≠ some "consumable" →
        (∀ ing ∈ ings.toList, ∀ kv ∈ ing.consumableIDs, kv.1 ≠ ConsKey.charges) →
        (∀ m : StatMap, m.type = toLowerCase r.type → getConsumableCharges E r m = 0) ∧
        sm.charges = 1) := by
  obtain ⟨sm, hsm⟩ := isOk_ok _ hok
  obtain ⟨-, -, v3⟩ := initCraftStats_view E r t ings a h sm hsm
  refine ⟨sm, hsm, ?_, ?_⟩
  · rw [v3]
    split_ifs with hlt
    · exact le_refl 1
    · omega
  · intro hc1 hc2 hno
    obtain ⟨-, b0⟩ := baseCraftStats_charges_zero E r t ings a h hc1 hc2
    have hz : (ings.toList.enum.map (fun p => chargeDelta p.2)).sum = 0 := by
      simp only [Six.toList, List.mem_cons, List.mem_singleton, forall_eq_or_imp, forall_eq,
        List.not_mem_nil, false_implies, implies_true, and_true] at hno
      obtain ⟨h0, h1, h2, h3, h4, h5⟩ := hno
      simp only [Six.toList, List.enum, List.enumFrom, List.map_cons, List.map_nil,
        List.sum_cons, List.sum_nil, chargeDelta_zero _ h0, chargeDelta_zero _ h1,
        chargeDelta_zero _ h2, chargeDelta_zero _ h3, chargeDelta_zero _ h4,
        chargeDelta_zero _ h5, add_zero]
    refine ⟨?_, ?_⟩
    · intro m hm
      simp [getConsumableCharges, hm, hc1]
    · rw [v3, b0, hz]
      rfl

/-- Witness of C26: the example helmet craft ends with charges 1. -/
theorem charges_at_least_one_witness :
    ∃ sm, initCraftStats exEnv (exRecipe 0 "HELMET") (2, 3) exHelmetCraft.ingreds
        (some "NORMAL") [] = .ok sm ∧ 1 ≤ sm.charges ∧ sm.charges = 1 := by
  obtain ⟨sm, h1, h2, h3⟩ := charges_at_least_one exEnv (exRecipe 0 "HELMET") (2, 3)
    exHelmetCraft.ingreds (some "NORMAL") [] (by decide)
  exact ⟨sm, h1, h2, (h3 (by decide) (by decide) (by decide)).2⟩
